import Mathlib

/-!
# gothreadsafe: SafeMap, SafeSet and SafeSlice

A shallow embedding of `safemap/safemap.go`, `safeset/safeset.go` and
`safeslice/safeslice.go`.

* A Go `map[K]V` is a finite list of entries with pairwise distinct keys
  (`GoMap`).  The keys are compared with decidable equality, which is
  the operator `==` of Go on every comparable type whose equality is reflexive.
* On a key type that holds a floating-point NaN the operator `==` is not
  reflexive.  The section on keys compared with `==` has the map, `SafeMap`
  and `Set` for such types as well (`GoEq`, namespace `Comparable`); what is
  stated there holds for every comparable key type.
* A `for ... range` loop over a map visits the entries in an order Go leaves
  unspecified; every loop takes the order it uses as a `RangeOrder`.
* A Go slice is the list of its elements; an index or slice expression out of
  range is a fault, written `none`.  The methods that take a slice from the
  caller or hand one out (`InsertMany`, `Copy`, `Export`, `Values`) are
  embedded with the backing arrays as explicit state (namespace `Arrays`),
  since the slice may share its array with the receiver.
* The mutexes are not part of the embedding: every function is the sequential
  body that runs while the lock is held.  The one exception is the comparison
  methods of `SafeSliceComparable` that call each other, where the two mutexes
  are explicit state.
* A Go `int` that holds a length is a `Nat`; an `int` that is an index is an
  `Int`.
-/

namespace GoThreadSafe

/-! ## The built-in map -/

/-- Value stored under `k` in a list of entries, if any.  The keys are compared
with the equality of their values: this is the read of a map whose key type
has a reflexive `==`; `Comparable.lookupL` is the read for every key type. -/
def lookupL {K V : Type} [DecidableEq K] (k : K) : List (K × V) → Option V
  | [] => none
  | e :: es => if e.1 = k then some e.2 else lookupL k es

/-- All entries except those stored under `k`. -/
def eraseL {K V : Type} [DecidableEq K] (k : K) (es : List (K × V)) : List (K × V) :=
  es.filter (fun e => !decide (e.1 = k))

/-- A Go `map[K]V` for a key type whose `==` is reflexive: entries with pairwise
distinct keys.  The position of an entry in the list has no meaning for the
program: a loop sees the entries through a `RangeOrder`.  A key type that
holds a NaN has `Comparable.GoMap`. -/
structure GoMap (K V : Type) where
  entries : List (K × V)
  nodup : (entries.map Prod.fst).Nodup

namespace GoMap

variable {K V : Type}

/-- The map made by `make(map[K]V)`. -/
def empty : GoMap K V := ⟨[], List.nodup_nil⟩

/-- The comma-ok read `v, ok := m[k]`. -/
def lookup [DecidableEq K] (m : GoMap K V) (k : K) : Option V :=
  lookupL k m.entries

/-- The built-in `delete(m, k)`. -/
def erase [DecidableEq K] (m : GoMap K V) (k : K) : GoMap K V :=
  ⟨eraseL k m.entries,
    (m.nodup).sublist ((List.filter_sublist m.entries).map Prod.fst)⟩

/-- The assignment `m[k] = v`. -/
def insert [DecidableEq K] (m : GoMap K V) (k : K) (v : V) : GoMap K V :=
  ⟨(k, v) :: eraseL k m.entries, by
    have h := (m.erase k).nodup
    simp only [erase] at h
    simp only [List.map_cons, List.nodup_cons]
    refine ⟨?_, h⟩
    simp [eraseL, List.mem_map, List.mem_filter]⟩

/-- The built-in `len(m)`. -/
def len (m : GoMap K V) : Nat := m.entries.length

end GoMap

/-- The order in which one `range` loop visits the entries of a map: Go leaves
it unspecified, so it is any rearrangement of the entries. -/
structure RangeOrder (α : Type) where
  visit : List α → List α
  perm : ∀ l, (visit l).Perm l

/-- Visit the entries as they are stored. -/
def RangeOrder.stored {α : Type} : RangeOrder α := ⟨fun l => l, fun l => List.Perm.refl l⟩

/-- Visit the entries from the last stored to the first. -/
def RangeOrder.backwards {α : Type} : RangeOrder α :=
  ⟨fun l => l.reverse, fun l => List.reverse_perm l⟩

/-- The entries of `m` in the order a `range` loop following `o` sees them. -/
def GoMap.range {K V : Type} (o : RangeOrder (K × V)) (m : GoMap K V) : List (K × V) :=
  o.visit m.entries

/-! ## safemap.go

The map and the methods for a key type whose `==` is reflexive.  The section
on keys compared with `==` has `SetNX`, `NewSafeMapFromKeysValues` and
`GetKeysValues`, and these methods again, for every key type. -/

/-- The errors the constructors of `SafeMap` return. -/
inductive MapError where
  | lengthMismatch
  | oddLength
  | badKey
  | badValue
  deriving DecidableEq, Repr

/-- The struct `SafeMap[K, V]`: the map `m` (the embedded `sync.RWMutex` holds
no data). -/
structure SafeMap (K V : Type) where
  m : GoMap K V

/-- The Go type `any` as the generic code of `SafeMap[K, V]` uses it: values of
`K` and `V` are converted to `any` when they are appended to a `[]any`, and an
`any` is read back with the comma-ok type assertions `x.(K)` and `x.(V)`,
which give `none` when `ok` is false. -/
structure AnyRepr (A K V : Type) where
  boxK : K → A
  boxV : V → A
  assertK : A → Option K
  assertV : A → Option V

namespace SafeMap

variable {K V : Type}

/-- Function `NewSafeMap`. -/
def NewSafeMap : SafeMap K V := ⟨GoMap.empty⟩

/-- Function `NewSafeMapFromMap`: the loop ranges over `sm.m`, the map just made, and
stores each of its entries into `sm.m`; the argument `m` is not read.  The
entries visited are those `sm.m` holds when the loop starts. -/
def NewSafeMapFromMap [DecidableEq K] (o : RangeOrder (K × V)) (_m : GoMap K V) :
    SafeMap K V :=
  let sm : SafeMap K V := ⟨GoMap.empty⟩
  (sm.m.range o).foldl (fun (acc : SafeMap K V) e => ⟨acc.m.insert e.1 e.2⟩) sm

/-- The loop of `NewSafeMapFromKeyValuePairs` from position `i` on, `xs` being
`keysValues[i:]`: it returns at the first failed assertion with the map built
so far.  The length is even when the loop runs, so a lone last element does
not occur. -/
def pairsLoop {A : Type} [DecidableEq K] (c : AnyRepr A K V) :
    List A → SafeMap K V → SafeMap K V × Option MapError
  | x :: y :: rest, sm =>
    match c.assertK x with
    | none => (sm, some MapError.badKey)
    | some key =>
      match c.assertV y with
      | none => (sm, some MapError.badValue)
      | some value => pairsLoop c rest ⟨sm.m.insert key value⟩
  | _, sm => (sm, none)

/-- Function `NewSafeMapFromKeyValuePairs`. -/
def NewSafeMapFromKeyValuePairs {A : Type} [DecidableEq K] (c : AnyRepr A K V)
    (keysValues : List A) : SafeMap K V × Option MapError :=
  let sm : SafeMap K V := ⟨GoMap.empty⟩
  if keysValues.length % 2 ≠ 0 then
    (sm, some MapError.oddLength)
  else
    pairsLoop c keysValues sm

/-- Function `Get`: the value and `true`, or the zero value of `V` and `false`. -/
def Get [DecidableEq K] [Inhabited V] (sm : SafeMap K V) (k : K) : V × Bool :=
  match sm.m.lookup k with
  | some val => (val, true)
  | none => (default, false)

/-- Function `Set`. -/
def Set [DecidableEq K] (sm : SafeMap K V) (k : K) (v : V) : SafeMap K V :=
  ⟨sm.m.insert k v⟩

/-- Function `Delete`. -/
def Delete [DecidableEq K] (sm : SafeMap K V) (k : K) : SafeMap K V :=
  ⟨sm.m.erase k⟩

/-- Function `Pop`: the map afterwards and the returned pair; `v` is the zero value
when the key is absent. -/
def Pop [DecidableEq K] [Inhabited V] (sm : SafeMap K V) (k : K) :
    SafeMap K V × (V × Bool) :=
  let r : V × Bool :=
    match sm.m.lookup k with
    | some v => (v, true)
    | none => (default, false)
  (⟨sm.m.erase k⟩, r)

/-- Function `Len`. -/
def Len (sm : SafeMap K V) : Nat := sm.m.len

/-- Function `IsEmpty`. -/
def IsEmpty (sm : SafeMap K V) : Bool := sm.m.len == 0

/-- Function `Clear`. -/
def Clear (_sm : SafeMap K V) : SafeMap K V := ⟨GoMap.empty⟩

/-- Function `GetMap`: the map itself, not a copy. -/
def GetMap (sm : SafeMap K V) : GoMap K V := sm.m

/-- Function `GetKeys`. -/
def GetKeys (o : RangeOrder (K × V)) (sm : SafeMap K V) : List K :=
  (sm.m.range o).foldl (fun keys e => keys ++ [e.1]) []

/-- Function `GetValues`. -/
def GetValues (o : RangeOrder (K × V)) (sm : SafeMap K V) : List V :=
  (sm.m.range o).foldl (fun values e => values ++ [e.2]) []

/-- Function `GetKeyValuePairs`: each visited entry appends its key, then its value. -/
def GetKeyValuePairs {A : Type} (c : AnyRepr A K V) (o : RangeOrder (K × V))
    (sm : SafeMap K V) : List A :=
  (sm.m.range o).foldl (fun keysValues e => (keysValues ++ [c.boxK e.1]) ++ [c.boxV e.2]) []

end SafeMap

/-- The keys of a map as a finite set. -/
def GoMap.keySet {K V : Type} [DecidableEq K] (m : GoMap K V) : Finset K :=
  (m.entries.map Prod.fst).toFinset

/-! ### Reading a flat sequence as typed pairs -/

/-- The map after `m[e.1] = e.2` has run for every `e` of `ps` in turn. -/
def GoMap.insertAll {K V : Type} [DecidableEq K] (m : GoMap K V) (ps : List (K × V)) :
    GoMap K V :=
  ps.foldl (fun acc e => acc.insert e.1 e.2) m

/-- The list `ps` is the typed pairs of `xs`: `xs` has twice as many
elements as `ps`, and for every `j` the assertion `.(K)` on `xs[2j]` gives the
key of `ps[j]` and the assertion `.(V)` on `xs[2j+1]` gives its value. -/
def IsTypedPairs {A K V : Type} (c : AnyRepr A K V) (xs : List A) (ps : List (K × V)) : Prop :=
  xs.length = 2 * ps.length ∧
  ∀ j k v, ps[j]? = some (k, v) →
    (xs[2 * j]?).bind c.assertK = some k ∧ (xs[2 * j + 1]?).bind c.assertV = some v

/-- The flat sequence key, value, key, value, ... made from the entries `es`. -/
def flatPairs {A K V : Type} (c : AnyRepr A K V) : List (K × V) → List A
  | [] => []
  | e :: es => c.boxK e.1 :: c.boxV e.2 :: flatPairs c es

/-! ### Sequences of calls -/

/-- One call of `Set` or `Get` on a `SafeMap`. -/
inductive MapCall (K V : Type) where
  | set (k : K) (v : V)
  | get (k : K)

/-! ## safeset.go

The set and the methods for an element type whose `==` is reflexive.  The
section on keys compared with `==` has `AddWithCheck`, `Difference`,
`SymmetricDifference`, `IsSubsetOf`, `IsSupersetOf`, `Equal` and `Clone`, and
these methods again, for every element type. -/

namespace SafeSet

/-- The struct `Set[T]`: the map `items` from the elements to `struct{}` (the
mutex `mu` holds no data). -/
structure Set (T : Type) where
  items : GoMap T Unit

namespace Set

variable {T : Type}

/-- Function `NewSet`. -/
def NewSet : Set T := ⟨GoMap.empty⟩

/-- Function `Add`. -/
def Add [DecidableEq T] (s : Set T) (item : T) : Set T :=
  ⟨s.items.insert item ()⟩

/-- Function `NewSetWithValues`. -/
def NewSetWithValues [DecidableEq T] (values : List T) : Set T :=
  values.foldl (fun s value => s.Add value) NewSet

/-- Function `Remove`. -/
def Remove [DecidableEq T] (s : Set T) (item : T) : Set T :=
  ⟨s.items.erase item⟩

/-- Function `Contains`. -/
def Contains [DecidableEq T] (s : Set T) (item : T) : Bool :=
  (s.items.lookup item).isSome

/-- Function `Size`. -/
def Size (s : Set T) : Nat := s.items.len

/-- Function `Clear`. -/
def Clear (_s : Set T) : Set T := ⟨GoMap.empty⟩

/-- Function `IsEmpty`. -/
def IsEmpty (s : Set T) : Bool := s.items.len == 0

/-- Function `Union` on the values of the two operands: the new set receives every
item of `s`, then every item of `other`. -/
def Union [DecidableEq T] (o1 o2 : RangeOrder (T × Unit)) (s other : Set T) : Set T :=
  let unionSet : Set T := NewSet
  let unionSet := (s.items.range o1).foldl (fun u e => u.Add e.1) unionSet
  let unionSet := (other.items.range o2).foldl (fun u e => u.Add e.1) unionSet
  unionSet

/-- Function `Intersection` on the values of the two operands. -/
def Intersection [DecidableEq T] (o : RangeOrder (T × Unit)) (s other : Set T) : Set T :=
  (s.items.range o).foldl (fun r e => if other.Contains e.1 then r.Add e.1 else r) NewSet

end Set

/-! ### Sets behind pointers

The methods of `Set[T]` take a `*Set[T]`, and `Union` may be called with the
same pointer twice.  Here a pointer is a position in a heap of sets, and a
method called through a pointer that is not allocated faults (`none`). -/

/-- A `*Set[T]`. -/
abbrev Ptr := Nat

/-- The sets that have been allocated, each at its pointer. -/
structure Heap (T : Type) where
  cells : List (Set T)

namespace Heap

variable {T : Type}

/-- The set `p` points to. -/
def deref (h : Heap T) (p : Ptr) : Option (Set T) := h.cells[p]?

/-- Overwrite the set `p` points to. -/
def store (h : Heap T) (p : Ptr) (s : Set T) : Heap T := ⟨h.cells.set p s⟩

/-- Function `NewSet` through the heap: a new set at a pointer not in use. -/
def NewSet (h : Heap T) : Heap T × Ptr := (⟨h.cells ++ [Set.NewSet]⟩, h.cells.length)

/-- Function `Add` through a pointer. -/
def Add [DecidableEq T] (h : Heap T) (s : Ptr) (item : T) : Option (Heap T) :=
  match h.deref s with
  | none => none
  | some v => some (h.store s (v.Add item))

/-- The loop that calls `u.Add(item)` for every visited `item`. -/
def addEach [DecidableEq T] (u : Ptr) : List (T × Unit) → Heap T → Option (Heap T)
  | [], h => some h
  | e :: es, h =>
    match h.Add u e.1 with
    | none => none
    | some h1 => addEach u es h1

/-- Function `Union` through pointers: the heap afterwards and the pointer returned.
Each loop ranges over the items its operand holds when the loop starts. -/
def Union [DecidableEq T] (o1 o2 : RangeOrder (T × Unit)) (h : Heap T) (s other : Ptr) :
    Option (Heap T × Ptr) :=
  match h.deref s, h.deref other with
  | some _, some _ =>
    let r := h.NewSet
    let unionSet := r.2
    match r.1.deref s with
    | none => none
    | some sv =>
      match addEach unionSet (sv.items.range o1) r.1 with
      | none => none
      | some h1 =>
        match h1.deref other with
        | none => none
        | some ov =>
          match addEach unionSet (ov.items.range o2) h1 with
          | none => none
          | some h2 => some (h2, unionSet)
  | _, _ => none

end Heap

end SafeSet

/-! ## safeslice.go

A slice is the list of its elements.  For the methods of this section the
backing array and the capacity play no part: they take no slice from the
caller and hand none out, and `append(a, b...)` leaves the elements `a ++ b`
in its result, also when Go writes the result over the array of `a`.  The
methods `InsertMany`, `Copy`, `Export` and `Values` are in the section on
slices with their backing arrays.  An index or slice expression out of range
is a run-time fault, written `none`.  A method returns the receiver as it is
after the call, together with its result if it has one.  A function passed by
the caller is a total function without effects.  Package `slice`
(`slice.go`) declares `Append`, `Get`, `Len` and `Export` with the same
bodies. -/

/-- The index expression `s[i]`; `none` is the out-of-range fault. -/
def goIndex {T : Type} (s : List T) (i : Int) : Option T :=
  if 0 ≤ i ∧ i < (s.length : Int) then s[i.toNat]? else none

/-- The assignment `s[i] = x`; `none` is the out-of-range fault. -/
def goSetIndex {T : Type} (s : List T) (i : Int) (x : T) : Option (List T) :=
  if 0 ≤ i ∧ i < (s.length : Int) then some (s.set i.toNat x) else none

/-- The slice expression `s[:j]` for `j` up to the length; `none` is the
out-of-range fault. -/
def goSliceTo {T : Type} (s : List T) (j : Int) : Option (List T) :=
  if 0 ≤ j ∧ j ≤ (s.length : Int) then some (s.take j.toNat) else none

/-- The slice expression `s[i:]`; `none` is the out-of-range fault. -/
def goSliceFrom {T : Type} (s : List T) (i : Int) : Option (List T) :=
  if 0 ≤ i ∧ i ≤ (s.length : Int) then some (s.drop i.toNat) else none

/-- The assignment `s[i], s[j] = s[j], s[i]`: both right-hand sides are read,
then `s[i]` and `s[j]` are written; `none` is the out-of-range fault. -/
def goSwap {T : Type} (s : List T) (i j : Int) : Option (List T) :=
  match goIndex s j, goIndex s i with
  | some vj, some vi =>
    match goSetIndex s i vj with
    | some s1 => goSetIndex s1 j vi
    | none => none
  | _, _ => none

/-- The struct `SafeSlice[T]`: the slice `slice` (the mutex `mu` holds no
data). -/
structure SafeSlice (T : Type) where
  slice : List T

namespace SafeSlice

variable {T : Type}

/-- Function `NewSafeSlice`. -/
def NewSafeSlice : SafeSlice T := ⟨[]⟩

/-- Function `NewSafeSliceFromSlice`. -/
def NewSafeSliceFromSlice (slice : List T) : SafeSlice T :=
  let s : SafeSlice T := NewSafeSlice
  ⟨s.slice ++ slice⟩

/-- Function `Append`. -/
def Append (s : SafeSlice T) (x : T) : SafeSlice T := ⟨s.slice ++ [x]⟩

/-- Function `Get`: the receiver afterwards and the value returned. -/
def Get [Inhabited T] (s : SafeSlice T) (i : Int) : Option (SafeSlice T × T) :=
  if i < 0 ∨ i ≥ (s.slice.length : Int) then
    some (s, default)
  else
    match goIndex s.slice i with
    | none => none
    | some v => some (s, v)

/-- Function `Len`. -/
def Len (s : SafeSlice T) : Nat := s.slice.length

/-- Function `Insert`. -/
def Insert (s : SafeSlice T) (i : Int) (x : T) : Option (SafeSlice T) :=
  if i < 0 ∨ i ≥ (s.slice.length : Int) then
    some ⟨s.slice ++ [x]⟩
  else
    match goSliceTo s.slice (i + 1), goSliceFrom s.slice i with
    | some a, some b =>
      match goSetIndex (a ++ b) i x with
      | some r => some ⟨r⟩
      | none => none
    | _, _ => none

/-- Function `Set`. -/
def Set (s : SafeSlice T) (i : Int) (x : T) : Option (SafeSlice T) :=
  if i ≥ 0 ∧ i < (s.slice.length : Int) then
    match goSetIndex s.slice i x with
    | some r => some ⟨r⟩
    | none => none
  else
    some s

/-- The loop of `Reverse` from the indices `i` and `j` on; it runs at most
`fuel` times, and `none` is a fault or the fuel used up. -/
def reverseLoop : Nat → Int → Int → List T → Option (List T)
  | 0, i, j, sl => if i < j then none else some sl
  | fuel + 1, i, j, sl =>
    if i < j then
      match goSwap sl i j with
      | none => none
      | some sl1 => reverseLoop fuel (i + 1) (j - 1) sl1
    else
      some sl

/-- Function `Reverse`; the loop runs fewer than `len(s.slice)` times. -/
def Reverse (s : SafeSlice T) : Option (SafeSlice T) :=
  match reverseLoop s.slice.length 0 ((s.slice.length : Int) - 1) s.slice with
  | none => none
  | some r => some ⟨r⟩

/-- Function `Map`: the receiver afterwards and the new slice. -/
def Map (s : SafeSlice T) (fn : T → T) : SafeSlice T × SafeSlice T :=
  (s, s.slice.foldl (fun (result : SafeSlice T) e => result.Append (fn e)) NewSafeSlice)

/-- The loop of `ForEach` over the elements from index `i` on: `s.slice[i]` is
written after the element at `i` has been read. -/
def forEachLoop (fn : T → T) : List T → Int → List T → Option (List T)
  | [], _, sl => some sl
  | e :: es, i, sl =>
    match goSetIndex sl i (fn e) with
    | none => none
    | some sl1 => forEachLoop fn es (i + 1) sl1

/-- Function `ForEach`. -/
def ForEach (s : SafeSlice T) (fn : T → T) : Option (SafeSlice T) :=
  match forEachLoop fn s.slice 0 s.slice with
  | none => none
  | some r => some ⟨r⟩

/-- Function `Filter`: the receiver afterwards and the new slice. -/
def Filter (s : SafeSlice T) (fn : T → Bool) : SafeSlice T × SafeSlice T :=
  (s, s.slice.foldl (fun (result : SafeSlice T) e => if fn e then result.Append e else result)
    NewSafeSlice)

/-- The loop of `Reduce` from index `i` on; it runs at most `fuel` times, and
`none` is a fault or the fuel used up. -/
def reduceLoop (fn : T → T → T) (sl : List T) : Nat → Int → T → Option T
  | 0, i, result => if i < (sl.length : Int) then none else some result
  | fuel + 1, i, result =>
    if i < (sl.length : Int) then
      match goIndex sl i with
      | none => none
      | some e => reduceLoop fn sl fuel (i + 1) (fn result e)
    else
      some result

/-- Function `Reduce`: the receiver afterwards and the value returned. -/
def Reduce [Inhabited T] (s : SafeSlice T) (fn : T → T → T) : Option (SafeSlice T × T) :=
  if s.slice.length = 0 then
    some (s, default)
  else
    match goIndex s.slice 0 with
    | none => none
    | some first =>
      match reduceLoop fn s.slice s.slice.length 1 first with
      | none => none
      | some result => some (s, result)

/-- The loop of `All`. -/
def allLoop (fn : T → Bool) : List T → Bool
  | [] => true
  | e :: es => if !fn e then false else allLoop fn es

/-- Function `All`: the receiver afterwards and the value returned. -/
def All (s : SafeSlice T) (fn : T → Bool) : SafeSlice T × Bool := (s, allLoop fn s.slice)

/-- The loop of `Any`. -/
def anyLoop (fn : T → Bool) : List T → Bool
  | [] => false
  | e :: es => if fn e then true else anyLoop fn es

/-- Function `Any`: the receiver afterwards and the value returned. -/
def Any (s : SafeSlice T) (fn : T → Bool) : SafeSlice T × Bool := (s, anyLoop fn s.slice)

/-- The loop of `Find`, with the zero value returned after it. -/
def findLoop [Inhabited T] (fn : T → Bool) : List T → T
  | [] => default
  | e :: es => if fn e then e else findLoop fn es

/-- Function `Find`: the receiver afterwards and the value returned. -/
def Find [Inhabited T] (s : SafeSlice T) (fn : T → Bool) : SafeSlice T × T :=
  (s, findLoop fn s.slice)

/-- The loop of `FindIndex` over the elements from index `i` on, with the `-1`
returned after it. -/
def findIndexLoop (fn : T → Bool) : List T → Int → Int
  | [], _ => -1
  | e :: es, i => if fn e then i else findIndexLoop fn es (i + 1)

/-- Function `FindIndex`: the receiver afterwards and the value returned. -/
def FindIndex (s : SafeSlice T) (fn : T → Bool) : SafeSlice T × Int :=
  (s, findIndexLoop fn s.slice 0)

/-- The loop of `FindLast` from index `i` down, with the zero value returned
after it; it runs at most `fuel` times, and `none` is a fault or the fuel used
up. -/
def findLastLoop [Inhabited T] (fn : T → Bool) (sl : List T) : Nat → Int → Option T
  | 0, i => if i ≥ 0 then none else some default
  | fuel + 1, i =>
    if i ≥ 0 then
      match goIndex sl i with
      | none => none
      | some e => if fn e then goIndex sl i else findLastLoop fn sl fuel (i - 1)
    else
      some default

/-- Function `FindLast`: the receiver afterwards and the value returned. -/
def FindLast [Inhabited T] (s : SafeSlice T) (fn : T → Bool) : Option (SafeSlice T × T) :=
  match findLastLoop fn s.slice s.slice.length ((s.slice.length : Int) - 1) with
  | none => none
  | some v => some (s, v)

/-- The loop of `FindLastIndex` from index `i` down, with the `-1` returned
after it; it runs at most `fuel` times, and `none` is a fault or the fuel used
up. -/
def findLastIndexLoop (fn : T → Bool) (sl : List T) : Nat → Int → Option Int
  | 0, i => if i ≥ 0 then none else some (-1)
  | fuel + 1, i =>
    if i ≥ 0 then
      match goIndex sl i with
      | none => none
      | some e => if fn e then some i else findLastIndexLoop fn sl fuel (i - 1)
    else
      some (-1)

/-- Function `FindLastIndex`: the receiver afterwards and the value returned. -/
def FindLastIndex (s : SafeSlice T) (fn : T → Bool) : Option (SafeSlice T × Int) :=
  match findLastIndexLoop fn s.slice s.slice.length ((s.slice.length : Int) - 1) with
  | none => none
  | some v => some (s, v)

/-- Function `Remove`: `result` starts as the nil slice. -/
def Remove (s : SafeSlice T) (fn : T → Bool) : SafeSlice T :=
  ⟨s.slice.foldl (fun (result : List T) e => if !fn e then result ++ [e] else result) []⟩

/-- Function `RemoveAt`. -/
def RemoveAt (s : SafeSlice T) (i : Int) : Option (SafeSlice T) :=
  if i < 0 ∨ i ≥ (s.slice.length : Int) then
    some s
  else
    match goSliceTo s.slice i, goSliceFrom s.slice (i + 1) with
    | some a, some b => some ⟨a ++ b⟩
    | _, _ => none

/-- Function `SplitByFilter`: the receiver afterwards and the pair returned. -/
def SplitByFilter (s : SafeSlice T) (fn : T → Bool) :
    SafeSlice T × (SafeSlice T × SafeSlice T) :=
  (s, s.slice.foldl
    (fun (lr : SafeSlice T × SafeSlice T) e =>
      if fn e then (lr.1.Append e, lr.2) else (lr.1, lr.2.Append e))
    (NewSafeSlice, NewSafeSlice))

/-- The loop of `SplitAtIndex` over the elements from index `j` on. -/
def splitAtLoop (i : Int) : List T → Int → SafeSlice T → SafeSlice T →
    SafeSlice T × SafeSlice T
  | [], _, left, right => (left, right)
  | e :: es, j, left, right =>
    if j < i then splitAtLoop i es (j + 1) (left.Append e) right
    else splitAtLoop i es (j + 1) left (right.Append e)

/-- Function `SplitAtIndex`: the receiver afterwards and the pair returned. -/
def SplitAtIndex (s : SafeSlice T) (i : Int) : SafeSlice T × (SafeSlice T × SafeSlice T) :=
  (s, splitAtLoop i s.slice 0 NewSafeSlice NewSafeSlice)

/-- Modelled from the spec: the insertion step of the model of `sort.Slice`
below, which puts `x` before the first element it is less than. -/
def sortInsert (less : T → T → Bool) (x : T) : List T → List T
  | [] => [x]
  | y :: ys => if less x y then x :: y :: ys else y :: sortInsert less x ys

/-- Modelled from the spec: the function `sort.Slice` of the Go standard
library, which `SortBy` calls and whose code is not in the repository.  The
spec describes an in-place sort ordered by the comparator of the caller, with
no promise of stability; it is modelled by an insertion sort. -/
def sortSlice (less : T → T → Bool) : List T → List T
  | [] => []
  | x :: xs => sortInsert less x (sortSlice less xs)

/-- Function `SortBy`: the comparator handed to `sort.Slice` compares the
elements at the two positions with `less`. -/
def SortBy (s : SafeSlice T) (less : T → T → Bool) : SafeSlice T :=
  ⟨sortSlice less s.slice⟩

/-- Function `Clear`. -/
def Clear (s : SafeSlice T) : Option (SafeSlice T) :=
  match goSliceTo s.slice 0 with
  | none => none
  | some r => some ⟨r⟩

/-- Function `Swap`. -/
def Swap (s : SafeSlice T) (i j : Int) : Option (SafeSlice T) :=
  match goSwap s.slice i j with
  | none => none
  | some r => some ⟨r⟩

/-- Function `Pop`: the receiver afterwards and the value returned. -/
def Pop [Inhabited T] (s : SafeSlice T) : Option (SafeSlice T × T) :=
  if s.slice.length = 0 then
    some (s, default)
  else
    match goIndex s.slice ((s.slice.length : Int) - 1) with
    | none => none
    | some x =>
      match goSliceTo s.slice ((s.slice.length : Int) - 1) with
      | none => none
      | some r => some (⟨r⟩, x)

/-- Function `PopFront`: the receiver afterwards and the value returned. -/
def PopFront [Inhabited T] (s : SafeSlice T) : Option (SafeSlice T × T) :=
  if s.slice.length = 0 then
    some (s, default)
  else
    match goIndex s.slice 0 with
    | none => none
    | some x =>
      match goSliceFrom s.slice 1 with
      | none => none
      | some r => some (⟨r⟩, x)

/-- Function `Push`. -/
def Push (s : SafeSlice T) (x : T) : SafeSlice T := ⟨s.slice ++ [x]⟩

/-- Function `PushFront`. -/
def PushFront (s : SafeSlice T) (x : T) : SafeSlice T := ⟨[x] ++ s.slice⟩

end SafeSlice

/-! ### SafeSliceComparable -/

/-- The struct `SafeSliceComparable[T]`: the slice `slice` (the mutex `mu` holds
no data). -/
structure SafeSliceComparable (T : Type) where
  slice : List T

namespace SafeSliceComparable

variable {T : Type}

/-- Function `NewSafeSliceComparable`. -/
def NewSafeSliceComparable : SafeSliceComparable T := ⟨[]⟩

/-- The loop of `Contains`. -/
def containsLoop [DecidableEq T] (x : T) : List T → Bool
  | [] => false
  | e :: es => if e = x then true else containsLoop x es

/-- Function `Contains`: the receiver afterwards and the value returned. -/
def Contains [DecidableEq T] (s : SafeSliceComparable T) (x : T) :
    SafeSliceComparable T × Bool :=
  (s, containsLoop x s.slice)

/-- The loop of `Remove` over the elements from index `i` on, `sl` being
`s.slice`: at the first element equal to `x` it stores
`append(s.slice[:i], s.slice[i+1:]...)` and breaks. -/
def removeLoop [DecidableEq T] (x : T) (sl : List T) : List T → Int → Option (List T)
  | [], _ => some sl
  | e :: es, i =>
    if e = x then
      match goSliceTo sl i, goSliceFrom sl (i + 1) with
      | some a, some b => some (a ++ b)
      | _, _ => none
    else
      removeLoop x sl es (i + 1)

/-- Function `Remove`. -/
def Remove [DecidableEq T] (s : SafeSliceComparable T) (x : T) :
    Option (SafeSliceComparable T) :=
  match removeLoop x s.slice s.slice 0 with
  | none => none
  | some r => some ⟨r⟩

/-- Function `RemoveAll`: `result` starts as the nil slice. -/
def RemoveAll [DecidableEq T] (s : SafeSliceComparable T) (x : T) : SafeSliceComparable T :=
  ⟨s.slice.foldl (fun (result : List T) e => if e ≠ x then result ++ [e] else result) []⟩

/-- The loop of `EqualFunc` over the elements from index `i` on: it returns
false at the first index where `fn(e, other[i])` is false.  The loop of `Equal`
is this loop with `==` for `fn`. -/
def equalLoop (fn : T → T → Bool) (other : List T) : List T → Int → Option Bool
  | [], _ => some true
  | e :: es, i =>
    match goIndex other i with
    | none => none
    | some o => if !fn e o then some false else equalLoop fn other es (i + 1)

/-- Function `EqualFunc`: the receiver afterwards and the value returned. -/
def EqualFunc (s : SafeSliceComparable T) (other : List T) (fn : T → T → Bool) :
    Option (SafeSliceComparable T × Bool) :=
  if s.slice.length ≠ other.length then
    some (s, false)
  else
    match equalLoop fn other s.slice 0 with
    | none => none
    | some r => some (s, r)

/-- Function `Equal`: the receiver afterwards and the value returned. -/
def Equal [DecidableEq T] (s : SafeSliceComparable T) (other : SafeSlice T) :
    Option (SafeSliceComparable T × Bool) :=
  if s.slice.length ≠ other.slice.length then
    some (s, false)
  else
    match equalLoop (fun a b => decide (a = b)) other.slice s.slice 0 with
    | none => none
    | some r => some (s, r)

/-- Function `EqualSlice`. -/
def EqualSlice [DecidableEq T] (s : SafeSliceComparable T) (other : List T) :
    Option (SafeSliceComparable T × Bool) :=
  s.EqualFunc other (fun a b => decide (a = b))

/-- Function `EqualValues`. -/
def EqualValues [DecidableEq T] (s : SafeSliceComparable T) (values : List T) :
    Option (SafeSliceComparable T × Bool) :=
  s.EqualSlice values

/-! #### The mutexes of the comparison methods

The functions above are the bodies that run while `mu` is held.  Below, the
two mutexes are part of the state, for calls made by one goroutine while no
other is running: `Lock` on a mutex that is already locked never returns. -/

/-- The two mutexes a comparison touches, each true while it is locked. -/
structure Locks where
  mu : Bool
  otherMu : Bool
  deriving DecidableEq, Repr

/-- How a call ends: it returns a value, it faults, or it waits for ever. -/
inductive Outcome (α : Type) where
  | returns (a : α)
  | faults
  | blocks
  deriving DecidableEq, Repr

/-- Function `Equal` with its mutexes: `s.mu.Lock()`, `other.mu.Lock()`, the
body, and the deferred unlocks. -/
def EqualWithLocks [DecidableEq T] (l : Locks) (s : SafeSliceComparable T)
    (other : SafeSlice T) : Outcome (Locks × Bool) :=
  if l.mu then Outcome.blocks
  else if l.otherMu then Outcome.blocks
  else
    match s.Equal other with
    | none => Outcome.faults
    | some r => Outcome.returns (⟨false, false⟩, r.2)

/-- Function `EqualFunc` with its mutex: `s.mu.Lock()`, the body, and the
deferred unlock; the mutex of another slice is not touched. -/
def EqualFuncWithLocks (l : Locks) (s : SafeSliceComparable T) (other : List T)
    (fn : T → T → Bool) : Outcome (Locks × Bool) :=
  if l.mu then Outcome.blocks
  else
    match s.EqualFunc other fn with
    | none => Outcome.faults
    | some r => Outcome.returns (⟨false, l.otherMu⟩, r.2)

/-- Function `EqualSafeSlice`: it locks `s.mu` and `other.mu`, then calls
`s.Equal(other)` while it holds both. -/
def EqualSafeSlice [DecidableEq T] (l : Locks) (s : SafeSliceComparable T)
    (other : SafeSlice T) : Outcome (Locks × Bool) :=
  if l.mu then Outcome.blocks
  else if l.otherMu then Outcome.blocks
  else
    match EqualWithLocks ⟨true, true⟩ s other with
    | Outcome.returns r => Outcome.returns (⟨false, false⟩, r.2)
    | Outcome.faults => Outcome.faults
    | Outcome.blocks => Outcome.blocks

/-- Function `EqualSafeSliceFunc`: it locks `s.mu` and `other.mu`, then calls
`s.EqualFunc(other.slice, fn)` while it holds both. -/
def EqualSafeSliceFunc (l : Locks) (s : SafeSliceComparable T) (other : SafeSlice T)
    (fn : T → T → Bool) : Outcome (Locks × Bool) :=
  if l.mu then Outcome.blocks
  else if l.otherMu then Outcome.blocks
  else
    match EqualFuncWithLocks ⟨true, true⟩ s other.slice fn with
    | Outcome.returns r => Outcome.returns (⟨false, false⟩, r.2)
    | Outcome.faults => Outcome.faults
    | Outcome.blocks => Outcome.blocks

/-! #### Sequences of calls -/

/-- One call of a method of `SafeSliceComparable` that returns when called with
the mutexes free. -/
inductive Call (T : Type) where
  | contains (x : T)
  | remove (x : T)
  | removeAll (x : T)
  | equal (other : SafeSlice T)
  | equalSlice (other : List T)
  | equalValues (values : List T)
  | equalFunc (other : List T) (fn : T → T → Bool)

/-- The receiver after one call; `none` when the call faults. -/
def step [DecidableEq T] (s : SafeSliceComparable T) : Call T → Option (SafeSliceComparable T)
  | Call.contains x => some (s.Contains x).1
  | Call.remove x => s.Remove x
  | Call.removeAll x => some (s.RemoveAll x)
  | Call.equal other => (s.Equal other).map Prod.fst
  | Call.equalSlice other => (s.EqualSlice other).map Prod.fst
  | Call.equalValues values => (s.EqualValues values).map Prod.fst
  | Call.equalFunc other fn => (s.EqualFunc other fn).map Prod.fst

/-- The receiver after the calls have run one after the other. -/
def run [DecidableEq T] : List (Call T) → SafeSliceComparable T →
    Option (SafeSliceComparable T)
  | [], s => some s
  | c :: cs, s =>
    match step s c with
    | none => none
    | some s1 => run cs s1

end SafeSliceComparable

/-- A comparator that is a strict weak ordering on the elements of `l`: it is
irreflexive and transitive, and being incomparable is transitive. -/
def IsStrictWeakOrderingOn {T : Type} (less : T → T → Bool) (l : List T) : Prop :=
  (∀ a ∈ l, less a a = false) ∧
  (∀ a ∈ l, ∀ b ∈ l, ∀ c ∈ l, less a b = true → less b c = true → less a c = true) ∧
  (∀ a ∈ l, ∀ b ∈ l, ∀ c ∈ l,
    (less a b = false ∧ less b a = false) → (less b c = false ∧ less c b = false) →
    (less a c = false ∧ less c a = false))

/-! ## Values of type `any` used in the examples -/

/-- An `any` that is the nil interface, an `int` or a `string`. -/
inductive Dyn where
  | nil
  | int (n : Int)
  | str (s : String)
  deriving DecidableEq, Repr

/-- The type `any` for `SafeMap[int, string]`: both are non-interface types, so an
assertion succeeds exactly on a value of that dynamic type. -/
def intString : AnyRepr Dyn Int String where
  boxK := Dyn.int
  boxV := Dyn.str
  assertK := fun x => match x with
    | Dyn.int n => some n
    | _ => none
  assertV := fun x => match x with
    | Dyn.str s => some s
    | _ => none

/-- The type `any` for `SafeMap[int, any]`: a value of type `V = any` is stored as it
is, and `x.(any)` holds for every `x` but the nil interface. -/
def intAny : AnyRepr Dyn Int Dyn where
  boxK := Dyn.int
  boxV := fun v => v
  assertK := fun x => match x with
    | Dyn.int n => some n
    | _ => none
  assertV := fun x => match x with
    | Dyn.nil => none
    | v => some v

/-! ## Keys compared with `==`

The operator `==` of Go is not reflexive on every comparable type: a
floating-point NaN is not equal to itself.  A map never finds a key that is
not equal to itself, stores a new entry each time such a key is assigned, and
`delete` never removes it.  This section is the built-in map and the methods
of `SafeMap` and `Set` with the keys compared by `==`. -/

/-- The operator `==` of Go on the comparable type `K`: symmetric and
transitive, and not reflexive where the type holds a NaN.  A comparison that
panics, as on two interface values that hold a slice, is not covered. -/
class GoEq (K : Type) where
  eq : K → K → Bool
  symm : ∀ a b, eq a b = true → eq b a = true
  trans : ∀ a b c, eq a b = true → eq b c = true → eq a c = true

/-- The operator `==` on a type where it is the equality of the values, as on the
integers and the strings. -/
def GoEq.ofDecidableEq (K : Type) [DecidableEq K] : GoEq K where
  eq a b := decide (a = b)
  symm := by
    intro a b h
    simp only [decide_eq_true_eq] at h ⊢
    exact h.symm
  trans := by
    intro a b c h1 h2
    simp only [decide_eq_true_eq] at h1 h2 ⊢
    exact h1.trans h2

instance instGoEqInt : GoEq Int := GoEq.ofDecidableEq Int

/-- A `float64` as far as `==` goes: the NaN, or a number (written as an
integer). -/
inductive Float64 where
  | nan
  | num (n : Int)
  deriving DecidableEq, Repr

/-- The operator `==` on `float64`: two numbers are compared by value, and a NaN
is equal to nothing, itself included. -/
def Float64.eq : Float64 → Float64 → Bool
  | Float64.num x, Float64.num y => decide (x = y)
  | _, _ => false

instance instGoEqFloat64 : GoEq Float64 where
  eq := Float64.eq
  symm := by
    intro a b h
    cases a <;> cases b <;> simp_all [Float64.eq]
  trans := by
    intro a b c h1 h2
    cases a <;> cases b <;> cases c <;> simp_all [Float64.eq]

/-- The type `any` for `SafeMap[float64, int]`, as far as it holds a `float64` or an
`int`: both are non-interface types, so an assertion succeeds exactly on a
value of that dynamic type. -/
def floatInt : AnyRepr (Float64 ⊕ Int) Float64 Int where
  boxK := Sum.inl
  boxV := Sum.inr
  assertK := fun x => match x with
    | Sum.inl f => some f
    | _ => none
  assertV := fun x => match x with
    | Sum.inr n => some n
    | _ => none

namespace Comparable

/-- Value stored under a key equal to `k` in a list of entries, if any. -/
def lookupL {K V : Type} [GoEq K] (k : K) : List (K × V) → Option V
  | [] => none
  | e :: es => if GoEq.eq e.1 k then some e.2 else lookupL k es

/-- All entries except those stored under a key equal to `k`. -/
def eraseL {K V : Type} [GoEq K] (k : K) (es : List (K × V)) : List (K × V) :=
  es.filter (fun e => !GoEq.eq e.1 k)

/-- A Go `map[K]V`: entries no two of which have equal keys.  Two entries may
both have a NaN as key. -/
structure GoMap (K V : Type) [GoEq K] where
  entries : List (K × V)
  distinct : entries.Pairwise (fun a b => GoEq.eq a.1 b.1 = false)

namespace GoMap

variable {K V : Type} [GoEq K]

/-- The map made by `make(map[K]V)`. -/
def empty : GoMap K V := ⟨[], List.Pairwise.nil⟩

/-- The comma-ok read `v, ok := m[k]`. -/
def lookup (m : GoMap K V) (k : K) : Option V :=
  lookupL k m.entries

/-- The assignment `m[k] = v`: the entry with a key equal to `k` is replaced, and
when there is none a new entry is stored. -/
def insert (m : GoMap K V) (k : K) (v : V) : GoMap K V :=
  ⟨(k, v) :: eraseL k m.entries, by
    rw [List.pairwise_cons]
    refine ⟨?_, m.distinct.sublist (List.filter_sublist m.entries)⟩
    intro e he
    have h1 : GoEq.eq e.1 k = false := by
      simpa [eraseL, List.mem_filter] using (List.mem_filter.mp he).2
    cases h2 : GoEq.eq k e.1 with
    | false => rfl
    | true => rw [GoEq.symm k e.1 h2] at h1; cases h1⟩

/-- The built-in `len(m)`. -/
def len (m : GoMap K V) : Nat := m.entries.length

/-- The entries of `m` in the order a `range` loop following `o` sees them. -/
def range (o : RangeOrder (K × V)) (m : GoMap K V) : List (K × V) :=
  o.visit m.entries

/-- The map after `m[e.1] = e.2` has run for every `e` of `ps` in turn. -/
def insertAll (m : GoMap K V) (ps : List (K × V)) : GoMap K V :=
  ps.foldl (fun acc e => acc.insert e.1 e.2) m

end GoMap

/-- The struct `SafeMap[K, V]`. -/
structure SafeMap (K V : Type) [GoEq K] where
  m : GoMap K V

namespace SafeMap

variable {K V : Type} [GoEq K]

/-- Function `NewSafeMap`. -/
def NewSafeMap : SafeMap K V := ⟨GoMap.empty⟩

/-- Function `NewSafeMapFromKeysValues`: after the length check the loop stores
`values[i]` under `keys[i]` for `i = 0 .. len(keys)-1`; the lengths being
equal there, these are the pairs of `keys.zip values` in order. -/
def NewSafeMapFromKeysValues (keys : List K) (values : List V) :
    SafeMap K V × Option MapError :=
  let sm : SafeMap K V := ⟨GoMap.empty⟩
  if keys.length ≠ values.length then
    (sm, some MapError.lengthMismatch)
  else
    ((keys.zip values).foldl (fun (acc : SafeMap K V) e => ⟨acc.m.insert e.1 e.2⟩) sm, none)

/-- The loop of `NewSafeMapFromKeyValuePairs` from position `i` on, `xs` being
`keysValues[i:]`: it returns at the first failed assertion with the map built
so far.  The length is even when the loop runs, so a lone last element does
not occur. -/
def pairsLoop {A : Type} (c : AnyRepr A K V) :
    List A → SafeMap K V → SafeMap K V × Option MapError
  | x :: y :: rest, sm =>
    match c.assertK x with
    | none => (sm, some MapError.badKey)
    | some key =>
      match c.assertV y with
      | none => (sm, some MapError.badValue)
      | some value => pairsLoop c rest ⟨sm.m.insert key value⟩
  | _, sm => (sm, none)

/-- Function `NewSafeMapFromKeyValuePairs`. -/
def NewSafeMapFromKeyValuePairs {A : Type} (c : AnyRepr A K V)
    (keysValues : List A) : SafeMap K V × Option MapError :=
  let sm : SafeMap K V := ⟨GoMap.empty⟩
  if keysValues.length % 2 ≠ 0 then
    (sm, some MapError.oddLength)
  else
    pairsLoop c keysValues sm

/-- Function `Get`: the value and `true`, or the zero value of `V` and `false`. -/
def Get [Inhabited V] (sm : SafeMap K V) (k : K) : V × Bool :=
  match sm.m.lookup k with
  | some val => (val, true)
  | none => (default, false)

/-- Function `Set`. -/
def Set (sm : SafeMap K V) (k : K) (v : V) : SafeMap K V :=
  ⟨sm.m.insert k v⟩

/-- Function `SetNX`: the map afterwards and the returned flag. -/
def SetNX (sm : SafeMap K V) (k : K) (v : V) : SafeMap K V × Bool :=
  match sm.m.lookup k with
  | none => (⟨sm.m.insert k v⟩, true)
  | some _ => (sm, false)

/-- Function `Len`. -/
def Len (sm : SafeMap K V) : Nat := sm.m.len

/-- Function `GetKeysValues`: one loop appends to both slices. -/
def GetKeysValues (o : RangeOrder (K × V)) (sm : SafeMap K V) : List K × List V :=
  (sm.m.range o).foldl (fun (acc : List K × List V) e => (acc.1 ++ [e.1], acc.2 ++ [e.2]))
    ([], [])

end SafeMap

/-- The map after the calls have run one after the other; a `Get` leaves the
map as it is. -/
def runCalls {K V : Type} [GoEq K] [Inhabited V] :
    List (MapCall K V) → SafeMap K V → SafeMap K V
  | [], sm => sm
  | MapCall.set k v :: rest, sm => runCalls rest (sm.Set k v)
  | MapCall.get k :: rest, sm =>
    let _r := sm.Get k
    runCalls rest sm

/-- The value of the last `Set(k1, v)` among the calls with `k1 == k`, if there
is one. -/
def lastSet {K V : Type} [GoEq K] (k : K) : List (MapCall K V) → Option V
  | [] => none
  | MapCall.set k1 v :: rest =>
    match lastSet k rest with
    | some w => some w
    | none => if GoEq.eq k1 k then some v else none
  | MapCall.get _ :: rest => lastSet k rest

/-- The number of distinct keys in a list: a key counts unless a later key of
the list is equal to it.  Every NaN counts, being equal to no key. -/
def distinctCount {K : Type} [GoEq K] : List K → Nat
  | [] => 0
  | k :: ks => (if ks.any (fun k1 => GoEq.eq k k1) then 0 else 1) + distinctCount ks

namespace SafeSet

/-- The struct `Set[T]`: the map `items` from the elements to `struct{}`. -/
structure Set (T : Type) [GoEq T] where
  items : GoMap T Unit

namespace Set

variable {T : Type} [GoEq T]

/-- Function `NewSet`. -/
def NewSet : Set T := ⟨GoMap.empty⟩

/-- Function `Add`. -/
def Add (s : Set T) (item : T) : Set T :=
  ⟨s.items.insert item ()⟩

/-- Function `AddWithCheck`: the set afterwards and `existed`. -/
def AddWithCheck (s : Set T) (item : T) : Set T × Bool :=
  let existed := (s.items.lookup item).isSome
  (⟨s.items.insert item ()⟩, existed)

/-- Function `Contains`. -/
def Contains (s : Set T) (item : T) : Bool :=
  (s.items.lookup item).isSome

/-- Function `Size`. -/
def Size (s : Set T) : Nat := s.items.len

/-- Function `IsEmpty`. -/
def IsEmpty (s : Set T) : Bool := s.items.len == 0

/-- Function `Union` on the values of the two operands: the new set receives every
item of `s`, then every item of `other`. -/
def Union (o1 o2 : RangeOrder (T × Unit)) (s other : Set T) : Set T :=
  let unionSet : Set T := NewSet
  let unionSet := (s.items.range o1).foldl (fun u e => u.Add e.1) unionSet
  let unionSet := (other.items.range o2).foldl (fun u e => u.Add e.1) unionSet
  unionSet

/-- Function `Intersection` on the values of the two operands. -/
def Intersection (o : RangeOrder (T × Unit)) (s other : Set T) : Set T :=
  (s.items.range o).foldl (fun r e => if other.Contains e.1 then r.Add e.1 else r) NewSet

/-- Function `Difference` on the values of the two operands. -/
def Difference (o : RangeOrder (T × Unit)) (s other : Set T) : Set T :=
  (s.items.range o).foldl (fun r e => if !other.Contains e.1 then r.Add e.1 else r) NewSet

/-- The loop of `IsSubsetOf` over the visited entries: it returns false at the
first item that `other` does not contain, and true when there is none. -/
def subsetLoop (other : Set T) : List (T × Unit) → Bool
  | [] => true
  | e :: es => if !other.Contains e.1 then false else subsetLoop other es

/-- Function `IsSubsetOf`. -/
def IsSubsetOf (o : RangeOrder (T × Unit)) (s other : Set T) : Bool :=
  subsetLoop other (s.items.range o)

/-- Function `IsSupersetOf`: the call `other.IsSubsetOf(s)`. -/
def IsSupersetOf (o : RangeOrder (T × Unit)) (s other : Set T) : Bool :=
  other.IsSubsetOf o s

/-- Function `Equal`: `s.IsSubsetOf(other) && s.IsSupersetOf(other)`, each call
with the order of its own loop. -/
def Equal (o1 o2 : RangeOrder (T × Unit)) (s other : Set T) : Bool :=
  s.IsSubsetOf o1 other && s.IsSupersetOf o2 other

/-- Function `Clone`. -/
def Clone (o : RangeOrder (T × Unit)) (s : Set T) : Set T :=
  (s.items.range o).foldl (fun c e => c.Add e.1) NewSet

/-- Function `SymmetricDifference` on the values of the two operands: the
items of `s` that `other` lacks, then the items of `other` that `s` lacks. -/
def SymmetricDifference (o1 o2 : RangeOrder (T × Unit)) (s other : Set T) :
    Set T :=
  let xorSet : Set T := NewSet
  let xorSet := (s.items.range o1).foldl
    (fun r e => if !other.Contains e.1 then r.Add e.1 else r) xorSet
  let xorSet := (other.items.range o2).foldl
    (fun r e => if !s.Contains e.1 then r.Add e.1 else r) xorSet
  xorSet

end Set

end SafeSet

end Comparable

/-! ## Slices with their backing arrays

A slice value of Go is a descriptor: a backing array, the offset of the first
element in it, a length and a capacity.  Two slices may share an array, and
`append` writes into the array of its first argument when the capacity
allows.  This section is the methods of `SafeSlice` that hand a slice in or
out, with the arrays as explicit state: each takes the memory and returns the
memory afterwards. -/

namespace Arrays

/-- The memory: the backing arrays allocated so far, each at its address. -/
structure Mem (T : Type) where
  arrays : List (List T)

/-- A slice value: the address of the backing array, the offset of the element
at index 0, the length and the capacity.  The nil slice has length and
capacity 0. -/
structure Slice where
  arr : Nat
  off : Nat
  len : Nat
  cap : Nat
  deriving DecidableEq, Repr

/-- The backing array at address `a`; no array is the empty one. -/
def Mem.array {T : Type} (m : Mem T) (a : Nat) : List T := m.arrays.getD a []

/-- A slice value is well formed in a memory: the length is within the capacity,
and the capacity within the backing array. -/
def Slice.WF {T : Type} (m : Mem T) (s : Slice) : Prop :=
  s.len ≤ s.cap ∧ s.off + s.cap ≤ (m.array s.arr).length

instance Slice.decidableWF {T : Type} (m : Mem T) (s : Slice) : Decidable (s.WF m) :=
  inferInstanceAs (Decidable (s.len ≤ s.cap ∧ s.off + s.cap ≤ (m.array s.arr).length))

/-- The elements of a slice: `s[0], ..., s[len(s)-1]`. -/
def elems {T : Type} (m : Mem T) (s : Slice) : List T :=
  ((m.array s.arr).drop s.off).take s.len

/-- The memory after `vals` is written into the array at `a` from position `pos`
on. -/
def Mem.write {T : Type} (m : Mem T) (a pos : Nat) (vals : List T) : Mem T :=
  ⟨m.arrays.set a ((m.array a).take pos ++ vals ++ (m.array a).drop (pos + vals.length))⟩

/-- The slice expression `s[:j]`, allowed up to the capacity; `none` is the
out-of-range fault. -/
def sliceTo (s : Slice) (j : Int) : Option Slice :=
  if 0 ≤ j ∧ j ≤ (s.cap : Int) then some ⟨s.arr, s.off, j.toNat, s.cap⟩ else none

/-- The slice expression `s[i:]`; `none` is the out-of-range fault. -/
def sliceFrom (s : Slice) (i : Int) : Option Slice :=
  if 0 ≤ i ∧ i ≤ (s.len : Int) then
    some ⟨s.arr, s.off + i.toNat, s.len - i.toNat, s.cap - i.toNat⟩
  else none

/-- The call `append(s, vals...)`, `vals` being the elements of the second
argument when the call starts.  If the capacity of `s` allows, the values are
written into the array of `s` after its last element; otherwise a new array
receives the elements of `s` and the values.  The capacity of a new array is
up to the Go runtime: it is the length needed plus `spare` of that length. -/
def goAppend {T : Type} [Inhabited T] (spare : Nat → Nat) (m : Mem T) (s : Slice)
    (vals : List T) : Mem T × Slice :=
  if s.len + vals.length ≤ s.cap then
    (m.write s.arr (s.off + s.len) vals, ⟨s.arr, s.off, s.len + vals.length, s.cap⟩)
  else
    (⟨m.arrays ++ [elems m s ++ vals ++
        List.replicate (spare (s.len + vals.length)) default]⟩,
     ⟨m.arrays.length, 0, s.len + vals.length,
       s.len + vals.length + spare (s.len + vals.length)⟩)

/-- The struct `SafeSlice[T]`: the slice value `slice`. -/
structure SafeSlice where
  slice : Slice
  deriving DecidableEq, Repr

namespace SafeSlice

variable {T : Type}

/-- Function `NewSafeSlice`: the field `slice` is the nil slice. -/
def NewSafeSlice : SafeSlice := ⟨⟨0, 0, 0, 0⟩⟩

/-- Function `Len`. -/
def Len (s : SafeSlice) : Nat := s.slice.len

/-- Function `Push`: the memory and the receiver afterwards. -/
def Push [Inhabited T] (spare : Nat → Nat) (m : Mem T) (s : SafeSlice) (x : T) :
    Mem T × SafeSlice :=
  let r := goAppend spare m s.slice [x]
  (r.1, ⟨r.2⟩)

/-- Function `Set`: the memory and the receiver afterwards. -/
def Set (m : Mem T) (s : SafeSlice) (i : Int) (x : T) : Mem T × SafeSlice :=
  if i ≥ 0 ∧ i < (s.slice.len : Int) then
    (m.write s.slice.arr (s.slice.off + i.toNat) [x], s)
  else
    (m, s)

/-- Function `Insert`: the memory and the receiver afterwards; `none` is a
run-time fault. -/
def Insert [Inhabited T] (spare : Nat → Nat) (m : Mem T) (s : SafeSlice) (i : Int) (x : T) :
    Option (Mem T × SafeSlice) :=
  if i < 0 ∨ i ≥ (s.slice.len : Int) then
    let r := goAppend spare m s.slice [x]
    some (r.1, ⟨r.2⟩)
  else
    match sliceTo s.slice (i + 1), sliceFrom s.slice i with
    | some a, some b =>
      let r := goAppend spare m a (elems m b)
      if 0 ≤ i ∧ i < (r.2.len : Int) then
        some (r.1.write r.2.arr (r.2.off + i.toNat) [x], ⟨r.2⟩)
      else none
    | _, _ => none

end SafeSlice

end Arrays

/-! ## Facts about the built-in map -/

section MapFacts

variable {K V : Type} [DecidableEq K]

theorem lookupL_eq_none_iff (k : K) (es : List (K × V)) :
    lookupL k es = none ↔ k ∉ es.map Prod.fst := by
  induction es with
  | nil => simp [lookupL]
  | cons e es ih =>
    by_cases h : e.1 = k
    · simp [lookupL, h]
    · have h2 : ¬ k = e.1 := fun h3 => h h3.symm
      simp [lookupL, h, h2, ih]

theorem lookupL_eq_some_iff (k : K) (v : V) (es : List (K × V))
    (hnd : (es.map Prod.fst).Nodup) : lookupL k es = some v ↔ (k, v) ∈ es := by
  induction es with
  | nil => simp [lookupL]
  | cons e es ih =>
    obtain ⟨k1, v1⟩ := e
    simp only [List.map_cons, List.nodup_cons] at hnd
    by_cases h : k1 = k
    · subst h
      simp only [lookupL, if_true, List.mem_cons, Option.some.injEq, Prod.mk.injEq, true_and]
      constructor
      · intro h1; exact Or.inl h1.symm
      · rintro (h1 | h1)
        · exact h1.symm
        · exact absurd (List.mem_map_of_mem Prod.fst h1) hnd.1
    · have h2 : ¬ k = k1 := fun h3 => h h3.symm
      simp [lookupL, h, h2, ih hnd.2]

theorem eraseL_nil (k : K) : eraseL k ([] : List (K × V)) = [] := rfl

theorem eraseL_cons_eq {k : K} {e : K × V} (h : e.1 = k) (es : List (K × V)) :
    eraseL k (e :: es) = eraseL k es := by
  simp [eraseL, h]

theorem eraseL_cons_ne {k : K} {e : K × V} (h : ¬ e.1 = k) (es : List (K × V)) :
    eraseL k (e :: es) = e :: eraseL k es := by
  simp [eraseL, h]

theorem lookupL_eraseL_self (k : K) (es : List (K × V)) : lookupL k (eraseL k es) = none := by
  rw [lookupL_eq_none_iff]
  simp [eraseL, List.mem_map, List.mem_filter]

theorem lookupL_eraseL_ne {k k1 : K} (h : k1 ≠ k) (es : List (K × V)) :
    lookupL k (eraseL k1 es) = lookupL k es := by
  induction es with
  | nil => rfl
  | cons e es ih =>
    by_cases h1 : e.1 = k1
    · have h2 : ¬ e.1 = k := fun h3 => h (h1.symm.trans h3)
      rw [eraseL_cons_eq h1, ih]
      simp [lookupL, h2]
    · rw [eraseL_cons_ne h1]
      by_cases h2 : e.1 = k
      · simp [lookupL, h2]
      · simp [lookupL, h2, ih]

theorem eraseL_of_lookupL_none {k : K} {es : List (K × V)} (h : lookupL k es = none) :
    eraseL k es = es := by
  induction es with
  | nil => rfl
  | cons e es ih =>
    by_cases h1 : e.1 = k
    · simp [lookupL, h1] at h
    · rw [eraseL_cons_ne h1, ih (by simpa [lookupL, h1] using h)]

theorem length_eraseL_of_lookupL_some {k : K} {v : V} {es : List (K × V)}
    (hnd : (es.map Prod.fst).Nodup) (h : lookupL k es = some v) :
    (eraseL k es).length + 1 = es.length := by
  induction es with
  | nil => simp [lookupL] at h
  | cons e es ih =>
    simp only [List.map_cons, List.nodup_cons] at hnd
    by_cases h1 : e.1 = k
    · have h2 : lookupL k es = none := by
        rw [lookupL_eq_none_iff]; exact h1 ▸ hnd.1
      rw [eraseL_cons_eq h1, eraseL_of_lookupL_none h2]
      rfl
    · have h2 : lookupL k es = some v := by simpa [lookupL, h1] using h
      rw [eraseL_cons_ne h1]
      simp [ih hnd.2 h2]

theorem lookupL_perm {es es1 : List (K × V)} (hp : es.Perm es1)
    (hnd : (es.map Prod.fst).Nodup) (k : K) : lookupL k es = lookupL k es1 := by
  have hnd1 : (es1.map Prod.fst).Nodup := (hp.map Prod.fst).nodup_iff.mp hnd
  cases h : lookupL k es1 with
  | none =>
    rw [lookupL_eq_none_iff] at h ⊢
    exact fun h1 => h ((hp.map Prod.fst).mem_iff.mp h1)
  | some v =>
    rw [lookupL_eq_some_iff k v _ hnd1] at h
    rw [lookupL_eq_some_iff k v _ hnd]
    exact hp.mem_iff.mpr h

namespace GoMap

theorem lookup_empty (k : K) : (GoMap.empty : GoMap K V).lookup k = none := rfl

theorem lookup_insert_self (m : GoMap K V) (k : K) (v : V) :
    (m.insert k v).lookup k = some v := by
  simp [lookup, insert, lookupL]

theorem lookup_insert_ne (m : GoMap K V) {k k1 : K} (h : k1 ≠ k) (v : V) :
    (m.insert k1 v).lookup k = m.lookup k := by
  simp [lookup, insert, lookupL, h, lookupL_eraseL_ne h]

theorem lookup_erase_self (m : GoMap K V) (k : K) : (m.erase k).lookup k = none := by
  simp [lookup, erase, lookupL_eraseL_self]

theorem lookup_erase_ne (m : GoMap K V) {k k1 : K} (h : k1 ≠ k) :
    (m.erase k1).lookup k = m.lookup k := by
  simp [lookup, erase, lookupL_eraseL_ne h]

theorem len_erase_of_none (m : GoMap K V) {k : K} (h : m.lookup k = none) :
    (m.erase k).len = m.len := by
  simp [len, erase, eraseL_of_lookupL_none h]

theorem len_erase_of_some (m : GoMap K V) {k : K} {v : V} (h : m.lookup k = some v) :
    (m.erase k).len + 1 = m.len := by
  simpa [len, erase] using length_eraseL_of_lookupL_some m.nodup h

end GoMap

end MapFacts

theorem GoMap.nodup_range {K V : Type} (o : RangeOrder (K × V)) (m : GoMap K V) :
    ((m.range o).map Prod.fst).Nodup :=
  (((o.perm m.entries).map Prod.fst).nodup_iff).mpr m.nodup

theorem GoMap.range_empty {K V : Type} (o : RangeOrder (K × V)) :
    (GoMap.empty : GoMap K V).range o = [] :=
  (o.perm []).eq_nil

/-! ## Storing a list of pairs -/

section InsertAll

variable {K V : Type} [DecidableEq K]

theorem lookupL_append (k : K) (l1 l2 : List (K × V)) :
    lookupL k (l1 ++ l2) =
      match lookupL k l1 with
      | some v => some v
      | none => lookupL k l2 := by
  induction l1 with
  | nil => rfl
  | cons e l1 ih =>
    by_cases h : e.1 = k
    · simp [lookupL, h]
    · simp [lookupL, h, ih]

theorem lookup_insertAll (m : GoMap K V) (ps : List (K × V)) (k : K) :
    (m.insertAll ps).lookup k =
      match lookupL k ps.reverse with
      | some v => some v
      | none => m.lookup k := by
  induction ps generalizing m with
  | nil => rfl
  | cons p ps ih =>
    have h1 : (m.insertAll (p :: ps)) = (m.insert p.1 p.2).insertAll ps := rfl
    rw [h1, ih, List.reverse_cons, lookupL_append]
    cases h : lookupL k ps.reverse with
    | some w => rfl
    | none =>
      by_cases h2 : p.1 = k
      · subst h2; simp [lookupL, GoMap.lookup_insert_self]
      · simp [lookupL, h2, GoMap.lookup_insert_ne m h2]

theorem mem_keys_iff_lookup (m : GoMap K V) (k : K) :
    k ∈ m.entries.map Prod.fst ↔ m.lookup k ≠ none := by
  have := lookupL_eq_none_iff k m.entries
  simp only [GoMap.lookup]
  constructor
  · intro h1 h2; exact (this.mp h2) h1
  · intro h1; by_contra h2; exact h1 (this.mpr h2)

theorem len_eq_card_keys (m : GoMap K V) :
    m.len = (m.entries.map Prod.fst).toFinset.card := by
  rw [List.toFinset_card_of_nodup m.nodup]
  simp [GoMap.len]

theorem len_insertAll_empty (ps : List (K × V)) :
    ((GoMap.empty : GoMap K V).insertAll ps).len = (ps.map Prod.fst).dedup.length := by
  rw [len_eq_card_keys, ← List.card_toFinset]
  congr 1
  ext k
  rw [List.mem_toFinset, List.mem_toFinset, mem_keys_iff_lookup, lookup_insertAll]
  have h1 : k ∈ ps.map Prod.fst ↔ lookupL k ps.reverse ≠ none := by
    rw [Ne, lookupL_eq_none_iff, List.map_reverse, List.mem_reverse, not_not]
  rw [h1]
  cases h : lookupL k ps.reverse <;> simp [GoMap.lookup_empty]

end InsertAll

/-! ## Induction over a flat sequence, two elements at a time -/

section PairsLoop

variable {A : Type}

theorem list_pairs_induction {P : List A → Prop} (h0 : P []) (h1 : ∀ x, P [x])
    (h2 : ∀ x y rest, P rest → P (x :: y :: rest)) : ∀ l, P l := by
  intro l
  suffices h : P l ∧ ∀ a, P (a :: l) from h.1
  induction l with
  | nil => exact ⟨h0, h1⟩
  | cons b l ih => exact ⟨ih.2 b, fun a => h2 a b l ih.1⟩

end PairsLoop

/-! ## Exporting and rebuilding -/

section Export

variable {A K V : Type}

theorem foldl_flatPairs (c : AnyRepr A K V) (es : List (K × V)) (init : List A) :
    es.foldl (fun keysValues e => (keysValues ++ [c.boxK e.1]) ++ [c.boxV e.2]) init
      = init ++ flatPairs c es := by
  induction es generalizing init with
  | nil => simp [flatPairs]
  | cons e es ih =>
    rw [List.foldl_cons, ih]
    simp [flatPairs]

theorem GetKeyValuePairs_eq (c : AnyRepr A K V) (o : RangeOrder (K × V)) (sm : SafeMap K V) :
    sm.GetKeyValuePairs c o = flatPairs c (sm.m.range o) := by
  rw [SafeMap.GetKeyValuePairs, foldl_flatPairs]
  rfl

theorem length_flatPairs (c : AnyRepr A K V) (es : List (K × V)) :
    (flatPairs c es).length = 2 * es.length := by
  induction es with
  | nil => rfl
  | cons e es ih => simp only [flatPairs, List.length_cons, ih]; omega

theorem foldl_keys_values (es : List (K × V)) (init : List K × List V) :
    es.foldl (fun (acc : List K × List V) e => (acc.1 ++ [e.1], acc.2 ++ [e.2])) init
      = (init.1 ++ es.map Prod.fst, init.2 ++ es.map Prod.snd) := by
  induction es generalizing init with
  | nil => simp
  | cons e es ih => simp [ih]

theorem pairsLoop_flatPairs [DecidableEq K] (c : AnyRepr A K V) (es : List (K × V))
    (hbox : ∀ e ∈ es, c.assertK (c.boxK e.1) = some e.1 ∧ c.assertV (c.boxV e.2) = some e.2)
    (sm : SafeMap K V) :
    SafeMap.pairsLoop c (flatPairs c es) sm = (⟨sm.m.insertAll es⟩, none) := by
  induction es generalizing sm with
  | nil => rfl
  | cons e es ih =>
    have h1 := hbox e (List.mem_cons_self e es)
    have h2 := ih (fun e1 he1 => hbox e1 (List.mem_cons_of_mem e he1)) ⟨sm.m.insert e.1 e.2⟩
    simp only [flatPairs, SafeMap.pairsLoop, h1.1, h1.2, h2]
    rfl

theorem lookup_insertAll_range [DecidableEq K] (o : RangeOrder (K × V)) (m : GoMap K V) (k : K) :
    ((GoMap.empty : GoMap K V).insertAll (m.range o)).lookup k = m.lookup k := by
  rw [lookup_insertAll]
  have hp : ((m.range o).reverse).Perm m.entries :=
    (List.reverse_perm _).trans (o.perm m.entries)
  have hnd : (((m.range o).reverse).map Prod.fst).Nodup := by
    rw [List.map_reverse, List.nodup_reverse]; exact GoMap.nodup_range o m
  have h1 : lookupL k (m.range o).reverse = m.lookup k := lookupL_perm hp hnd k
  rw [h1]
  cases h : m.lookup k <;> simp [GoMap.lookup_empty]

theorem len_insertAll_range [DecidableEq K] (o : RangeOrder (K × V)) (m : GoMap K V) :
    ((GoMap.empty : GoMap K V).insertAll (m.range o)).len = m.len := by
  rw [len_insertAll_empty, (GoMap.nodup_range o m).dedup, List.length_map]
  exact (o.perm m.entries).length_eq

theorem entries_perm_of_lookup_eq [DecidableEq K] (m1 m2 : GoMap K V)
    (h : ∀ k, m1.lookup k = m2.lookup k) : m1.entries.Perm m2.entries := by
  rw [List.perm_ext_iff_of_nodup (List.Nodup.of_map _ m1.nodup) (List.Nodup.of_map _ m2.nodup)]
  rintro ⟨k, v⟩
  rw [← lookupL_eq_some_iff k v _ m1.nodup, ← lookupL_eq_some_iff k v _ m2.nodup]
  have := h k
  simp only [GoMap.lookup] at this
  rw [this]

end Export

/-! ## Sets -/

section SetFacts

variable {T : Type} [DecidableEq T]

theorem mem_keySet {V : Type} (m : GoMap T V) (k : T) : k ∈ m.keySet ↔ m.lookup k ≠ none := by
  rw [GoMap.keySet, List.mem_toFinset, mem_keys_iff_lookup]

theorem card_keySet {V : Type} (m : GoMap T V) : m.keySet.card = m.len :=
  (len_eq_card_keys m).symm

theorem Contains_iff_mem_keySet (s : SafeSet.Set T) (x : T) :
    s.Contains x = true ↔ x ∈ s.items.keySet := by
  rw [mem_keySet, SafeSet.Set.Contains]
  cases h : s.items.lookup x <;> simp

theorem Contains_NewSet (x : T) : (SafeSet.Set.NewSet : SafeSet.Set T).Contains x = false := rfl

theorem Contains_Add (s : SafeSet.Set T) (item x : T) :
    (s.Add item).Contains x = (decide (item = x) || s.Contains x) := by
  by_cases h : item = x
  · subst h; simp [SafeSet.Set.Contains, SafeSet.Set.Add, GoMap.lookup_insert_self]
  · simp [SafeSet.Set.Contains, SafeSet.Set.Add, GoMap.lookup_insert_ne s.items h, h]

theorem mem_range_keys_iff {V : Type} (o : RangeOrder (T × V)) (m : GoMap T V) (x : T) :
    x ∈ (m.range o).map Prod.fst ↔ x ∈ m.keySet := by
  rw [GoMap.keySet, List.mem_toFinset]
  exact ((o.perm m.entries).map Prod.fst).mem_iff

theorem Contains_foldl_Add {V : Type} (l : List (T × V)) (u : SafeSet.Set T) (x : T) :
    (l.foldl (fun (r : SafeSet.Set T) e => r.Add e.1) u).Contains x = true ↔
      x ∈ l.map Prod.fst ∨ u.Contains x = true := by
  induction l generalizing u with
  | nil => simp
  | cons e l ih =>
    rw [List.foldl_cons, ih, Contains_Add]
    simp only [List.map_cons, List.mem_cons, Bool.or_eq_true, decide_eq_true_eq]
    constructor
    · rintro (h | h | h)
      · exact Or.inl (Or.inr h)
      · exact Or.inl (Or.inl h.symm)
      · exact Or.inr h
    · rintro ((h | h) | h)
      · exact Or.inr (Or.inl h.symm)
      · exact Or.inl h
      · exact Or.inr (Or.inr h)

theorem Contains_foldl_Add_if {V : Type} (other : SafeSet.Set T) (l : List (T × V)) (u : SafeSet.Set T) (x : T) :
    (l.foldl (fun (r : SafeSet.Set T) e => if other.Contains e.1 then r.Add e.1 else r) u).Contains x
        = true ↔
      (x ∈ l.map Prod.fst ∧ other.Contains x = true) ∨ u.Contains x = true := by
  induction l generalizing u with
  | nil => simp
  | cons e l ih =>
    rw [List.foldl_cons, ih]
    simp only [List.map_cons, List.mem_cons]
    by_cases hc : other.Contains e.1 = true
    · simp only [hc, if_true, Contains_Add, Bool.or_eq_true, decide_eq_true_eq]
      constructor
      · rintro (h | h | h)
        · exact Or.inl ⟨Or.inr h.1, h.2⟩
        · exact Or.inl ⟨Or.inl h.symm, h ▸ hc⟩
        · exact Or.inr h
      · rintro (⟨h | h, h2⟩ | h)
        · exact Or.inr (Or.inl h.symm)
        · exact Or.inl ⟨h, h2⟩
        · exact Or.inr (Or.inr h)
    · simp only [hc, Bool.false_eq_true, if_false]
      constructor
      · rintro (h | h)
        · exact Or.inl ⟨Or.inr h.1, h.2⟩
        · exact Or.inr h
      · rintro (⟨h | h, h2⟩ | h)
        · exact absurd (h ▸ h2) hc
        · exact Or.inl ⟨h, h2⟩
        · exact Or.inr h

theorem Contains_Union (o1 o2 : RangeOrder (T × Unit)) (s other : SafeSet.Set T) (x : T) :
    (SafeSet.Set.Union o1 o2 s other).Contains x = true ↔
      s.Contains x = true ∨ other.Contains x = true := by
  simp only [SafeSet.Set.Union]
  rw [Contains_foldl_Add, Contains_foldl_Add, mem_range_keys_iff, mem_range_keys_iff,
    ← Contains_iff_mem_keySet, ← Contains_iff_mem_keySet, Contains_NewSet]
  simp only [Bool.false_eq_true, or_false]
  exact or_comm

theorem Contains_Intersection (o : RangeOrder (T × Unit)) (s other : SafeSet.Set T) (x : T) :
    (SafeSet.Set.Intersection o s other).Contains x = true ↔
      s.Contains x = true ∧ other.Contains x = true := by
  simp only [SafeSet.Set.Intersection]
  rw [Contains_foldl_Add_if, mem_range_keys_iff, ← Contains_iff_mem_keySet, Contains_NewSet]
  simp

theorem keySet_Union (o1 o2 : RangeOrder (T × Unit)) (s other : SafeSet.Set T) :
    (SafeSet.Set.Union o1 o2 s other).items.keySet = s.items.keySet ∪ other.items.keySet := by
  ext x
  rw [Finset.mem_union, ← Contains_iff_mem_keySet, ← Contains_iff_mem_keySet,
    ← Contains_iff_mem_keySet, Contains_Union]

theorem keySet_Intersection (o : RangeOrder (T × Unit)) (s other : SafeSet.Set T) :
    (SafeSet.Set.Intersection o s other).items.keySet = s.items.keySet ∩ other.items.keySet := by
  ext x
  rw [Finset.mem_inter, ← Contains_iff_mem_keySet, ← Contains_iff_mem_keySet,
    ← Contains_iff_mem_keySet, Contains_Intersection]

theorem Size_eq_card (s : SafeSet.Set T) : s.Size = s.items.keySet.card := (card_keySet s.items).symm

end SetFacts

/-! ## Sets behind pointers -/

section HeapFacts

variable {T : Type}

theorem deref_store_self (h : SafeSet.Heap T) (p : SafeSet.Ptr) (s v : SafeSet.Set T) (hp : h.deref p = some v) :
    (h.store p s).deref p = some s := by
  have hlt : p < h.cells.length := by
    simp only [SafeSet.Heap.deref] at hp
    exact (List.getElem?_eq_some_iff.mp hp).1
  simp [SafeSet.Heap.deref, SafeSet.Heap.store, List.getElem?_set_self hlt]

theorem deref_store_ne (h : SafeSet.Heap T) {p q : SafeSet.Ptr} (s : SafeSet.Set T) (hne : q ≠ p) :
    (h.store p s).deref q = h.deref q := by
  have hne1 : p ≠ q := fun e => hne e.symm
  simp [SafeSet.Heap.deref, SafeSet.Heap.store, List.getElem?_set_ne hne1]

theorem deref_NewSet_self (h : SafeSet.Heap T) : h.NewSet.1.deref h.NewSet.2 = some SafeSet.Set.NewSet := by
  simp [SafeSet.Heap.deref, SafeSet.Heap.NewSet]

theorem deref_NewSet_ne (h : SafeSet.Heap T) {q : Nat} (hne : q ≠ h.NewSet.2) :
    h.NewSet.1.deref q = h.deref q := by
  have hne1 : q ≠ h.cells.length := hne
  simp only [SafeSet.Heap.deref, SafeSet.Heap.NewSet, List.getElem?_append]
  by_cases hlt : q < h.cells.length
  · simp [hlt]
  · have hgt : h.cells.length < q := by omega
    have h1 : h.cells[q]? = none := List.getElem?_eq_none (by omega)
    have h2 : ([SafeSet.Set.NewSet] : List (SafeSet.Set T))[q - h.cells.length]? = none :=
      List.getElem?_eq_none (by simp only [List.length_singleton]; omega)
    simp [hlt, h1, h2]

theorem deref_NewSet_fresh (h : SafeSet.Heap T) : h.deref h.NewSet.2 = none := by
  simp [SafeSet.Heap.deref, SafeSet.Heap.NewSet]

theorem addEach_spec [DecidableEq T] (u : SafeSet.Ptr) (l : List (T × Unit)) (h : SafeSet.Heap T) (uv : SafeSet.Set T)
    (hu : h.deref u = some uv) :
    ∃ h1, SafeSet.Heap.addEach u l h = some h1 ∧
      h1.deref u = some (l.foldl (fun (r : SafeSet.Set T) e => r.Add e.1) uv) ∧
      ∀ q, q ≠ u → h1.deref q = h.deref q := by
  induction l generalizing h uv with
  | nil => exact ⟨h, rfl, hu, fun _ _ => rfl⟩
  | cons e l ih =>
    have hadd : h.Add u e.1 = some (h.store u (uv.Add e.1)) := by simp [SafeSet.Heap.Add, hu]
    obtain ⟨h1, h1eq, h1u, h1o⟩ :=
      ih (h.store u (uv.Add e.1)) (uv.Add e.1) (deref_store_self h u _ uv hu)
    refine ⟨h1, ?_, h1u, ?_⟩
    · simp only [SafeSet.Heap.addEach, hadd]; exact h1eq
    · intro q hq
      rw [h1o q hq, deref_store_ne h _ hq]

end HeapFacts

/-! ## SafeMap -/

section SafeMapFacts

variable {K V : Type} [DecidableEq K] [Inhabited V]

theorem SafeMap.Get_of_none {sm : SafeMap K V} {k : K} (h : sm.m.lookup k = none) :
    sm.Get k = (default, false) := by
  simp [SafeMap.Get, h]

theorem SafeMap.Get_snd_false_iff (sm : SafeMap K V) (k : K) :
    (sm.Get k).2 = false ↔ sm.m.lookup k = none := by
  cases h : sm.m.lookup k <;> simp [SafeMap.Get, h]

theorem SafeMap.Get_snd_true_iff (sm : SafeMap K V) (k : K) :
    (sm.Get k).2 = true ↔ ∃ v, sm.m.lookup k = some v := by
  cases h : sm.m.lookup k <;> simp [SafeMap.Get, h]

end SafeMapFacts

/-- C1, the code as written: `NewSafeMapFromMap` ranges over the map it has
just made and never reads its argument.  For the map `{1: "one"}`, whose
length is 1, the result has `Len() = 0` and `Get(1)` returns `("", false)`,
whatever the order of the loop. -/
theorem C1_NewSafeMapFromMap_ignores_argument (o : RangeOrder (Int × String)) :
    ((GoMap.empty : GoMap Int String).insert 1 "one").len = 1 ∧
    (SafeMap.NewSafeMapFromMap o ((GoMap.empty : GoMap Int String).insert 1 "one")).Len = 0 ∧
    (SafeMap.NewSafeMapFromMap o ((GoMap.empty : GoMap Int String).insert 1 "one")).Get 1
      = ("", false) := by
  have h : SafeMap.NewSafeMapFromMap o ((GoMap.empty : GoMap Int String).insert 1 "one")
      = ⟨GoMap.empty⟩ := by
    simp [SafeMap.NewSafeMapFromMap, GoMap.range_empty]
  rw [h]
  exact ⟨rfl, rfl, rfl⟩

/-- C5: `Pop(k)` returns the pair `Get(k)` returned just before the call; the map
after `Pop(k)` and the map after `Delete(k)` both have `Get(k) = (zero, false)`,
every other key as before, and a `Len()` one less when `k` was present and the
same when it was absent. -/
theorem C5_Pop_Delete {K V : Type} [DecidableEq K] [Inhabited V]
    (sm : SafeMap K V) (k : K) :
    (sm.Pop k).2 = sm.Get k ∧
    (∀ after : SafeMap K V, (after = (sm.Pop k).1 ∨ after = sm.Delete k) →
      after.Get k = (default, false) ∧
      (∀ k1, k1 ≠ k → after.Get k1 = sm.Get k1) ∧
      ((sm.Get k).2 = true → after.Len + 1 = sm.Len) ∧
      ((sm.Get k).2 = false → after.Len = sm.Len)) := by
  refine ⟨?_, ?_⟩
  · cases h : sm.m.lookup k <;> simp [SafeMap.Pop, SafeMap.Get, h]
  · intro after hafter
    have ha : after = ⟨sm.m.erase k⟩ := by
      rcases hafter with h | h <;> simpa [SafeMap.Pop, SafeMap.Delete] using h
    subst ha
    refine ⟨SafeMap.Get_of_none (GoMap.lookup_erase_self sm.m k), ?_, ?_, ?_⟩
    · intro k1 h1
      have h2 : k ≠ k1 := fun h3 => h1 h3.symm
      simp [SafeMap.Get, GoMap.lookup_erase_ne sm.m h2]
    · intro hp
      obtain ⟨v, hv⟩ := (SafeMap.Get_snd_true_iff sm k).mp hp
      exact GoMap.len_erase_of_some sm.m hv
    · intro hp
      exact GoMap.len_erase_of_none sm.m ((SafeMap.Get_snd_false_iff sm k).mp hp)

/-- C5 on the map `{1: 5, 2: 7}` and key 1: `Pop(1)` returns `(5, true)`, and
afterwards `Get(1) = (0, false)`, `Get(2) = (7, true)` and `Len()` went from 2
to 1. -/
theorem C5_Pop_Delete_witness :
    ((((SafeMap.NewSafeMap : SafeMap Int Nat).Set 1 5).Set 2 7).Pop 1).2 = (5, true) ∧
    ((((SafeMap.NewSafeMap : SafeMap Int Nat).Set 1 5).Set 2 7).Pop 1).1.Get 1 = (0, false) ∧
    ((((SafeMap.NewSafeMap : SafeMap Int Nat).Set 1 5).Set 2 7).Pop 1).1.Get 2 = (7, true) ∧
    ((((SafeMap.NewSafeMap : SafeMap Int Nat).Set 1 5).Set 2 7).Pop 1).1.Len + 1 = 2 :=
  have h := C5_Pop_Delete (((SafeMap.NewSafeMap : SafeMap Int Nat).Set 1 5).Set 2 7) 1
  have h1 := h.2 _ (Or.inl rfl)
  ⟨h.1.trans (by decide), h1.1, (h1.2.1 2 (by decide)).trans (by decide),
    h1.2.2.1 (by decide)⟩

/-- C4, the round trip fails for some maps: in a `SafeMap[int, any]` holding the nil
interface under key 1, `GetKeyValuePairs()` is `[1, nil]`, the assertion
`nil.(any)` fails, and `NewSafeMapFromKeyValuePairs` returns the value error
and an empty map, while the original has `Len() = 1`. -/
theorem C4_roundtrip_fails_on_nil_interface :
    (SafeMap.NewSafeMapFromKeyValuePairs intAny
      (((SafeMap.NewSafeMap : SafeMap Int Dyn).Set 1 Dyn.nil).GetKeyValuePairs intAny
        RangeOrder.stored)).2 = some MapError.badValue ∧
    (SafeMap.NewSafeMapFromKeyValuePairs intAny
      (((SafeMap.NewSafeMap : SafeMap Int Dyn).Set 1 Dyn.nil).GetKeyValuePairs intAny
        RangeOrder.stored)).1.Len = 0 ∧
    ((SafeMap.NewSafeMap : SafeMap Int Dyn).Set 1 Dyn.nil).Len = 1 := by
  decide

/-- C4, amended: for every `SafeMap` whose keys and values each pass the type
assertion back to `K` and `V` once they are stored as `any`, and for every
order in which `GetKeyValuePairs` emits the pairs, `NewSafeMapFromKeyValuePairs`
on the emitted sequence returns no error and a map with the same `Get(k)` for
every key `k`, the same `Len()` and the same entries. -/
theorem C4_roundtrip {A K V : Type} [DecidableEq K] [Inhabited V] (c : AnyRepr A K V)
    (o : RangeOrder (K × V)) (sm : SafeMap K V)
    (hbox : ∀ e ∈ sm.m.entries,
      c.assertK (c.boxK e.1) = some e.1 ∧ c.assertV (c.boxV e.2) = some e.2) :
    (SafeMap.NewSafeMapFromKeyValuePairs c (sm.GetKeyValuePairs c o)).2 = none ∧
    (∀ k, (SafeMap.NewSafeMapFromKeyValuePairs c (sm.GetKeyValuePairs c o)).1.Get k
        = sm.Get k) ∧
    (SafeMap.NewSafeMapFromKeyValuePairs c (sm.GetKeyValuePairs c o)).1.Len = sm.Len ∧
    ((SafeMap.NewSafeMapFromKeyValuePairs c (sm.GetKeyValuePairs c o)).1.m.entries).Perm
      sm.m.entries := by
  have hbox1 : ∀ e ∈ sm.m.range o,
      c.assertK (c.boxK e.1) = some e.1 ∧ c.assertV (c.boxV e.2) = some e.2 :=
    fun e he => hbox e ((o.perm sm.m.entries).mem_iff.mp he)
  have hres : SafeMap.NewSafeMapFromKeyValuePairs c (sm.GetKeyValuePairs c o)
      = (⟨(GoMap.empty : GoMap K V).insertAll (sm.m.range o)⟩, none) := by
    have hlen : (flatPairs c (sm.m.range o)).length % 2 = 0 := by
      rw [length_flatPairs]; omega
    simp only [SafeMap.NewSafeMapFromKeyValuePairs, GetKeyValuePairs_eq, hlen, ne_eq,
      not_true_eq_false, if_false]
    exact pairsLoop_flatPairs c _ hbox1 _
  rw [hres]
  refine ⟨rfl, ?_, len_insertAll_range o sm.m, ?_⟩
  · intro k
    simp only [SafeMap.Get, lookup_insertAll_range]
  · exact entries_perm_of_lookup_eq _ _ (fun k => lookup_insertAll_range o sm.m k)

/-- C4 amended, on the `SafeMap[int, string]` `{1: "one", 2: "two"}` with the
pairs emitted from the last stored entry to the first. -/
theorem C4_roundtrip_witness :
    (SafeMap.NewSafeMapFromKeyValuePairs intString
      ((((SafeMap.NewSafeMap : SafeMap Int String).Set 1 "one").Set 2 "two").GetKeyValuePairs
        intString RangeOrder.backwards)).2 = none ∧
    (SafeMap.NewSafeMapFromKeyValuePairs intString
      ((((SafeMap.NewSafeMap : SafeMap Int String).Set 1 "one").Set 2 "two").GetKeyValuePairs
        intString RangeOrder.backwards)).1.Len = 2 :=
  have h := C4_roundtrip intString RangeOrder.backwards
    (((SafeMap.NewSafeMap : SafeMap Int String).Set 1 "one").Set 2 "two")
    (by intro e he
        have h1 : e = (2, "two") ∨ e = (1, "one") := by
          simpa [SafeMap.Set, SafeMap.NewSafeMap, GoMap.insert, GoMap.empty, eraseL] using he
        rcases h1 with h1 | h1 <;> subst h1 <;> exact ⟨rfl, rfl⟩)
  ⟨h.1, h.2.2.1⟩

/-- C9: for sets `A` and `B` held at the pointers `a` and `b` (which may be the
same pointer), `a.Union(b)` returns a pointer `u` that was not in use, to a
set that contains `x` iff `A` contains `x` or `B` contains `x`; afterwards `a`
still points to `A`, `b` to `B`, and every pointer other than `u` to what it
pointed to before. -/
theorem C9_Union {T : Type} [DecidableEq T] (o1 o2 : RangeOrder (T × Unit))
    (h : SafeSet.Heap T) (a b : SafeSet.Ptr) (A B : SafeSet.Set T)
    (ha : h.deref a = some A) (hb : h.deref b = some B) :
    ∃ h1 u, SafeSet.Heap.Union o1 o2 h a b = some (h1, u) ∧
      h1.deref u = some (SafeSet.Set.Union o1 o2 A B) ∧
      (∀ x, (SafeSet.Set.Union o1 o2 A B).Contains x = (A.Contains x || B.Contains x)) ∧
      h.deref u = none ∧
      h1.deref a = some A ∧ h1.deref b = some B ∧
      ∀ q, q ≠ u → h1.deref q = h.deref q := by
  have hfresh := deref_NewSet_fresh h
  have hau : a ≠ h.NewSet.2 := by
    intro e; rw [e, hfresh] at ha; cases ha
  have hbu : b ≠ h.NewSet.2 := by
    intro e; rw [e, hfresh] at hb; cases hb
  have ha0 : h.NewSet.1.deref a = some A := by rw [deref_NewSet_ne h hau, ha]
  have hb0 : h.NewSet.1.deref b = some B := by rw [deref_NewSet_ne h hbu, hb]
  obtain ⟨h1, h1eq, h1u, h1o⟩ :=
    addEach_spec h.NewSet.2 (A.items.range o1) h.NewSet.1 SafeSet.Set.NewSet
      (deref_NewSet_self h)
  have hb1 : h1.deref b = some B := by rw [h1o b hbu, hb0]
  obtain ⟨h2, h2eq, h2u, h2o⟩ := addEach_spec h.NewSet.2 (B.items.range o2) h1 _ h1u
  refine ⟨h2, h.NewSet.2, ?_, h2u, ?_, hfresh, ?_, ?_, ?_⟩
  · simp only [SafeSet.Heap.Union, ha, hb, ha0, h1eq, hb1, h2eq]
  · intro x
    have := Contains_Union o1 o2 A B x
    cases hU : (SafeSet.Set.Union o1 o2 A B).Contains x <;>
      cases hA : A.Contains x <;> cases hB : B.Contains x <;> simp_all
  · rw [h2o a hau, h1o a hau, ha0]
  · rw [h2o b hbu, hb1]
  · intro q hq
    rw [h2o q hq, h1o q hq, deref_NewSet_ne h hq]

/-- C9 on a heap holding the single set `{1, 2}` at pointer 0, with both operands
that pointer: the call returns, and pointer 0 still holds the same set. -/
theorem C9_Union_witness :
    ∃ h1 u, SafeSet.Heap.Union RangeOrder.stored RangeOrder.backwards
        (⟨[SafeSet.Set.NewSetWithValues [(1 : Int), 2]]⟩ : SafeSet.Heap Int) 0 0 = some (h1, u) ∧
      h1.deref u = some (SafeSet.Set.Union RangeOrder.stored RangeOrder.backwards
        (SafeSet.Set.NewSetWithValues [(1 : Int), 2]) (SafeSet.Set.NewSetWithValues [(1 : Int), 2])) ∧
      h1.deref 0 = some (SafeSet.Set.NewSetWithValues [(1 : Int), 2]) :=
  have ⟨h1, u, h⟩ := C9_Union RangeOrder.stored RangeOrder.backwards
    (⟨[SafeSet.Set.NewSetWithValues [(1 : Int), 2]]⟩ : SafeSet.Heap Int) 0 0
    (SafeSet.Set.NewSetWithValues [(1 : Int), 2]) (SafeSet.Set.NewSetWithValues [(1 : Int), 2])
    rfl rfl
  ⟨h1, u, h.1, h.2.1, h.2.2.2.2.1⟩

/-- C10: inclusion-exclusion.  For all sets `A` and `B` and whatever the orders of
the loops, `A.Union(B).Size() = A.Size() + B.Size() - A.Intersection(B).Size()`
as integers. -/
theorem C10_inclusion_exclusion {T : Type} [DecidableEq T]
    (o1 o2 o3 : RangeOrder (T × Unit)) (A B : SafeSet.Set T) :
    ((SafeSet.Set.Union o1 o2 A B).Size : Int)
      = (A.Size : Int) + (B.Size : Int) - ((SafeSet.Set.Intersection o3 A B).Size : Int) := by
  have h := Finset.card_union_add_card_inter A.items.keySet B.items.keySet
  rw [← keySet_Union o1 o2, ← keySet_Intersection o3, ← Size_eq_card, ← Size_eq_card,
    ← Size_eq_card, ← Size_eq_card] at h
  omega

/-! ## Two booleans that are true together -/

theorem Bool_eq_of_iff {a b : Bool} (h : a = true ↔ b = true) : a = b := by
  cases a <;> cases b <;> simp_all

/-! ## Adding and removing one item -/

section SetUpdate

variable {T : Type} [DecidableEq T]

theorem GoMap_eq_of_entries_eq {K V : Type} {m1 m2 : GoMap K V}
    (h : m1.entries = m2.entries) : m1 = m2 := by
  cases m1; cases m2; simp only [GoMap.mk.injEq]; exact h

theorem Contains_eq_false_iff (s : SafeSet.Set T) (x : T) :
    s.Contains x = false ↔ s.items.lookup x = none := by
  cases h : s.items.lookup x <;> simp [SafeSet.Set.Contains, h]

theorem Contains_eq_true_iff (s : SafeSet.Set T) (x : T) :
    s.Contains x = true ↔ s.items.lookup x = some () := by
  cases h : s.items.lookup x <;> simp [SafeSet.Set.Contains, h]

theorem Contains_Remove (s : SafeSet.Set T) (item x : T) :
    (s.Remove item).Contains x = (!decide (item = x) && s.Contains x) := by
  by_cases h : item = x
  · subst h; simp [SafeSet.Set.Contains, SafeSet.Set.Remove, GoMap.lookup_erase_self]
  · simp [SafeSet.Set.Contains, SafeSet.Set.Remove, GoMap.lookup_erase_ne s.items h, h]

end SetUpdate

/-- C16: for every set and item `x`, after `Remove(x)` the set does not contain
`x`, membership of every other element is unchanged, `Size()` has dropped by
one if `x` was present, and if `x` was absent the set is unchanged. -/
theorem C16_Remove {T : Type} [DecidableEq T] (s : SafeSet.Set T) (x : T) :
    (s.Remove x).Contains x = false ∧
    (∀ y, y ≠ x → (s.Remove x).Contains y = s.Contains y) ∧
    (s.Contains x = true → (s.Remove x).Size + 1 = s.Size) ∧
    (s.Contains x = false → (s.Remove x).Size = s.Size ∧ s.Remove x = s) := by
  refine ⟨?_, ?_, ?_, ?_⟩
  · simp [Contains_Remove]
  · intro y hy
    have : ¬ x = y := fun h => hy h.symm
    simp [Contains_Remove, this]
  · intro h
    exact GoMap.len_erase_of_some s.items ((Contains_eq_true_iff s x).mp h)
  · intro h
    have hnone := (Contains_eq_false_iff s x).mp h
    refine ⟨GoMap.len_erase_of_none s.items hnone, ?_⟩
    cases s with
    | mk items =>
      simp only [SafeSet.Set.Remove, SafeSet.Set.mk.injEq]
      apply GoMap_eq_of_entries_eq
      exact eraseL_of_lookupL_none hnone

/-- C16 on the set `{1, 2}`: after `Remove(1)` the size is one less. -/
theorem C16_Remove_witness :
    ((SafeSet.Set.NewSetWithValues [(1 : Int), 2]).Remove 1).Size + 1 = 2 ∧
    ((SafeSet.Set.NewSetWithValues [(1 : Int), 2]).Remove 1).Contains 2 = true :=
  have h := C16_Remove (SafeSet.Set.NewSetWithValues [(1 : Int), 2]) 1
  ⟨h.2.2.1 (by decide), (h.2.1 2 (by decide)).trans (by decide)⟩

section SliceFacts

variable {T : Type}

theorem goIndex_nat (s : List T) (n : Nat) (h : n < s.length) :
    goIndex s (n : Int) = s[n]? := by
  have h1 : (n : Int) < (s.length : Int) := by exact_mod_cast h
  simp [goIndex, h1]

theorem goSetIndex_nat (s : List T) (n : Nat) (x : T) (h : n < s.length) :
    goSetIndex s (n : Int) x = some (s.set n x) := by
  have h1 : (n : Int) < (s.length : Int) := by exact_mod_cast h
  simp [goSetIndex, h1]

theorem goSliceTo_nat (s : List T) (n : Nat) (h : n ≤ s.length) :
    goSliceTo s (n : Int) = some (s.take n) := by
  have h1 : (n : Int) ≤ (s.length : Int) := by exact_mod_cast h
  simp [goSliceTo, h1]

theorem goSliceFrom_nat (s : List T) (n : Nat) (h : n ≤ s.length) :
    goSliceFrom s (n : Int) = some (s.drop n) := by
  have h1 : (n : Int) ≤ (s.length : Int) := by exact_mod_cast h
  simp [goSliceFrom, h1]

theorem set_take_succ_append_drop (s : List T) (n : Nat) (x : T) (h : n < s.length) :
    (s.take (n + 1) ++ s.drop n).set n x = s.take n ++ [x] ++ s.drop n := by
  induction s generalizing n with
  | nil => simp at h
  | cons a t ih =>
    cases n with
    | zero => simp
    | succ n =>
      have h1 : n < t.length := by simpa using h
      have := ih n h1
      simp only [List.take_succ_cons, List.drop_succ_cons, List.cons_append, List.set_cons_succ,
        this]

theorem Insert_in_range (s : SafeSlice T) (n : Nat) (x : T) (h : n < s.slice.length) :
    s.Insert (n : Int) x = some ⟨s.slice.take n ++ [x] ++ s.slice.drop n⟩ := by
  have h1 : ¬ ((n : Int) < 0 ∨ (n : Int) ≥ (s.slice.length : Int)) := by
    have : (n : Int) < (s.slice.length : Int) := by exact_mod_cast h
    omega
  have h2 : ((n : Int) + 1) = ((n + 1 : Nat) : Int) := by push_cast; rfl
  have h3 : n < (s.slice.take (n + 1) ++ s.slice.drop n).length := by
    simp only [List.length_append, List.length_take, List.length_drop]; omega
  simp only [SafeSlice.Insert, h1, if_false]
  rw [h2, goSliceTo_nat s.slice (n + 1) (by omega), goSliceFrom_nat s.slice n (by omega)]
  simp only [goSetIndex_nat _ n x h3, set_take_succ_append_drop s.slice n x h]

theorem Insert_out_of_range (s : SafeSlice T) (i : Int) (x : T)
    (h : i < 0 ∨ (s.slice.length : Int) ≤ i) :
    s.Insert i x = some ⟨s.slice ++ [x]⟩ := by
  have h1 : i < 0 ∨ i ≥ (s.slice.length : Int) := h
  simp [SafeSlice.Insert, h1]

theorem Get_in_range [Inhabited T] (s : SafeSlice T) (n : Nat) (v : T) (h : s.slice[n]? = some v) :
    s.Get (n : Int) = some (s, v) := by
  have hlt : n < s.slice.length := (List.getElem?_eq_some_iff.mp h).1
  have h1 : ¬ ((n : Int) < 0 ∨ (n : Int) ≥ (s.slice.length : Int)) := by
    have : (n : Int) < (s.slice.length : Int) := by exact_mod_cast hlt
    omega
  simp only [SafeSlice.Get, h1, if_false, goIndex_nat s.slice n hlt, h]

theorem Get_out_of_range [Inhabited T] (s : SafeSlice T) (i : Int)
    (h : i < 0 ∨ (s.slice.length : Int) ≤ i) : s.Get i = some (s, default) := by
  have h1 : i < 0 ∨ i ≥ (s.slice.length : Int) := h
  simp [SafeSlice.Get, h1]

end SliceFacts

/-- C18: for every `SafeSlice` with contents `s`, element `x` and integer `i`,
`Insert(i, x)` returns and makes the contents `s[:i] ++ [x] ++ s[i:]` when
`0 <= i < len(s)`, and `s ++ [x]`, the contents after `Append(x)`, when `i < 0`
or `i >= len(s)`; `Len()` grows by one, and for every `i` in `[0, len(s)]` a
`Get(i)` afterwards returns `x`. -/
theorem C18_Insert {T : Type} [Inhabited T] (s : SafeSlice T) (i : Int) (x : T) :
    (0 ≤ i ∧ i < (s.slice.length : Int) →
      s.Insert i x = some ⟨s.slice.take i.toNat ++ [x] ++ s.slice.drop i.toNat⟩) ∧
    (i < 0 ∨ (s.slice.length : Int) ≤ i →
      s.Insert i x = some ⟨s.slice ++ [x]⟩ ∧ s.Insert i x = some (s.Append x)) ∧
    (∃ r, s.Insert i x = some r ∧ r.Len = s.Len + 1) ∧
    (0 ≤ i ∧ i ≤ (s.slice.length : Int) →
      ∃ r, s.Insert i x = some r ∧ r.Get i = some (r, x)) := by
  have hin : 0 ≤ i ∧ i < (s.slice.length : Int) →
      s.Insert i x = some ⟨s.slice.take i.toNat ++ [x] ++ s.slice.drop i.toNat⟩ := by
    rintro ⟨h0, h1⟩
    obtain ⟨n, rfl⟩ := Int.eq_ofNat_of_zero_le h0
    have hn : n < s.slice.length := by exact_mod_cast h1
    simpa using Insert_in_range s n x hn
  have hout := Insert_out_of_range s i x
  refine ⟨hin, fun h => ⟨hout h, hout h⟩, ?_, ?_⟩
  · by_cases h : 0 ≤ i ∧ i < (s.slice.length : Int)
    · refine ⟨_, hin h, ?_⟩
      have hn : i.toNat < s.slice.length := by omega
      simp only [SafeSlice.Len, List.length_append, List.length_take, List.length_drop,
        List.length_singleton]
      omega
    · refine ⟨_, hout (by omega), ?_⟩
      simp [SafeSlice.Len]
  · rintro ⟨h0, h1⟩
    obtain ⟨n, rfl⟩ := Int.eq_ofNat_of_zero_le h0
    have hn : n ≤ s.slice.length := by exact_mod_cast h1
    by_cases hlt : n < s.slice.length
    · refine ⟨_, Insert_in_range s n x hlt, ?_⟩
      apply Get_in_range
      have hlen : (s.slice.take n).length = n := by
        rw [List.length_take]; omega
      rw [List.append_assoc, List.getElem?_append_right (Nat.le_of_eq hlen), hlen, Nat.sub_self]
      simp
    · have hEq : n = s.slice.length := by omega
      refine ⟨_, hout (Or.inr (by omega)), ?_⟩
      apply Get_in_range
      simp [hEq]

/-- C18 on the contents `[10, 20, 30]`: `Insert(1, 25)` gives `[10, 25, 20, 30]`
and `Insert(99, 25)` gives `[10, 20, 30, 25]`. -/
theorem C18_Insert_witness :
    (⟨[10, 20, 30]⟩ : SafeSlice Int).Insert 1 25 = some ⟨[10, 25, 20, 30]⟩ ∧
    (⟨[10, 20, 30]⟩ : SafeSlice Int).Insert 99 25 = some ⟨[10, 20, 30, 25]⟩ :=
  ⟨(C18_Insert (⟨[10, 20, 30]⟩ : SafeSlice Int) 1 25).1 (by decide),
   ((C18_Insert (⟨[10, 20, 30]⟩ : SafeSlice Int) 99 25).2.1 (by decide)).1⟩

/-- C20: for every `SafeSlice` and every integer `i`, `Get(i)` returns (it does
not fault) and leaves the receiver as it was; the value is the element at
index `i` when `0 <= i < Len()` and the zero value of the element type when
`i < 0` or `i >= Len()`. -/
theorem C20_Get {T : Type} [Inhabited T] (s : SafeSlice T) (i : Int) :
    (∃ v, s.Get i = some (s, v)) ∧
    (0 ≤ i ∧ i < (s.Len : Int) →
      ∃ v, s.slice[i.toNat]? = some v ∧ s.Get i = some (s, v)) ∧
    (i < 0 ∨ (s.Len : Int) ≤ i → s.Get i = some (s, default)) := by
  have hin : 0 ≤ i ∧ i < (s.Len : Int) →
      ∃ v, s.slice[i.toNat]? = some v ∧ s.Get i = some (s, v) := by
    rintro ⟨h0, h1⟩
    obtain ⟨n, rfl⟩ := Int.eq_ofNat_of_zero_le h0
    have hn : n < s.slice.length := by
      simp only [SafeSlice.Len] at h1; exact_mod_cast h1
    have hv : s.slice[n]? = some s.slice[n] := List.getElem?_eq_getElem hn
    exact ⟨s.slice[n], by simp [hv], Get_in_range s n _ hv⟩
  have hout : i < 0 ∨ (s.Len : Int) ≤ i → s.Get i = some (s, default) :=
    fun h => Get_out_of_range s i h
  refine ⟨?_, hin, hout⟩
  by_cases h : 0 ≤ i ∧ i < (s.Len : Int)
  · obtain ⟨v, _, hv⟩ := hin h
    exact ⟨v, hv⟩
  · exact ⟨default, hout (by omega)⟩

/-- C20 on the contents `[10, 20, 30]`: `Get(1)` returns 20, and `Get(-1)` and
`Get(3)` return 0. -/
theorem C20_Get_witness :
    (∃ v, ([10, 20, 30] : List Int)[(1 : Int).toNat]? = some v ∧
      (⟨[10, 20, 30]⟩ : SafeSlice Int).Get 1 = some (⟨[10, 20, 30]⟩, v)) ∧
    (⟨[10, 20, 30]⟩ : SafeSlice Int).Get (-1) = some (⟨[10, 20, 30]⟩, 0) ∧
    (⟨[10, 20, 30]⟩ : SafeSlice Int).Get 3 = some (⟨[10, 20, 30]⟩, 0) :=
  ⟨(C20_Get (⟨[10, 20, 30]⟩ : SafeSlice Int) 1).2.1 (by decide),
   (C20_Get (⟨[10, 20, 30]⟩ : SafeSlice Int) (-1)).2.2 (by decide),
   (C20_Get (⟨[10, 20, 30]⟩ : SafeSlice Int) 3).2.2 (by decide)⟩

/-! ## Set, RemoveAt, SplitAtIndex and Reduce -/

section SliceUpdate

variable {T : Type}

theorem Set_in_range (s : SafeSlice T) (n : Nat) (x : T) (h : n < s.slice.length) :
    s.Set (n : Int) x = some ⟨s.slice.set n x⟩ := by
  have h1 : (n : Int) ≥ 0 ∧ (n : Int) < (s.slice.length : Int) := by
    have : (n : Int) < (s.slice.length : Int) := by exact_mod_cast h
    omega
  simp only [SafeSlice.Set, h1, and_self, if_true, goSetIndex_nat s.slice n x h]

theorem Set_out_of_range (s : SafeSlice T) (i : Int) (x : T)
    (h : i < 0 ∨ (s.slice.length : Int) ≤ i) : s.Set i x = some s := by
  have h1 : ¬ (i ≥ 0 ∧ i < (s.slice.length : Int)) := by omega
  simp only [SafeSlice.Set, h1, if_false]

theorem RemoveAt_in_range (s : SafeSlice T) (n : Nat) (h : n < s.slice.length) :
    s.RemoveAt (n : Int) = some ⟨s.slice.take n ++ s.slice.drop (n + 1)⟩ := by
  have h1 : ¬ ((n : Int) < 0 ∨ (n : Int) ≥ (s.slice.length : Int)) := by
    have : (n : Int) < (s.slice.length : Int) := by exact_mod_cast h
    omega
  have h2 : ((n : Int) + 1) = ((n + 1 : Nat) : Int) := by push_cast; rfl
  simp only [SafeSlice.RemoveAt, h1, if_false]
  rw [h2, goSliceTo_nat s.slice n (by omega), goSliceFrom_nat s.slice (n + 1) (by omega)]

theorem RemoveAt_out_of_range (s : SafeSlice T) (i : Int)
    (h : i < 0 ∨ (s.slice.length : Int) ≤ i) : s.RemoveAt i = some s := by
  have h1 : i < 0 ∨ i ≥ (s.slice.length : Int) := h
  simp only [SafeSlice.RemoveAt, h1, if_true]

theorem getElem?_take_append_drop_succ (l : List T) (n k : Nat) (h : n < l.length) :
    (l.take n ++ l.drop (n + 1))[k]? = if k < n then l[k]? else l[k + 1]? := by
  have hlen : (l.take n).length = n := by rw [List.length_take]; omega
  by_cases hk : k < n
  · rw [List.getElem?_append_left (by omega), List.getElem?_take_of_lt hk]
    simp [hk]
  · rw [List.getElem?_append_right (by omega), hlen, List.getElem?_drop]
    simp only [hk, if_false]
    congr 1
    omega

theorem splitAtLoop_eq (i : Int) (es : List T) (j : Int) (left right : SafeSlice T) :
    SafeSlice.splitAtLoop i es j left right
      = (⟨left.slice ++ es.take (i - j).toNat⟩, ⟨right.slice ++ es.drop (i - j).toNat⟩) := by
  induction es generalizing j left right with
  | nil => simp [SafeSlice.splitAtLoop]
  | cons e es ih =>
    by_cases h : j < i
    · have h1 : (i - j).toNat = (i - (j + 1)).toNat + 1 := by omega
      simp only [SafeSlice.splitAtLoop, h, if_true, ih, SafeSlice.Append, h1, List.take_succ_cons,
        List.drop_succ_cons, List.append_assoc, List.singleton_append]
    · have h1 : (i - j).toNat = 0 := by omega
      have h2 : (i - (j + 1)).toNat = 0 := by omega
      simp only [SafeSlice.splitAtLoop, h, if_false, ih, SafeSlice.Append, h1, h2, List.take_zero,
        List.drop_zero, List.append_assoc, List.singleton_append, List.append_nil]

theorem reduceLoop_eq (fn : T → T → T) (sl : List T) (fuel n : Nat) (r : T)
    (hn : n ≤ sl.length) (hfuel : sl.length - n ≤ fuel) :
    SafeSlice.reduceLoop fn sl fuel (n : Int) r = some ((sl.drop n).foldl fn r) := by
  induction fuel generalizing n r with
  | zero =>
    have h1 : n = sl.length := by omega
    have h2 : ¬ ((n : Int) < (sl.length : Int)) := by omega
    simp only [SafeSlice.reduceLoop, h2, if_false]
    rw [h1, List.drop_length]
    rfl
  | succ fuel ih =>
    by_cases hlt : n < sl.length
    · have h2 : (n : Int) < (sl.length : Int) := by exact_mod_cast hlt
      have h3 : ((n : Int) + 1) = ((n + 1 : Nat) : Int) := by push_cast; rfl
      have h4 : sl.drop n = sl[n] :: sl.drop (n + 1) := List.drop_eq_getElem_cons hlt
      simp only [SafeSlice.reduceLoop, h2, if_true, goIndex_nat sl n hlt,
        List.getElem?_eq_getElem hlt]
      rw [h3, ih (n + 1) _ (by omega) (by omega), h4]
      rfl
    · have h1 : n = sl.length := by omega
      have h2 : ¬ ((n : Int) < (sl.length : Int)) := by omega
      simp only [SafeSlice.reduceLoop, h2, if_false]
      rw [h1, List.drop_length]
      rfl

end SliceUpdate

/-- C21: for every `SafeSlice` and integer `i`: when `i` is outside `[0, Len())`,
`Set(i, x)` and `RemoveAt(i)` both leave the contents as they were; when `i` is
inside, `Set(i, x)` keeps the length, puts `x` at index `i` and leaves every
other element, and `RemoveAt(i)` makes the contents `s[:i] ++ s[i+1:]`: the
length drops by one, the elements before `i` stay and each later element moves
down by one. -/
theorem C21_Set_RemoveAt {T : Type} (s : SafeSlice T) (i : Int) (x : T) :
    (i < 0 ∨ (s.Len : Int) ≤ i → s.Set i x = some s ∧ s.RemoveAt i = some s) ∧
    (0 ≤ i ∧ i < (s.Len : Int) →
      (∃ r, s.Set i x = some r ∧ r.Len = s.Len ∧ r.slice[i.toNat]? = some x ∧
        ∀ k : Nat, k ≠ i.toNat → r.slice[k]? = s.slice[k]?) ∧
      (∃ r, s.RemoveAt i = some r ∧
        r.slice = s.slice.take i.toNat ++ s.slice.drop (i.toNat + 1) ∧
        r.Len + 1 = s.Len ∧
        (∀ k : Nat, k < i.toNat → r.slice[k]? = s.slice[k]?) ∧
        (∀ k : Nat, i.toNat ≤ k → r.slice[k]? = s.slice[k + 1]?))) := by
  refine ⟨fun h => ⟨Set_out_of_range s i x h, RemoveAt_out_of_range s i h⟩, ?_⟩
  rintro ⟨h0, h1⟩
  obtain ⟨n, rfl⟩ := Int.eq_ofNat_of_zero_le h0
  have hn : n < s.slice.length := by
    simp only [SafeSlice.Len] at h1; exact_mod_cast h1
  simp only [Int.toNat_ofNat]
  refine ⟨⟨_, Set_in_range s n x hn, ?_, ?_, ?_⟩, ⟨_, RemoveAt_in_range s n hn, rfl, ?_, ?_, ?_⟩⟩
  · simp [SafeSlice.Len]
  · simp [List.getElem?_set_self hn]
  · intro k hk
    have : n ≠ k := fun e => hk e.symm
    simp [List.getElem?_set_ne this]
  · simp only [SafeSlice.Len, List.length_append, List.length_take, List.length_drop]
    omega
  · intro k hk
    simp only [getElem?_take_append_drop_succ s.slice n k hn, hk, if_true]
  · intro k hk
    have : ¬ k < n := by omega
    simp only [getElem?_take_append_drop_succ s.slice n k hn, this, if_false]

/-- C21 on the contents `[10, 20, 30]`: `Set(5, 1)` and `RemoveAt(-1)` change
nothing, and inside the range `Set(1, 99)` and `RemoveAt(1)` return. -/
theorem C21_Set_RemoveAt_witness :
    ((⟨[10, 20, 30]⟩ : SafeSlice Int).Set 5 1 = some ⟨[10, 20, 30]⟩ ∧
      (⟨[10, 20, 30]⟩ : SafeSlice Int).RemoveAt 5 = some ⟨[10, 20, 30]⟩) ∧
    (∃ r, (⟨[10, 20, 30]⟩ : SafeSlice Int).RemoveAt 1 = some r ∧
      r.slice = ([10, 20, 30] : List Int).take (1 : Int).toNat
        ++ ([10, 20, 30] : List Int).drop ((1 : Int).toNat + 1) ∧
      r.Len + 1 = (⟨[10, 20, 30]⟩ : SafeSlice Int).Len ∧
      (∀ k : Nat, k < (1 : Int).toNat → r.slice[k]? = ([10, 20, 30] : List Int)[k]?) ∧
      (∀ k : Nat, (1 : Int).toNat ≤ k → r.slice[k]? = ([10, 20, 30] : List Int)[k + 1]?)) :=
  ⟨(C21_Set_RemoveAt (⟨[10, 20, 30]⟩ : SafeSlice Int) 5 1).1 (by decide),
   ((C21_Set_RemoveAt (⟨[10, 20, 30]⟩ : SafeSlice Int) 1 99).2 (by decide)).2⟩

/-- C22: for every integer `i` and every `SafeSlice` with contents `s`,
`SplitAtIndex(i)` leaves the receiver as it was and returns `(left, right)`
with `left` the first `k` elements of `s` and `right` the remaining ones, where
`k = min(max(i, 0), len(s))`; so `left.Len() + right.Len() = Len()`,
`left ++ right = s`, `left` is empty when `i <= 0` and `right` is empty when
`i >= len(s)`. -/
theorem C22_SplitAtIndex {T : Type} (s : SafeSlice T) (i : Int) :
    ∃ k : Nat, (k : Int) = min (max i 0) (s.slice.length : Int) ∧
      s.SplitAtIndex i = (s, (⟨s.slice.take k⟩, ⟨s.slice.drop k⟩)) ∧
      (s.SplitAtIndex i).2.1.Len + (s.SplitAtIndex i).2.2.Len = s.Len ∧
      (s.SplitAtIndex i).2.1.slice ++ (s.SplitAtIndex i).2.2.slice = s.slice ∧
      (i ≤ 0 → (s.SplitAtIndex i).2.1.slice = []) ∧
      ((s.slice.length : Int) ≤ i → (s.SplitAtIndex i).2.2.slice = []) := by
  have hk : ((min i.toNat s.slice.length : Nat) : Int) = min (max i 0) (s.slice.length : Int) := by
    omega
  have hsplit : s.SplitAtIndex i
      = (s, (⟨s.slice.take (min i.toNat s.slice.length)⟩,
             ⟨s.slice.drop (min i.toNat s.slice.length)⟩)) := by
    simp only [SafeSlice.SplitAtIndex, splitAtLoop_eq, SafeSlice.NewSafeSlice, List.nil_append,
      Int.sub_zero]
    have h1 : s.slice.take (min i.toNat s.slice.length) = s.slice.take i.toNat := by
      rw [List.take_eq_take]; omega
    have h2 : s.slice.drop (min i.toNat s.slice.length) = s.slice.drop i.toNat := by
      by_cases hle : i.toNat ≤ s.slice.length
      · rw [Nat.min_eq_left hle]
      · rw [Nat.min_eq_right (by omega), List.drop_length,
          List.drop_eq_nil_of_le (by omega)]
    rw [h1, h2]
  refine ⟨min i.toNat s.slice.length, hk, hsplit, ?_, ?_, ?_, ?_⟩
  · rw [hsplit]
    simp only [SafeSlice.Len, List.length_take, List.length_drop]
    omega
  · rw [hsplit]
    exact List.take_append_drop _ _
  · intro h
    rw [hsplit]
    have : i.toNat = 0 := by omega
    simp [this]
  · intro h
    rw [hsplit]
    have : min i.toNat s.slice.length = s.slice.length := by omega
    simp [this]

/-- C22 on the contents `[1, 2, 3, 4, 5]`: `SplitAtIndex(-3)` has an empty left
side and `SplitAtIndex(7)` an empty right side. -/
theorem C22_SplitAtIndex_witness :
    ((⟨[1, 2, 3, 4, 5]⟩ : SafeSlice Int).SplitAtIndex (-3)).2.1.slice = [] ∧
    ((⟨[1, 2, 3, 4, 5]⟩ : SafeSlice Int).SplitAtIndex 7).2.2.slice = [] :=
  have ⟨_, h1⟩ := C22_SplitAtIndex (⟨[1, 2, 3, 4, 5]⟩ : SafeSlice Int) (-3)
  have ⟨_, h2⟩ := C22_SplitAtIndex (⟨[1, 2, 3, 4, 5]⟩ : SafeSlice Int) 7
  ⟨h1.2.2.2.2.1 (by decide), h2.2.2.2.2.2 (by decide)⟩

/-- C23: for every binary function `fn`, `Reduce(fn)` returns and leaves the
receiver as it was; its value is the zero value on the empty slice, the single
element on a one-element slice, and on `[x0, x1, ..., xn]` the left fold
`fn(...fn(fn(x0, x1), x2)..., xn)`. -/
theorem C23_Reduce {T : Type} [Inhabited T] (fn : T → T → T) :
    (⟨[]⟩ : SafeSlice T).Reduce fn = some (⟨[]⟩, default) ∧
    (∀ x : T, (⟨[x]⟩ : SafeSlice T).Reduce fn = some (⟨[x]⟩, x)) ∧
    (∀ (x0 : T) (rest : List T),
      (⟨x0 :: rest⟩ : SafeSlice T).Reduce fn = some (⟨x0 :: rest⟩, rest.foldl fn x0)) := by
  have hcons : ∀ (x0 : T) (rest : List T),
      (⟨x0 :: rest⟩ : SafeSlice T).Reduce fn = some (⟨x0 :: rest⟩, rest.foldl fn x0) := by
    intro x0 rest
    have h0 : goIndex (x0 :: rest) 0 = some x0 := by
      have := goIndex_nat (x0 :: rest) 0 (by simp)
      simpa using this
    have h1 := reduceLoop_eq fn (x0 :: rest) (x0 :: rest).length 1 x0 (by simp) (by omega)
    simp only [Nat.cast_one, List.drop_succ_cons, List.drop_zero] at h1
    simp only [SafeSlice.Reduce, List.length_cons, Nat.add_one_ne_zero, if_false, h0]
    simp only [List.length_cons] at h1
    rw [h1]
  exact ⟨rfl, fun x => hcons x [], hcons⟩

/-- C23 on the contents `[10, 20, 30]` with addition: `Reduce` returns 60. -/
theorem C23_Reduce_witness :
    (⟨[10, 20, 30]⟩ : SafeSlice Int).Reduce (fun a b => a + b)
      = some (⟨[10, 20, 30]⟩, 60) :=
  (C23_Reduce (fun (a b : Int) => a + b)).2.2 10 [20, 30]

/-! ## Loops over the elements -/

section SliceLoops

variable {T : Type}

theorem foldl_keep_if (p : T → Bool) (l : List T) (init : List T) :
    l.foldl (fun (result : List T) e => if p e then result ++ [e] else result) init
      = init ++ l.filter p := by
  induction l generalizing init with
  | nil => simp
  | cons e l ih =>
    rw [List.foldl_cons, ih]
    cases h : p e <;> simp [h]

theorem foldl_Append_if (p : T → Bool) (l : List T) (init : SafeSlice T) :
    l.foldl (fun (result : SafeSlice T) e => if p e then result.Append e else result) init
      = ⟨init.slice ++ l.filter p⟩ := by
  induction l generalizing init with
  | nil => simp
  | cons e l ih =>
    rw [List.foldl_cons, ih]
    cases h : p e <;> simp [h, SafeSlice.Append]

theorem foldl_Append_map (fn : T → T) (l : List T) (init : SafeSlice T) :
    l.foldl (fun (result : SafeSlice T) e => result.Append (fn e)) init
      = ⟨init.slice ++ l.map fn⟩ := by
  induction l generalizing init with
  | nil => simp
  | cons e l ih =>
    rw [List.foldl_cons, ih]
    simp [SafeSlice.Append]

theorem foldl_split (p : T → Bool) (l : List T) (init : SafeSlice T × SafeSlice T) :
    l.foldl (fun (lr : SafeSlice T × SafeSlice T) e =>
        if p e then (lr.1.Append e, lr.2) else (lr.1, lr.2.Append e)) init
      = (⟨init.1.slice ++ l.filter p⟩, ⟨init.2.slice ++ l.filter (fun e => !p e)⟩) := by
  induction l generalizing init with
  | nil => simp
  | cons e l ih =>
    rw [List.foldl_cons, ih]
    cases h : p e <;> simp [h, SafeSlice.Append]

theorem forEachLoop_eq (fn : T → T) (es pre : List T) :
    SafeSlice.forEachLoop fn es (pre.length : Int) (pre ++ es) = some (pre ++ es.map fn) := by
  induction es generalizing pre with
  | nil => simp [SafeSlice.forEachLoop]
  | cons e es ih =>
    have hlt : pre.length < (pre ++ e :: es).length := by simp
    have hset : (pre ++ e :: es).set pre.length (fn e) = (pre ++ [fn e]) ++ es := by
      rw [List.set_append_right _ _ (Nat.le_refl _)]
      simp
    have hcast : ((pre.length : Int) + 1) = ((pre ++ [fn e]).length : Int) := by simp
    simp only [SafeSlice.forEachLoop, goSetIndex_nat _ pre.length (fn e) hlt, hset]
    rw [hcast, ih (pre ++ [fn e])]
    simp

theorem allLoop_iff (p : T → Bool) (l : List T) :
    SafeSlice.allLoop p l = true ↔ ∀ e ∈ l, p e = true := by
  induction l with
  | nil => simp [SafeSlice.allLoop]
  | cons e l ih =>
    cases h : p e <;> simp [SafeSlice.allLoop, h, ih]

theorem anyLoop_iff (p : T → Bool) (l : List T) :
    SafeSlice.anyLoop p l = true ↔ ∃ e ∈ l, p e = true := by
  induction l with
  | nil => simp [SafeSlice.anyLoop]
  | cons e l ih =>
    cases h : p e <;> simp [SafeSlice.anyLoop, h, ih]

end SliceLoops

/-- C25: for every `SafeSlice` with contents `s` and predicate `p`, after
`Remove(p)` the contents are the elements of `s` that do not satisfy `p`, in
their original order: no element satisfying `p` remains, every element of `s`
not satisfying `p` is kept, and the result is `s` with some elements left
out. -/
theorem C25_Remove {T : Type} (s : SafeSlice T) (p : T → Bool) :
    (s.Remove p).slice = s.slice.filter (fun e => !p e) ∧
    (∀ e ∈ (s.Remove p).slice, p e = false) ∧
    (∀ e ∈ s.slice, p e = false → e ∈ (s.Remove p).slice) ∧
    ((s.Remove p).slice).Sublist s.slice := by
  have h : (s.Remove p).slice = s.slice.filter (fun e => !p e) := by
    simp only [SafeSlice.Remove, foldl_keep_if (fun e => !p e), List.nil_append]
  rw [h]
  refine ⟨rfl, ?_, ?_, List.filter_sublist _⟩
  · intro e he
    simpa using (List.mem_filter.mp he).2
  · intro e he hp
    exact List.mem_filter.mpr ⟨he, by simp [hp]⟩

/-- C25 on the contents `[1, 2, 3, 4]` and the predicate "is greater than 2":
the element 1 is kept. -/
theorem C25_Remove_witness :
    (1 : Int) ∈ ((⟨[1, 2, 3, 4]⟩ : SafeSlice Int).Remove (fun e => decide (2 < e))).slice :=
  (C25_Remove (⟨[1, 2, 3, 4]⟩ : SafeSlice Int) (fun e => decide (2 < e))).2.2.1 1
    (by decide) (by decide)

/-- C26: for every `SafeSlice` with contents `s` and predicate `p`, `Filter(p)`
leaves the receiver as it was and returns a slice holding the elements of `s`
that satisfy `p` in their original order; `SplitByFilter(p)` leaves the
receiver as it was and returns `(matched, unmatched)` where `matched` equals
the result of `Filter(p)` and `unmatched` holds the elements not satisfying
`p` in original order; and `matched.Len() + unmatched.Len() = Len()`. -/
theorem C26_Filter_SplitByFilter {T : Type} (s : SafeSlice T) (p : T → Bool) :
    s.Filter p = (s, ⟨s.slice.filter p⟩) ∧
    s.SplitByFilter p = (s, (⟨s.slice.filter p⟩, ⟨s.slice.filter (fun e => !p e)⟩)) ∧
    (s.SplitByFilter p).2.1 = (s.Filter p).2 ∧
    (s.SplitByFilter p).2.1.Len + (s.SplitByFilter p).2.2.Len = s.Len := by
  have hF : s.Filter p = (s, ⟨s.slice.filter p⟩) := by
    simp only [SafeSlice.Filter, foldl_Append_if, SafeSlice.NewSafeSlice, List.nil_append]
  have hS : s.SplitByFilter p
      = (s, (⟨s.slice.filter p⟩, ⟨s.slice.filter (fun e => !p e)⟩)) := by
    simp only [SafeSlice.SplitByFilter, foldl_split, SafeSlice.NewSafeSlice, List.nil_append]
  refine ⟨hF, hS, by rw [hF, hS], ?_⟩
  rw [hS]
  simp only [SafeSlice.Len]
  induction s.slice with
  | nil => rfl
  | cons e l ih =>
    cases h : p e <;> simp [List.filter_cons, h] <;> omega

/-- C28: for every `SafeSlice` and predicate `p`, `All(p)` is true iff every
element satisfies `p` and `Any(p)` is true iff some element satisfies `p`; on
the empty slice `All(p)` is true and `Any(p)` is false; `All(p)` is the negation
of `Any` of the negated predicate; both leave the receiver as it was. -/
theorem C28_All_Any {T : Type} (s : SafeSlice T) (p : T → Bool) :
    ((s.All p).2 = true ↔ ∀ e ∈ s.slice, p e = true) ∧
    ((s.Any p).2 = true ↔ ∃ e ∈ s.slice, p e = true) ∧
    ((⟨[]⟩ : SafeSlice T).All p).2 = true ∧
    ((⟨[]⟩ : SafeSlice T).Any p).2 = false ∧
    (s.All p).2 = !(s.Any (fun e => !p e)).2 ∧
    (s.All p).1 = s ∧ (s.Any p).1 = s := by
  have hA := allLoop_iff p s.slice
  have hN := anyLoop_iff (fun e => !p e) s.slice
  refine ⟨hA, anyLoop_iff p s.slice, rfl, rfl, ?_, rfl, rfl⟩
  simp only [SafeSlice.All, SafeSlice.Any]
  cases h1 : SafeSlice.allLoop p s.slice with
  | true =>
    cases h2 : SafeSlice.anyLoop (fun e => !p e) s.slice with
    | false => rfl
    | true =>
      obtain ⟨e, he, hpe⟩ := hN.mp h2
      have := hA.mp h1 e he
      simp [this] at hpe
  | false =>
    cases h2 : SafeSlice.anyLoop (fun e => !p e) s.slice with
    | true => rfl
    | false =>
      have hall : ∀ e ∈ s.slice, p e = true := by
        intro e he
        cases hpe : p e with
        | true => rfl
        | false =>
          have : SafeSlice.anyLoop (fun e => !p e) s.slice = true :=
            hN.mpr ⟨e, he, by simp [hpe]⟩
          rw [h2] at this
          cases this
      rw [hA.mpr hall] at h1
      cases h1

/-- C29: for every `SafeSlice` with contents `s` and function `fn`, `Map(fn)`
leaves the receiver as it was and returns a slice of the same length whose
element at every index `i` is `fn(s[i])`; `ForEach(fn)` returns and replaces the
contents of the receiver by that same sequence. -/
theorem C29_Map_ForEach {T : Type} (s : SafeSlice T) (fn : T → T) :
    (s.Map fn).1 = s ∧
    (s.Map fn).2.Len = s.Len ∧
    (∀ i : Nat, (s.Map fn).2.slice[i]? = (s.slice[i]?).map fn) ∧
    s.ForEach fn = some (s.Map fn).2 ∧
    (∃ r, s.ForEach fn = some r ∧ r.Len = s.Len ∧
      ∀ i : Nat, r.slice[i]? = (s.slice[i]?).map fn) := by
  have hM : s.Map fn = (s, ⟨s.slice.map fn⟩) := by
    simp only [SafeSlice.Map, foldl_Append_map, SafeSlice.NewSafeSlice, List.nil_append]
  have hE : s.ForEach fn = some ⟨s.slice.map fn⟩ := by
    have := forEachLoop_eq fn s.slice []
    simp only [List.length_nil, Nat.cast_zero, List.nil_append] at this
    simp only [SafeSlice.ForEach, this]
  rw [hM, hE]
  refine ⟨rfl, by simp [SafeSlice.Len], fun i => List.getElem?_map fn s.slice i, rfl,
    ⟨_, rfl, by simp [SafeSlice.Len], fun i => List.getElem?_map fn s.slice i⟩⟩

/-! ## Searching -/

section SliceSearch

variable {T : Type}

theorem findIndexLoop_none (p : T → Bool) (es : List T) (j : Int)
    (h : ∀ e ∈ es, p e = false) : SafeSlice.findIndexLoop p es j = -1 := by
  induction es generalizing j with
  | nil => rfl
  | cons e es ih =>
    have h1 : p e = false := h e (List.mem_cons_self e es)
    simp only [SafeSlice.findIndexLoop, h1, Bool.false_eq_true, if_false]
    exact ih (j + 1) (fun e1 he1 => h e1 (List.mem_cons_of_mem e he1))

theorem findIndexLoop_neg (p : T → Bool) (es : List T) (j : Int) (hj : 0 ≤ j)
    (h : SafeSlice.findIndexLoop p es j = -1) : ∀ e ∈ es, p e = false := by
  induction es generalizing j with
  | nil => intro e he; cases he
  | cons e es ih =>
    cases hp : p e with
    | true =>
      simp only [SafeSlice.findIndexLoop, hp, if_true] at h
      omega
    | false =>
      simp only [SafeSlice.findIndexLoop, hp, Bool.false_eq_true, if_false] at h
      intro e1 he1
      rcases List.mem_cons.mp he1 with h1 | h1
      · rw [h1]; exact hp
      · exact ih (j + 1) (by omega) h e1 h1

theorem findIndexLoop_first (p : T → Bool) (es : List T) (j : Int) (k : Nat) (e : T)
    (hk : es[k]? = some e) (hp : p e = true)
    (hfirst : ∀ (m : Nat) e1, m < k → es[m]? = some e1 → p e1 = false) :
    SafeSlice.findIndexLoop p es j = j + (k : Int) := by
  induction es generalizing j k with
  | nil => simp at hk
  | cons e0 es ih =>
    cases k with
    | zero =>
      have h0 : e0 = e := by simpa using hk
      simp [SafeSlice.findIndexLoop, h0, hp]
    | succ k =>
      have h0 : p e0 = false := hfirst 0 e0 (Nat.succ_pos k) (by simp)
      have hk1 : es[k]? = some e := by simpa using hk
      simp only [SafeSlice.findIndexLoop, h0, Bool.false_eq_true, if_false]
      rw [ih (j + 1) k hk1 (fun m e1 hm he1 =>
        hfirst (m + 1) e1 (Nat.succ_lt_succ hm) (by simpa using he1))]
      push_cast
      omega

theorem findLoop_none [Inhabited T] (p : T → Bool) (es : List T)
    (h : ∀ e ∈ es, p e = false) : SafeSlice.findLoop p es = default := by
  induction es with
  | nil => rfl
  | cons e es ih =>
    have h1 : p e = false := h e (List.mem_cons_self e es)
    simp only [SafeSlice.findLoop, h1, Bool.false_eq_true, if_false]
    exact ih (fun e1 he1 => h e1 (List.mem_cons_of_mem e he1))

theorem findLoop_first [Inhabited T] (p : T → Bool) (es : List T) (k : Nat) (e : T)
    (hk : es[k]? = some e) (hp : p e = true)
    (hfirst : ∀ (m : Nat) e1, m < k → es[m]? = some e1 → p e1 = false) :
    SafeSlice.findLoop p es = e := by
  induction es generalizing k with
  | nil => simp at hk
  | cons e0 es ih =>
    cases k with
    | zero =>
      have h0 : e0 = e := by simpa using hk
      simp [SafeSlice.findLoop, h0, hp]
    | succ k =>
      have h0 : p e0 = false := hfirst 0 e0 (Nat.succ_pos k) (by simp)
      have hk1 : es[k]? = some e := by simpa using hk
      simp only [SafeSlice.findLoop, h0, Bool.false_eq_true, if_false]
      exact ih k hk1 (fun m e1 hm he1 =>
        hfirst (m + 1) e1 (Nat.succ_lt_succ hm) (by simpa using he1))

theorem findLast_loops_spec [Inhabited T] (p : T → Bool) (sl : List T) (n : Nat) :
    ∀ fuel : Nat, n ≤ sl.length → n ≤ fuel →
      ∃ (r : Int) (v : T),
        SafeSlice.findLastIndexLoop p sl fuel ((n : Int) - 1) = some r ∧
        SafeSlice.findLastLoop p sl fuel ((n : Int) - 1) = some v ∧
        ((r = -1 ∧ v = default ∧ ∀ (m : Nat) e, m < n → sl[m]? = some e → p e = false) ∨
         (∃ (k : Nat) (e : T), r = (k : Int) ∧ v = e ∧ k < n ∧ sl[k]? = some e ∧ p e = true ∧
            ∀ (m : Nat) e1, k < m → m < n → sl[m]? = some e1 → p e1 = false)) := by
  induction n with
  | zero =>
    intro fuel _ _
    refine ⟨-1, default, ?_, ?_, Or.inl ⟨rfl, rfl, fun m e hm => absurd hm (Nat.not_lt_zero m)⟩⟩
    · cases fuel <;> simp [SafeSlice.findLastIndexLoop]
    · cases fuel <;> simp [SafeSlice.findLastLoop]
  | succ n ih =>
    intro fuel hlen hfuel
    obtain ⟨f, rfl⟩ : ∃ f, fuel = f + 1 := ⟨fuel - 1, by omega⟩
    have hcast : ((n + 1 : Nat) : Int) - 1 = (n : Int) := by push_cast; omega
    have hge : (n : Int) ≥ 0 := by omega
    have hlt : n < sl.length := by omega
    have hidx : goIndex sl (n : Int) = some sl[n] := by
      rw [goIndex_nat sl n hlt, List.getElem?_eq_getElem hlt]
    rw [hcast]
    cases hp : p sl[n] with
    | true =>
      refine ⟨(n : Int), sl[n], ?_, ?_, Or.inr ⟨n, sl[n], rfl, rfl, Nat.lt_succ_self n,
        List.getElem?_eq_getElem hlt, hp, fun m e1 h1 h2 => by omega⟩⟩
      · simp only [SafeSlice.findLastIndexLoop, hge, if_true, hidx, hp]
      · simp only [SafeSlice.findLastLoop, hge, if_true, hidx, hp]
    | false =>
      obtain ⟨r, v, hr, hv, hcase⟩ := ih f (by omega) (by omega)
      refine ⟨r, v, ?_, ?_, ?_⟩
      · simp only [SafeSlice.findLastIndexLoop, hge, if_true, hidx, hp, Bool.false_eq_true,
          if_false]
        exact hr
      · simp only [SafeSlice.findLastLoop, hge, if_true, hidx, hp, Bool.false_eq_true, if_false]
        exact hv
      · have hn : ∀ e, sl[n]? = some e → p e = false := by
          intro e he
          rw [List.getElem?_eq_getElem hlt] at he
          cases he
          exact hp
        rcases hcase with ⟨h1, h2, h3⟩ | ⟨k, e, h1, h2, h3, h4, h5, h6⟩
        · refine Or.inl ⟨h1, h2, fun m e hm he => ?_⟩
          by_cases hmn : m = n
          · subst hmn; exact hn e he
          · exact h3 m e (by omega) he
        · refine Or.inr ⟨k, e, h1, h2, by omega, h4, h5, fun m e1 hkm hm he1 => ?_⟩
          by_cases hmn : m = n
          · subst hmn; exact hn e1 he1
          · exact h6 m e1 hkm (by omega) he1

end SliceSearch

/-- C27: for every `SafeSlice` and predicate `p`, all four searches leave the
receiver as it was.  `FindIndex(p)` returns `-1` iff no element satisfies `p`,
and `Find(p)` then returns the zero value; when `k` is the least index whose
element `e` satisfies `p`, `FindIndex(p)` returns `k` and `Find(p)` returns
`e`.  `FindLastIndex(p)` and `FindLast(p)` return (they do not fault), with
`-1` iff no element satisfies `p` and then the zero value; when `k` is the
greatest index whose element `e` satisfies `p`, they return `k` and `e`. -/
theorem C27_Find {T : Type} [Inhabited T] (s : SafeSlice T) (p : T → Bool) :
    (s.FindIndex p).1 = s ∧ (s.Find p).1 = s ∧
    ((s.FindIndex p).2 = -1 ↔ ∀ e ∈ s.slice, p e = false) ∧
    ((∀ e ∈ s.slice, p e = false) → (s.Find p).2 = default) ∧
    (∀ (k : Nat) (e : T), s.slice[k]? = some e → p e = true →
      (∀ (m : Nat) e1, m < k → s.slice[m]? = some e1 → p e1 = false) →
      (s.FindIndex p).2 = (k : Int) ∧ (s.Find p).2 = e) ∧
    (∃ (r : Int) (v : T), s.FindLastIndex p = some (s, r) ∧ s.FindLast p = some (s, v) ∧
      (r = -1 ↔ ∀ e ∈ s.slice, p e = false) ∧
      ((∀ e ∈ s.slice, p e = false) → v = default) ∧
      (∀ (k : Nat) (e : T), s.slice[k]? = some e → p e = true →
        (∀ (m : Nat) e1, k < m → s.slice[m]? = some e1 → p e1 = false) →
        r = (k : Int) ∧ v = e)) := by
  refine ⟨rfl, rfl, ⟨?_, ?_⟩, ?_, ?_, ?_⟩
  · exact findIndexLoop_neg p s.slice 0 (Int.le_refl 0)
  · exact findIndexLoop_none p s.slice 0
  · exact findLoop_none p s.slice
  · intro k e hk hp hfirst
    refine ⟨?_, findLoop_first p s.slice k e hk hp hfirst⟩
    simp only [SafeSlice.FindIndex, findIndexLoop_first p s.slice 0 k e hk hp hfirst]
    omega
  · obtain ⟨r, v, hr, hv, hcase⟩ :=
      findLast_loops_spec p s.slice s.slice.length s.slice.length (Nat.le_refl _) (Nat.le_refl _)
    have hmem : ∀ (m : Nat) e, s.slice[m]? = some e → m < s.slice.length ∧ e ∈ s.slice :=
      fun m e he => ⟨(List.getElem?_eq_some_iff.mp he).1, List.getElem?_mem he⟩
    refine ⟨r, v, by simp only [SafeSlice.FindLastIndex, hr],
      by simp only [SafeSlice.FindLast, hv], ?_, ?_, ?_⟩
    · constructor
      · intro hr1 e he
        rcases hcase with ⟨_, _, h3⟩ | ⟨k, e1, h1, _, _, _, _, _⟩
        · obtain ⟨m, hm⟩ := List.mem_iff_getElem?.mp he
          exact h3 m e (hmem m e hm).1 hm
        · omega
      · intro hall
        rcases hcase with ⟨h1, _, _⟩ | ⟨k, e1, _, _, _, h4, h5, _⟩
        · exact h1
        · rw [hall e1 (hmem k e1 h4).2] at h5; cases h5
    · intro hall
      rcases hcase with ⟨_, h2, _⟩ | ⟨k, e1, _, _, _, h4, h5, _⟩
      · exact h2
      · rw [hall e1 (hmem k e1 h4).2] at h5; cases h5
    · intro k e hk hp hlast
      rcases hcase with ⟨_, _, h3⟩ | ⟨k1, e1, h1, h2, h3, h4, h5, h6⟩
      · rw [h3 k e (hmem k e hk).1 hk] at hp; cases hp
      · have hkk : k1 = k := by
          rcases Nat.lt_trichotomy k1 k with hlt | heq | hgt
          · rw [h6 k e hlt (hmem k e hk).1 hk] at hp; cases hp
          · exact heq
          · rw [hlast k1 e1 hgt h4] at h5; cases h5
        subst hkk
        rw [h4] at hk
        cases hk
        exact ⟨h1, h2⟩

/-- C27 on the contents `[1, 4, 2, 5]` and the predicate "is greater than 3":
the least index is 1 with element 4, and the greatest index is 3 with
element 5. -/
theorem C27_Find_witness :
    ((⟨[1, 4, 2, 5]⟩ : SafeSlice Int).FindIndex (fun e => decide (3 < e))).2 = ((1 : Nat) : Int) ∧
    ((⟨[1, 4, 2, 5]⟩ : SafeSlice Int).Find (fun e => decide (3 < e))).2 = 4 ∧
    (⟨[1, 4, 2, 5]⟩ : SafeSlice Int).FindLastIndex (fun e => decide (3 < e))
      = some (⟨[1, 4, 2, 5]⟩, 3) ∧
    (⟨[1, 4, 2, 5]⟩ : SafeSlice Int).FindLast (fun e => decide (3 < e))
      = some (⟨[1, 4, 2, 5]⟩, 5) :=
  have h := (C27_Find (⟨[1, 4, 2, 5]⟩ : SafeSlice Int) (fun e => decide (3 < e))).2.2.2.2.1
    1 4 (by decide) (by decide)
    (by intro m e1 hm; have : m = 0 := by omega
        subst this; intro h; simp at h; subst h; decide)
  ⟨h.1, h.2, rfl, rfl⟩

/-! ## Reversing -/

section SliceReverse

variable {T : Type}

theorem goSwap_nat (sl : List T) (a b : Nat) (ha : a < sl.length) (hb : b < sl.length) :
    goSwap sl (a : Int) (b : Int) = some ((sl.set a sl[b]).set b sl[a]) := by
  have hb1 : b < (sl.set a sl[b]).length := by simpa using hb
  simp only [goSwap, goIndex_nat sl b hb, goIndex_nat sl a ha, List.getElem?_eq_getElem hb,
    List.getElem?_eq_getElem ha, goSetIndex_nat sl a _ ha, goSetIndex_nat _ b _ hb1]

theorem getElem?_swap (sl : List T) (a b p : Nat) (ha : a < sl.length) (hb : b < sl.length) :
    ((sl.set a sl[b]).set b sl[a])[p]?
      = if p = b then sl[a]? else if p = a then sl[b]? else sl[p]? := by
  by_cases h1 : p = b
  · subst h1
    have hb1 : p < (sl.set a sl[p]).length := by simpa using hb
    rw [List.getElem?_set_self hb1, if_pos rfl, List.getElem?_eq_getElem ha]
  · have h1s : b ≠ p := fun e => h1 e.symm
    rw [List.getElem?_set_ne h1s, if_neg h1]
    by_cases h2 : p = a
    · subst h2
      rw [List.getElem?_set_self ha, if_pos rfl, List.getElem?_eq_getElem hb]
    · have h2s : a ≠ p := fun e => h2 e.symm
      rw [List.getElem?_set_ne h2s, if_neg h2]

theorem reverse_of_invariant (s sl : List T) (k : Nat) (hlen : sl.length = s.length)
    (hinv : ∀ p : Nat, p < s.length →
      sl[p]? = if p < k ∨ s.length - k ≤ p then s[s.length - 1 - p]? else s[p]?)
    (h1 : 2 * k ≤ s.length) (h2 : s.length ≤ 2 * k + 1) : sl = s.reverse := by
  apply List.ext_getElem?
  intro p
  by_cases hp : p < s.length
  · rw [hinv p hp, List.getElem?_reverse hp]
    by_cases hc : p < k ∨ s.length - k ≤ p
    · rw [if_pos hc]
    · rw [if_neg hc]
      have : s.length - 1 - p = p := by omega
      rw [this]
  · rw [List.getElem?_eq_none (by omega), List.getElem?_eq_none (by simp; omega)]

theorem reverseLoop_spec (s : List T) :
    ∀ (fuel k : Nat) (sl : List T), sl.length = s.length →
      (∀ p : Nat, p < s.length →
        sl[p]? = if p < k ∨ s.length - k ≤ p then s[s.length - 1 - p]? else s[p]?) →
      2 * k ≤ s.length → s.length ≤ 2 * k + 2 * fuel →
      SafeSlice.reverseLoop fuel (k : Int) ((s.length : Int) - 1 - (k : Int)) sl
        = some s.reverse := by
  intro fuel
  induction fuel with
  | zero =>
    intro k sl hlen hinv h1 h2
    have hc : ¬ ((k : Int) < (s.length : Int) - 1 - (k : Int)) := by omega
    simp only [SafeSlice.reverseLoop, hc, if_false]
    rw [reverse_of_invariant s sl k hlen hinv h1 (by omega)]
  | succ fuel ih =>
    intro k sl hlen hinv h1 h2
    by_cases hlt : 2 * k + 2 ≤ s.length
    · have hc : (k : Int) < (s.length : Int) - 1 - (k : Int) := by omega
      have ha : k < sl.length := by omega
      have hb : s.length - 1 - k < sl.length := by omega
      have hj : (s.length : Int) - 1 - (k : Int) = ((s.length - 1 - k : Nat) : Int) := by omega
      have hi1 : (k : Int) + 1 = ((k + 1 : Nat) : Int) := by push_cast; rfl
      have hj1 : ((s.length - 1 - k : Nat) : Int) - 1
          = (s.length : Int) - 1 - ((k + 1 : Nat) : Int) := by omega
      simp only [SafeSlice.reverseLoop, hc, if_true]
      rw [hj, goSwap_nat sl k (s.length - 1 - k) ha hb]
      simp only []
      rw [hi1, hj1]
      apply ih (k + 1) _ (by simp [hlen]) _ (by omega) (by omega)
      intro p hp
      have hak : sl[k]? = s[k]? := by
        rw [hinv k (by omega), if_neg (by omega)]
      have hbk : sl[s.length - 1 - k]? = s[s.length - 1 - k]? := by
        rw [hinv (s.length - 1 - k) (by omega), if_neg (by omega)]
      rw [getElem?_swap sl k (s.length - 1 - k) p ha hb]
      by_cases hp1 : p = s.length - 1 - k
      · rw [if_pos hp1, if_pos (by omega), hak]
        have : s.length - 1 - p = k := by omega
        rw [this]
      · rw [if_neg hp1]
        by_cases hp2 : p = k
        · rw [if_pos hp2, if_pos (by omega), hbk, hp2]
        · rw [if_neg hp2, hinv p hp]
          by_cases hc1 : p < k ∨ s.length - k ≤ p
          · rw [if_pos hc1, if_pos (by omega)]
          · rw [if_neg hc1, if_neg (by omega)]
    · have hc : ¬ ((k : Int) < (s.length : Int) - 1 - (k : Int)) := by omega
      simp only [SafeSlice.reverseLoop, hc, if_false]
      rw [reverse_of_invariant s sl k hlen hinv h1 (by omega)]

theorem Reverse_eq (s : SafeSlice T) : s.Reverse = some ⟨s.slice.reverse⟩ := by
  have h := reverseLoop_spec s.slice s.slice.length 0 s.slice rfl
    (by intro p hp; rw [if_neg (by omega)]) (by omega) (by omega)
  simp only [Nat.cast_zero, Int.sub_zero] at h
  simp only [SafeSlice.Reverse, h]

end SliceReverse

/-- C30: for every `SafeSlice` with contents `s` of length `n`, `Reverse()`
returns; afterwards the length is still `n` and the element at every position
`i` in `[0, n)` is `s[n-1-i]`; applying `Reverse()` twice restores `s`. -/
theorem C30_Reverse {T : Type} (s : SafeSlice T) :
    ∃ r, s.Reverse = some r ∧ r.Len = s.Len ∧
      (∀ i : Nat, i < s.Len → r.slice[i]? = s.slice[s.Len - 1 - i]?) ∧
      r.Reverse = some s := by
  refine ⟨⟨s.slice.reverse⟩, Reverse_eq s, by simp [SafeSlice.Len], ?_, ?_⟩
  · intro i hi
    exact List.getElem?_reverse hi
  · rw [Reverse_eq]
    simp

/-! ## Sorting -/

section SliceSort

variable {T : Type}

theorem sortInsert_perm (less : T → T → Bool) (x : T) (l : List T) :
    (SafeSlice.sortInsert less x l).Perm (x :: l) := by
  induction l with
  | nil => exact List.Perm.refl _
  | cons y ys ih =>
    cases h : less x y with
    | true => simp [SafeSlice.sortInsert, h]
    | false =>
      simp only [SafeSlice.sortInsert, h, Bool.false_eq_true, if_false]
      exact (List.Perm.cons y ih).trans (List.Perm.swap x y ys)

theorem sortSlice_perm (less : T → T → Bool) (l : List T) :
    (SafeSlice.sortSlice less l).Perm l := by
  induction l with
  | nil => exact List.Perm.refl _
  | cons x xs ih =>
    exact (sortInsert_perm less x _).trans (List.Perm.cons x ih)

theorem sortInsert_sorted (less : T → T → Bool) (S : T → Prop)
    (hirr : ∀ a, S a → less a a = false)
    (htrans : ∀ a b c, S a → S b → S c → less a b = true → less b c = true → less a c = true)
    (x : T) (hx : S x) (l : List T) (hl : ∀ b ∈ l, S b)
    (hsorted : l.Pairwise (fun a b => less b a = false)) :
    (SafeSlice.sortInsert less x l).Pairwise (fun a b => less b a = false) := by
  induction l with
  | nil => simp [SafeSlice.sortInsert]
  | cons y ys ih =>
    have hy : S y := hl y (List.mem_cons_self y ys)
    have hys : ∀ b ∈ ys, S b := fun b hb => hl b (List.mem_cons_of_mem y hb)
    rw [List.pairwise_cons] at hsorted
    cases h : less x y with
    | true =>
      simp only [SafeSlice.sortInsert, h, if_true]
      rw [List.pairwise_cons, List.pairwise_cons]
      refine ⟨?_, hsorted⟩
      intro b hb
      cases hbx : less b x with
      | false => rfl
      | true =>
        have hbS : S b := hl b hb
        have hby : less b y = true := htrans b x y hbS hx hy hbx h
        rcases List.mem_cons.mp hb with h1 | h1
        · rw [h1, hirr y hy] at hby; cases hby
        · rw [hsorted.1 b h1] at hby; cases hby
    | false =>
      simp only [SafeSlice.sortInsert, h, Bool.false_eq_true, if_false]
      rw [List.pairwise_cons]
      refine ⟨?_, ih hys hsorted.2⟩
      intro b hb
      rcases List.mem_cons.mp ((sortInsert_perm less x ys).mem_iff.mp hb) with h1 | h1
      · rw [h1]; exact h
      · exact hsorted.1 b h1

theorem sortSlice_sorted (less : T → T → Bool) (S : T → Prop)
    (hirr : ∀ a, S a → less a a = false)
    (htrans : ∀ a b c, S a → S b → S c → less a b = true → less b c = true → less a c = true)
    (l : List T) (hl : ∀ b ∈ l, S b) :
    (SafeSlice.sortSlice less l).Pairwise (fun a b => less b a = false) := by
  induction l with
  | nil => simp [SafeSlice.sortSlice]
  | cons x xs ih =>
    have hxs : ∀ b ∈ xs, S b := fun b hb => hl b (List.mem_cons_of_mem x hb)
    exact sortInsert_sorted less S hirr htrans x (hl x (List.mem_cons_self x xs)) _
      (fun b hb => hxs b ((sortSlice_perm less xs).mem_iff.mp hb)) (ih hxs)

end SliceSort

/-- C24: for every `SafeSlice` and every `less` that is a strict weak ordering
on its elements, after `SortBy(less)` the contents are a permutation of the
previous contents, the length is the same, and there are no positions `i < j`
with `less(element j, element i)`. -/
theorem C24_SortBy {T : Type} (s : SafeSlice T) (less : T → T → Bool)
    (h : IsStrictWeakOrderingOn less s.slice) :
    ((s.SortBy less).slice).Perm s.slice ∧
    (s.SortBy less).Len = s.Len ∧
    (∀ (i j : Nat) (a b : T), i < j → (s.SortBy less).slice[i]? = some a →
      (s.SortBy less).slice[j]? = some b → less b a = false) := by
  have hperm : ((s.SortBy less).slice).Perm s.slice := sortSlice_perm less s.slice
  have hsorted : ((s.SortBy less).slice).Pairwise (fun a b => less b a = false) :=
    sortSlice_sorted less (fun a => a ∈ s.slice) h.1
      (fun a b c ha hb hc => h.2.1 a ha b hb c hc) s.slice (fun b hb => hb)
  refine ⟨hperm, hperm.length_eq, ?_⟩
  intro i j a b hij hi hj
  obtain ⟨hi1, hi2⟩ := List.getElem?_eq_some_iff.mp hi
  obtain ⟨hj1, hj2⟩ := List.getElem?_eq_some_iff.mp hj
  have := List.pairwise_iff_getElem.mp hsorted i j hi1 hj1 hij
  rw [hi2, hj2] at this
  exact this

/-- C24 on the contents `[3, 1, 2]` with the order `<` of the integers: the
result is a permutation of `[3, 1, 2]` of length 3. -/
theorem C24_SortBy_witness :
    (((⟨[3, 1, 2]⟩ : SafeSlice Int).SortBy (fun a b => decide (a < b))).slice).Perm [3, 1, 2] ∧
    ((⟨[3, 1, 2]⟩ : SafeSlice Int).SortBy (fun a b => decide (a < b))).slice = [1, 2, 3] :=
  have h := C24_SortBy (⟨[3, 1, 2]⟩ : SafeSlice Int) (fun a b => decide (a < b))
    ⟨fun a _ => by simp,
     fun a _ b _ c _ h1 h2 => by
       simp only [decide_eq_true_eq] at h1 h2 ⊢; omega,
     fun a _ b _ c _ h1 h2 => by
       simp only [decide_eq_false_iff_not] at h1 h2 ⊢; omega⟩
  ⟨h.1, by decide⟩

/-! ## Pop, Push and Swap -/

section SliceEnds

variable {T : Type}

theorem Pop_append_singleton [Inhabited T] (init : List T) (x : T) :
    (⟨init ++ [x]⟩ : SafeSlice T).Pop = some (⟨init⟩, x) := by
  have hlen : (init ++ [x]).length ≠ 0 := by simp
  have hcast : (((init ++ [x]).length : Nat) : Int) - 1 = (init.length : Int) := by
    simp
  have hidx : goIndex (init ++ [x]) (init.length : Int) = some x := by
    rw [goIndex_nat _ init.length (by simp)]
    simp
  have hto : goSliceTo (init ++ [x]) (init.length : Int) = some init := by
    rw [goSliceTo_nat _ init.length (by simp)]
    simp
  simp only [SafeSlice.Pop, hlen, if_false, hcast, hidx, hto]

theorem PopFront_cons [Inhabited T] (x : T) (rest : List T) :
    (⟨x :: rest⟩ : SafeSlice T).PopFront = some (⟨rest⟩, x) := by
  have hlen : (x :: rest).length ≠ 0 := by simp
  have hidx : goIndex (x :: rest) 0 = some x := by
    have := goIndex_nat (x :: rest) 0 (by simp)
    simpa using this
  have hfrom : goSliceFrom (x :: rest) 1 = some rest := by
    have := goSliceFrom_nat (x :: rest) 1 (by simp)
    simpa using this
  simp only [SafeSlice.PopFront, hlen, if_false, hidx, hfrom]

theorem Swap_out_of_range (s : SafeSlice T) (i j : Int)
    (h : i < 0 ∨ (s.slice.length : Int) ≤ i ∨ j < 0 ∨ (s.slice.length : Int) ≤ j) :
    s.Swap i j = none := by
  have hgo : goSwap s.slice i j = none := by
    by_cases hj : 0 ≤ j ∧ j < (s.slice.length : Int)
    · have hi : ¬ (0 ≤ i ∧ i < (s.slice.length : Int)) := by omega
      have h1 : goIndex s.slice i = none := by simp only [goIndex, hi, if_false]
      cases h2 : goIndex s.slice j <;> simp [goSwap, h1, h2]
    · have h1 : goIndex s.slice j = none := by simp only [goIndex, hj, if_false]
      simp [goSwap, h1]
  simp only [SafeSlice.Swap, hgo]

theorem Swap_in_range (s : SafeSlice T) (a b : Nat) (ha : a < s.slice.length)
    (hb : b < s.slice.length) :
    s.Swap (a : Int) (b : Int) = some ⟨(s.slice.set a s.slice[b]).set b s.slice[a]⟩ := by
  simp only [SafeSlice.Swap, goSwap_nat s.slice a b ha hb]

end SliceEnds

/-- C31: on a non-empty slice `Pop()` returns the last element and leaves the
contents without it, and `PopFront()` returns the first element and leaves the
contents without it, the rest in the same order and `Len()` one less; on an
empty slice both return the zero value and the slice stays empty. -/
theorem C31_Pop_PopFront {T : Type} [Inhabited T] :
    (⟨[]⟩ : SafeSlice T).Pop = some (⟨[]⟩, default) ∧
    (⟨[]⟩ : SafeSlice T).PopFront = some (⟨[]⟩, default) ∧
    (∀ (init : List T) (x : T),
      (⟨init ++ [x]⟩ : SafeSlice T).Pop = some (⟨init⟩, x) ∧
      (⟨init⟩ : SafeSlice T).Len + 1 = (⟨init ++ [x]⟩ : SafeSlice T).Len) ∧
    (∀ (x : T) (rest : List T),
      (⟨x :: rest⟩ : SafeSlice T).PopFront = some (⟨rest⟩, x) ∧
      (⟨rest⟩ : SafeSlice T).Len + 1 = (⟨x :: rest⟩ : SafeSlice T).Len) := by
  refine ⟨rfl, rfl, fun init x => ⟨Pop_append_singleton init x, ?_⟩,
    fun x rest => ⟨PopFront_cons x rest, ?_⟩⟩
  · simp [SafeSlice.Len]
  · simp [SafeSlice.Len]

/-- C32: for every `SafeSlice` with contents `s` and element `x`, `Append(x)` and
`Push(x)` both make the contents `s ++ [x]` and `PushFront(x)` makes them
`[x] ++ s`; in each case `Len()` grows by one. -/
theorem C32_Append_Push_PushFront {T : Type} (s : SafeSlice T) (x : T) :
    (s.Append x).slice = s.slice ++ [x] ∧
    (s.Push x).slice = s.slice ++ [x] ∧
    (s.PushFront x).slice = [x] ++ s.slice ∧
    (s.Append x).Len = s.Len + 1 ∧
    (s.Push x).Len = s.Len + 1 ∧
    (s.PushFront x).Len = s.Len + 1 := by
  refine ⟨rfl, rfl, rfl, ?_, ?_, ?_⟩
  · simp [SafeSlice.Append, SafeSlice.Len]
  · simp [SafeSlice.Push, SafeSlice.Len]
  · simp [SafeSlice.PushFront, SafeSlice.Len]

/-- C33: for every `SafeSlice` of length `n` and integers `i`, `j`: when both are
in `[0, n)`, `Swap(i, j)` returns with the elements at `i` and `j` exchanged,
the same length and every other element unchanged; when `i` or `j` is outside
`[0, n)`, `Swap` faults. -/
theorem C33_Swap {T : Type} (s : SafeSlice T) (i j : Int) :
    (0 ≤ i ∧ i < (s.Len : Int) ∧ 0 ≤ j ∧ j < (s.Len : Int) →
      ∃ r, s.Swap i j = some r ∧ r.Len = s.Len ∧
        r.slice[i.toNat]? = s.slice[j.toNat]? ∧
        r.slice[j.toNat]? = s.slice[i.toNat]? ∧
        ∀ k : Nat, k ≠ i.toNat → k ≠ j.toNat → r.slice[k]? = s.slice[k]?) ∧
    (i < 0 ∨ (s.Len : Int) ≤ i ∨ j < 0 ∨ (s.Len : Int) ≤ j → s.Swap i j = none) := by
  refine ⟨?_, fun h => Swap_out_of_range s i j h⟩
  rintro ⟨hi0, hi1, hj0, hj1⟩
  obtain ⟨a, rfl⟩ := Int.eq_ofNat_of_zero_le hi0
  obtain ⟨b, rfl⟩ := Int.eq_ofNat_of_zero_le hj0
  have ha : a < s.slice.length := by
    simp only [SafeSlice.Len] at hi1; exact_mod_cast hi1
  have hb : b < s.slice.length := by
    simp only [SafeSlice.Len] at hj1; exact_mod_cast hj1
  simp only [Int.toNat_ofNat]
  refine ⟨_, Swap_in_range s a b ha hb, by simp [SafeSlice.Len], ?_, ?_, ?_⟩
  · rw [getElem?_swap s.slice a b a ha hb]
    by_cases hab : a = b
    · rw [if_pos hab, hab]
    · rw [if_neg hab, if_pos rfl]
  · rw [getElem?_swap s.slice a b b ha hb, if_pos rfl]
  · intro k hka hkb
    rw [getElem?_swap s.slice a b k ha hb, if_neg hkb, if_neg hka]

/-- C33 on the contents `[10, 20, 30]`: `Swap(0, 2)` returns, and `Swap(0, 3)`
and `Swap(-1, 1)` fault. -/
theorem C33_Swap_witness :
    (∃ r, (⟨[10, 20, 30]⟩ : SafeSlice Int).Swap 0 2 = some r ∧
      r.Len = (⟨[10, 20, 30]⟩ : SafeSlice Int).Len ∧
      r.slice[(0 : Int).toNat]? = ([10, 20, 30] : List Int)[(2 : Int).toNat]? ∧
      r.slice[(2 : Int).toNat]? = ([10, 20, 30] : List Int)[(0 : Int).toNat]? ∧
      ∀ k : Nat, k ≠ (0 : Int).toNat → k ≠ (2 : Int).toNat →
        r.slice[k]? = ([10, 20, 30] : List Int)[k]?) ∧
    (⟨[10, 20, 30]⟩ : SafeSlice Int).Swap 0 3 = none ∧
    (⟨[10, 20, 30]⟩ : SafeSlice Int).Swap (-1) 1 = none :=
  ⟨(C33_Swap (⟨[10, 20, 30]⟩ : SafeSlice Int) 0 2).1 (by decide),
   (C33_Swap (⟨[10, 20, 30]⟩ : SafeSlice Int) 0 3).2 (by decide),
   (C33_Swap (⟨[10, 20, 30]⟩ : SafeSlice Int) (-1) 1).2 (by decide)⟩

/-! ## SafeSliceComparable -/

section Comparable

variable {T : Type}

theorem equalLoop_eq (fn : T → T → Bool) (es opre orest : List T)
    (hlen : es.length = orest.length) :
    SafeSliceComparable.equalLoop fn (opre ++ orest) es (opre.length : Int)
      = some ((es.zip orest).all (fun q => fn q.1 q.2)) := by
  induction es generalizing opre orest with
  | nil => simp [SafeSliceComparable.equalLoop]
  | cons e es ih =>
    cases orest with
    | nil => simp at hlen
    | cons o orest =>
      have hidx : goIndex (opre ++ o :: orest) (opre.length : Int) = some o := by
        rw [goIndex_nat _ opre.length (by simp),
          List.getElem?_append_right (Nat.le_refl _), Nat.sub_self]
        simp
      have hcast : ((opre.length : Int) + 1) = (((opre ++ [o]).length : Nat) : Int) := by simp
      have hl : es.length = orest.length := by simpa using hlen
      have hih := ih (opre ++ [o]) orest hl
      simp only [List.append_assoc, List.singleton_append] at hih
      simp only [SafeSliceComparable.equalLoop, hidx]
      cases hf : fn e o with
      | false => simp [hf]
      | true =>
        simp only [Bool.not_true, Bool.false_eq_true, if_false]
        rw [hcast, hih]
        simp [hf]

theorem EqualFunc_eq (s : SafeSliceComparable T) (o : List T) (fn : T → T → Bool) :
    s.EqualFunc o fn = some (s, decide (s.slice.length = o.length) &&
      (s.slice.zip o).all (fun q => fn q.1 q.2)) := by
  by_cases hlen : s.slice.length = o.length
  · have := equalLoop_eq fn s.slice [] o hlen
    simp only [List.length_nil, Nat.cast_zero, List.nil_append] at this
    simp [SafeSliceComparable.EqualFunc, hlen, this]
  · simp [SafeSliceComparable.EqualFunc, hlen]

theorem Equal_eq_EqualSlice [DecidableEq T] (s : SafeSliceComparable T) (other : SafeSlice T) :
    s.Equal other = s.EqualSlice other.slice := rfl

end Comparable

/-- C38, the code as written: called by one goroutine with both mutexes free,
`EqualSafeSlice(other)` locks `s.mu` and then calls `s.Equal(other)`, which
locks `s.mu` again, so the call never returns, while `Equal(other)` called
directly returns; in the same way `EqualSafeSliceFunc(other, fn)` never
returns, while `EqualFunc(other.slice, fn)` called directly returns. -/
theorem C38_EqualSafeSlice_never_returns {T : Type} [DecidableEq T]
    (s : SafeSliceComparable T) (other : SafeSlice T) (fn : T → T → Bool) :
    SafeSliceComparable.EqualSafeSlice ⟨false, false⟩ s other
      = SafeSliceComparable.Outcome.blocks ∧
    SafeSliceComparable.EqualSafeSliceFunc ⟨false, false⟩ s other fn
      = SafeSliceComparable.Outcome.blocks ∧
    (∃ b, SafeSliceComparable.EqualWithLocks ⟨false, false⟩ s other
      = SafeSliceComparable.Outcome.returns (⟨false, false⟩, b)) ∧
    (∃ b, SafeSliceComparable.EqualFuncWithLocks ⟨false, false⟩ s other.slice fn
      = SafeSliceComparable.Outcome.returns (⟨false, false⟩, b)) := by
  refine ⟨rfl, rfl, ?_, ?_⟩
  · have h : s.Equal other = some (s, _) := EqualFunc_eq s other.slice _
    exact ⟨_, by simp only [SafeSliceComparable.EqualWithLocks, h]; rfl⟩
  · have h := EqualFunc_eq s other.slice fn
    exact ⟨_, by simp only [SafeSliceComparable.EqualFuncWithLocks, h]; rfl⟩

/-! ## A failed construction from a flat sequence -/

section FailedPairs

variable {A K V : Type}

end FailedPairs

theorem step_empty {T : Type} [DecidableEq T] (c : SafeSliceComparable.Call T) :
    SafeSliceComparable.step (⟨[]⟩ : SafeSliceComparable T) c = some ⟨[]⟩ := by
  cases c with
  | contains x => rfl
  | remove x => rfl
  | removeAll x => rfl
  | equal other =>
    simp only [SafeSliceComparable.step, Equal_eq_EqualSlice, SafeSliceComparable.EqualSlice,
      EqualFunc_eq, Option.map_some']
  | equalSlice other =>
    simp only [SafeSliceComparable.step, SafeSliceComparable.EqualSlice, EqualFunc_eq,
      Option.map_some']
  | equalValues values =>
    simp only [SafeSliceComparable.step, SafeSliceComparable.EqualValues,
      SafeSliceComparable.EqualSlice, EqualFunc_eq, Option.map_some']
  | equalFunc other fn =>
    simp only [SafeSliceComparable.step, EqualFunc_eq, Option.map_some']

theorem run_empty {T : Type} [DecidableEq T] (calls : List (SafeSliceComparable.Call T)) :
    SafeSliceComparable.run calls (⟨[]⟩ : SafeSliceComparable T) = some ⟨[]⟩ := by
  induction calls with
  | nil => rfl
  | cons c cs ih => simp only [SafeSliceComparable.run, step_empty, ih]

/-- C40: starting from `NewSafeSliceComparable()`, after any sequence of calls of
`Contains`, `Remove`, `RemoveAll`, `Equal`, `EqualSlice`, `EqualValues` and
`EqualFunc` every call has returned and the contents are empty; so in the
state reached `Contains(x)` is false for every `x` and `EqualSlice(o)` is true
iff `o` is empty. -/
theorem C40_comparable_stays_empty {T : Type} [DecidableEq T]
    (calls : List (SafeSliceComparable.Call T)) :
    ∃ s, SafeSliceComparable.run calls
        (SafeSliceComparable.NewSafeSliceComparable : SafeSliceComparable T) = some s ∧
      s.slice = [] ∧
      (∀ x, (s.Contains x).2 = false) ∧
      (∀ o : List T, ∃ b, s.EqualSlice o = some (s, b) ∧ (b = true ↔ o = [])) := by
  refine ⟨⟨[]⟩, run_empty calls, rfl, fun x => rfl, fun o => ?_⟩
  refine ⟨_, EqualFunc_eq _ o _, ?_⟩
  cases o with
  | nil => simp
  | cons a o => simp

/-! ## Facts about maps with keys compared by `==` -/

section CmpMapFacts

variable {K V : Type} [GoEq K]

theorem goeq_comm (a b : K) : GoEq.eq a b = GoEq.eq b a := by
  cases h1 : GoEq.eq a b with
  | true => exact (GoEq.symm a b h1).symm
  | false =>
    cases h2 : GoEq.eq b a with
    | false => rfl
    | true => rw [GoEq.symm b a h2] at h1; cases h1

theorem goeq_self_of_eq_left {a b : K} (h : GoEq.eq a b = true) : GoEq.eq a a = true :=
  GoEq.trans a b a h (GoEq.symm a b h)

theorem goeq_self_of_eq_right {a b : K} (h : GoEq.eq a b = true) : GoEq.eq b b = true :=
  GoEq.trans b a b (GoEq.symm a b h) h

theorem goeq_congr_right {a b : K} (h : GoEq.eq a b = true) (c : K) :
    GoEq.eq c a = GoEq.eq c b := by
  cases h1 : GoEq.eq c a with
  | true => exact (GoEq.trans c a b h1 h).symm
  | false =>
    cases h2 : GoEq.eq c b with
    | false => rfl
    | true => rw [GoEq.trans c b a h2 (GoEq.symm a b h)] at h1; cases h1

theorem cmp_lookupL_eq_none_iff (k : K) (es : List (K × V)) :
    Comparable.lookupL k es = none ↔ ∀ e ∈ es, GoEq.eq e.1 k = false := by
  induction es with
  | nil => simp [Comparable.lookupL]
  | cons e es ih =>
    cases h : GoEq.eq e.1 k with
    | true => simp [Comparable.lookupL, h]
    | false => simp [Comparable.lookupL, h, ih]

theorem cmp_lookupL_isSome_iff (k : K) (es : List (K × V)) :
    (Comparable.lookupL k es).isSome = true ↔ ∃ e ∈ es, GoEq.eq e.1 k = true := by
  induction es with
  | nil => simp [Comparable.lookupL]
  | cons e es ih =>
    cases h : GoEq.eq e.1 k with
    | true => simp [Comparable.lookupL, h]
    | false => simp [Comparable.lookupL, h, ih]

theorem cmp_lookupL_of_irreflexive {k : K} (hk : GoEq.eq k k = false) (es : List (K × V)) :
    Comparable.lookupL k es = none := by
  rw [cmp_lookupL_eq_none_iff]
  intro e _
  cases h : GoEq.eq e.1 k with
  | false => rfl
  | true => rw [goeq_self_of_eq_right h] at hk; cases hk

theorem cmp_lookupL_of_mem {es : List (K × V)}
    (hd : es.Pairwise (fun a b => GoEq.eq a.1 b.1 = false)) {e : K × V} (he : e ∈ es)
    {k : K} (hk : GoEq.eq e.1 k = true) : Comparable.lookupL k es = some e.2 := by
  induction es with
  | nil => cases he
  | cons e1 es ih =>
    rw [List.pairwise_cons] at hd
    rcases List.mem_cons.mp he with h | h
    · subst h
      simp [Comparable.lookupL, hk]
    · have h1 : GoEq.eq e1.1 e.1 = false := hd.1 e h
      have h2 : GoEq.eq e1.1 k = false := by
        rw [← goeq_congr_right hk]; exact h1
      simp [Comparable.lookupL, h2, ih hd.2 h]

theorem cmp_lookupL_some_mem {k : K} {v : V} {es : List (K × V)}
    (h : Comparable.lookupL k es = some v) : ∃ e ∈ es, GoEq.eq e.1 k = true ∧ e.2 = v := by
  induction es with
  | nil => simp [Comparable.lookupL] at h
  | cons e es ih =>
    cases h1 : GoEq.eq e.1 k with
    | true =>
      refine ⟨e, List.mem_cons_self e es, h1, ?_⟩
      simpa [Comparable.lookupL, h1] using h
    | false =>
      obtain ⟨e2, he2, h2⟩ := ih (by simpa [Comparable.lookupL, h1] using h)
      exact ⟨e2, List.mem_cons_of_mem e he2, h2⟩

theorem cmp_lookupL_perm {es es1 : List (K × V)} (hp : es.Perm es1)
    (hd : es.Pairwise (fun a b => GoEq.eq a.1 b.1 = false)) (k : K) :
    Comparable.lookupL k es1 = Comparable.lookupL k es := by
  have hd1 : es1.Pairwise (fun a b => GoEq.eq a.1 b.1 = false) :=
    hp.pairwise hd (fun {a b} h => by rw [goeq_comm]; exact h)
  cases h : Comparable.lookupL k es with
  | none =>
    rw [cmp_lookupL_eq_none_iff] at h ⊢
    exact fun e he => h e (hp.mem_iff.mpr he)
  | some v =>
    obtain ⟨e, he, hek, hev⟩ := cmp_lookupL_some_mem h
    rw [cmp_lookupL_of_mem hd1 (hp.mem_iff.mp he) hek, hev]

theorem cmp_eraseL_cons_eq {k : K} {e : K × V} (h : GoEq.eq e.1 k = true) (es : List (K × V)) :
    Comparable.eraseL k (e :: es) = Comparable.eraseL k es := by
  simp [Comparable.eraseL, h]

theorem cmp_eraseL_cons_ne {k : K} {e : K × V} (h : GoEq.eq e.1 k = false) (es : List (K × V)) :
    Comparable.eraseL k (e :: es) = e :: Comparable.eraseL k es := by
  simp [Comparable.eraseL, h]

theorem cmp_eraseL_of_lookupL_none {k : K} {es : List (K × V)}
    (h : Comparable.lookupL k es = none) : Comparable.eraseL k es = es := by
  rw [cmp_lookupL_eq_none_iff] at h
  rw [Comparable.eraseL, List.filter_eq_self]
  intro e he
  simp [h e he]

theorem cmp_lookupL_eraseL_self (k : K) (es : List (K × V)) :
    Comparable.lookupL k (Comparable.eraseL k es) = none := by
  rw [cmp_lookupL_eq_none_iff]
  intro e he
  simpa [Comparable.eraseL] using (List.mem_filter.mp he).2

theorem cmp_lookupL_eraseL_ne {k k1 : K} (h : GoEq.eq k1 k = false) (es : List (K × V)) :
    Comparable.lookupL k (Comparable.eraseL k1 es) = Comparable.lookupL k es := by
  induction es with
  | nil => rfl
  | cons e es ih =>
    cases h1 : GoEq.eq e.1 k1 with
    | true =>
      have h2 : GoEq.eq e.1 k = false := by
        cases h3 : GoEq.eq e.1 k with
        | false => rfl
        | true =>
          rw [GoEq.trans k1 e.1 k (GoEq.symm e.1 k1 h1) h3] at h
          cases h
      rw [cmp_eraseL_cons_eq h1, ih]
      simp [Comparable.lookupL, h2]
    | false =>
      rw [cmp_eraseL_cons_ne h1]
      cases h2 : GoEq.eq e.1 k with
      | true => simp [Comparable.lookupL, h2]
      | false => simp [Comparable.lookupL, h2, ih]

theorem cmp_length_eraseL_of_lookupL_some {k : K} {v : V} {es : List (K × V)}
    (hd : es.Pairwise (fun a b => GoEq.eq a.1 b.1 = false))
    (h : Comparable.lookupL k es = some v) :
    (Comparable.eraseL k es).length + 1 = es.length := by
  induction es with
  | nil => simp [Comparable.lookupL] at h
  | cons e es ih =>
    rw [List.pairwise_cons] at hd
    cases h1 : GoEq.eq e.1 k with
    | true =>
      have h2 : Comparable.lookupL k es = none := by
        rw [cmp_lookupL_eq_none_iff]
        intro e2 he2
        cases h3 : GoEq.eq e2.1 k with
        | false => rfl
        | true =>
          have h4 := GoEq.trans e.1 k e2.1 h1 (GoEq.symm e2.1 k h3)
          rw [hd.1 e2 he2] at h4
          cases h4
      rw [cmp_eraseL_cons_eq h1, cmp_eraseL_of_lookupL_none h2]
      rfl
    | false =>
      have h2 : Comparable.lookupL k es = some v := by
        simpa [Comparable.lookupL, h1] using h
      rw [cmp_eraseL_cons_ne h1]
      simp [ih hd.2 h2]

theorem cmp_lookup_insert (m : Comparable.GoMap K V) (k1 k : K) (v : V) :
    (m.insert k1 v).lookup k = if GoEq.eq k1 k then some v else m.lookup k := by
  cases h : GoEq.eq k1 k with
  | true => simp [Comparable.GoMap.lookup, Comparable.GoMap.insert, Comparable.lookupL, h]
  | false =>
    simp [Comparable.GoMap.lookup, Comparable.GoMap.insert, Comparable.lookupL, h,
      cmp_lookupL_eraseL_ne h]

theorem cmp_len_insert_of_none (m : Comparable.GoMap K V) {k : K} (v : V)
    (h : m.lookup k = none) : (m.insert k v).len = m.len + 1 := by
  simp [Comparable.GoMap.len, Comparable.GoMap.insert, cmp_eraseL_of_lookupL_none h]

theorem cmp_len_insert_of_some (m : Comparable.GoMap K V) {k : K} (v : V) {v1 : V}
    (h : m.lookup k = some v1) : (m.insert k v).len = m.len := by
  have := cmp_length_eraseL_of_lookupL_some m.distinct h
  simpa [Comparable.GoMap.len, Comparable.GoMap.insert] using this

theorem cmp_GoMap_eq_of_entries_eq {m1 m2 : Comparable.GoMap K V}
    (h : m1.entries = m2.entries) : m1 = m2 := by
  cases m1; cases m2; simp only [Comparable.GoMap.mk.injEq]; exact h

theorem cmp_mem_range_iff (o : RangeOrder (K × V)) (m : Comparable.GoMap K V) (e : K × V) :
    e ∈ m.range o ↔ e ∈ m.entries :=
  (o.perm m.entries).mem_iff

theorem cmp_distinct_range (o : RangeOrder (K × V)) (m : Comparable.GoMap K V) :
    (m.range o).Pairwise (fun a b => GoEq.eq a.1 b.1 = false) :=
  (o.perm m.entries).symm.pairwise m.distinct (fun {a b} h => by rw [goeq_comm]; exact h)

theorem cmp_length_range (o : RangeOrder (K × V)) (m : Comparable.GoMap K V) :
    (m.range o).length = m.len :=
  (o.perm m.entries).length_eq

end CmpMapFacts

/-! ## SafeMap with keys compared by `==` -/

section CmpSafeMapFacts

variable {K V : Type} [GoEq K] [Inhabited V]

theorem cmp_Get_of_some {sm : Comparable.SafeMap K V} {k : K} {v : V}
    (h : sm.m.lookup k = some v) : sm.Get k = (v, true) := by
  simp [Comparable.SafeMap.Get, h]

theorem cmp_Get_of_none {sm : Comparable.SafeMap K V} {k : K} (h : sm.m.lookup k = none) :
    sm.Get k = (default, false) := by
  simp [Comparable.SafeMap.Get, h]

theorem cmp_Get_snd_false_iff (sm : Comparable.SafeMap K V) (k : K) :
    (sm.Get k).2 = false ↔ sm.m.lookup k = none := by
  cases h : sm.m.lookup k <;> simp [Comparable.SafeMap.Get, h]

theorem cmp_Get_snd_true_iff (sm : Comparable.SafeMap K V) (k : K) :
    (sm.Get k).2 = true ↔ ∃ v, sm.m.lookup k = some v := by
  cases h : sm.m.lookup k <;> simp [Comparable.SafeMap.Get, h]

theorem cmp_Get_Set_eq (sm : Comparable.SafeMap K V) {k1 k : K} (h : GoEq.eq k1 k = true)
    (v : V) : (sm.Set k1 v).Get k = (v, true) := by
  apply cmp_Get_of_some
  simp [Comparable.SafeMap.Set, cmp_lookup_insert, h]

theorem cmp_Get_Set_ne (sm : Comparable.SafeMap K V) {k1 k : K} (h : GoEq.eq k1 k = false)
    (v : V) : (sm.Set k1 v).Get k = sm.Get k := by
  simp [Comparable.SafeMap.Get, Comparable.SafeMap.Set, cmp_lookup_insert, h]

theorem cmp_runCalls_Get (calls : List (MapCall K V)) (sm : Comparable.SafeMap K V) (k : K) :
    (Comparable.runCalls calls sm).Get k =
      match Comparable.lastSet k calls with
      | some v => (v, true)
      | none => sm.Get k := by
  induction calls generalizing sm with
  | nil => rfl
  | cons c rest ih =>
    cases c with
    | get k1 => simpa [Comparable.runCalls, Comparable.lastSet] using ih sm
    | set k1 v =>
      simp only [Comparable.runCalls, Comparable.lastSet]
      rw [ih]
      cases h : Comparable.lastSet k rest with
      | some w => rfl
      | none =>
        cases h1 : GoEq.eq k1 k with
        | true => simp [cmp_Get_Set_eq sm h1]
        | false => simp [cmp_Get_Set_ne sm h1]

end CmpSafeMapFacts

theorem cmp_lastSet_isSome_of_mem {K V : Type} [GoEq K] {calls : List (MapCall K V)}
    {k : K} {v : V}
    (hk : GoEq.eq k k = true) (hmem : MapCall.set k v ∈ calls) :
    ∃ w, Comparable.lastSet k calls = some w := by
  induction calls with
  | nil => cases hmem
  | cons c rest ih =>
    cases c with
    | get k1 =>
      rcases List.mem_cons.mp hmem with h | h
      · cases h
      · simpa [Comparable.lastSet] using ih h
    | set k1 v1 =>
      simp only [Comparable.lastSet]
      cases h1 : Comparable.lastSet k rest with
      | some w => exact ⟨w, rfl⟩
      | none =>
        rcases List.mem_cons.mp hmem with h | h
        · cases h
          exact ⟨v, by simp [hk]⟩
        · obtain ⟨w, hw⟩ := ih h
          rw [hw] at h1
          cases h1

/-- C2, a key that is not equal to itself: on a `SafeMap[float64, int]` the call
`Set(NaN, 5)` stores an entry, so `Len()` is 1, and the next `Get(NaN)` returns
`(0, false)`, not `(5, true)`. -/
theorem C2_Get_misses_NaN_key :
    (Comparable.runCalls [MapCall.set Float64.nan (5 : Nat)]
      (Comparable.SafeMap.NewSafeMap : Comparable.SafeMap Float64 Nat)).Len = 1 ∧
    (Comparable.runCalls [MapCall.set Float64.nan (5 : Nat)]
      (Comparable.SafeMap.NewSafeMap : Comparable.SafeMap Float64 Nat)).Get Float64.nan
      = (0, false) := by
  decide

/-- C2, amended: after any sequence of `Set` and `Get` calls on any `SafeMap`, for
a key `k` with `k == k`: if `v` is the value of the last `Set` on a key equal to
`k`, then `Get(k)` returns `(v, true)`; there is such a `Set` whenever `Set(k, v)`
is among the calls; and a `Set` on a key not equal to `k` leaves what `Get(k)`
returns as it was. -/
theorem C2_last_Set_determines_Get {K V : Type} [GoEq K] [Inhabited V]
    (sm : Comparable.SafeMap K V) (calls : List (MapCall K V)) (k : K)
    (hk : GoEq.eq k k = true) :
    (∀ v, Comparable.lastSet k calls = some v →
      (Comparable.runCalls calls sm).Get k = (v, true)) ∧
    (∀ v, MapCall.set k v ∈ calls →
      ∃ w, Comparable.lastSet k calls = some w ∧
        (Comparable.runCalls calls sm).Get k = (w, true)) ∧
    (∀ k1 v1, GoEq.eq k1 k = false → (sm.Set k1 v1).Get k = sm.Get k) := by
  have h1 : ∀ v, Comparable.lastSet k calls = some v →
      (Comparable.runCalls calls sm).Get k = (v, true) := by
    intro v h
    have := cmp_runCalls_Get calls sm k
    rw [h] at this
    exact this
  refine ⟨h1, ?_, ?_⟩
  · intro v hmem
    obtain ⟨w, hw⟩ := cmp_lastSet_isSome_of_mem hk hmem
    exact ⟨w, hw, h1 w hw⟩
  · intro k1 v1 h
    exact cmp_Get_Set_ne sm h v1

/-- C2 amended, at the calls `Set(1, 10); Set(NaN, 20); Get(1); Set(1, 11);
Set(2, 21)` on the empty `SafeMap[float64, int]`: `Get(1)` returns `(11, true)`. -/
theorem C2_last_Set_determines_Get_witness :
    GoEq.eq (Float64.num 1) (Float64.num 1) = true ∧
    Comparable.lastSet (Float64.num 1) [MapCall.set (Float64.num 1) (10 : Nat),
        MapCall.set Float64.nan 20, MapCall.get (Float64.num 1),
        MapCall.set (Float64.num 1) 11, MapCall.set (Float64.num 2) 21] = some 11 ∧
    (Comparable.runCalls [MapCall.set (Float64.num 1) (10 : Nat),
        MapCall.set Float64.nan 20, MapCall.get (Float64.num 1),
        MapCall.set (Float64.num 1) 11, MapCall.set (Float64.num 2) 21]
        (Comparable.SafeMap.NewSafeMap : Comparable.SafeMap Float64 Nat)).Get (Float64.num 1)
      = (11, true) :=
  ⟨by decide, by decide,
   (C2_last_Set_determines_Get (Comparable.SafeMap.NewSafeMap : Comparable.SafeMap Float64 Nat)
      [MapCall.set (Float64.num 1) (10 : Nat),
        MapCall.set Float64.nan 20, MapCall.get (Float64.num 1),
        MapCall.set (Float64.num 1) 11, MapCall.set (Float64.num 2) 21] (Float64.num 1)
      (by decide)).1 11 (by decide)⟩

/-- C3, a key that is not equal to itself: on an empty `SafeMap[float64, int]`,
where `Get(NaN)` reports the key absent, `SetNX(NaN, 5)` returns true and stores
an entry, and afterwards `Get(NaN)` still returns `(0, false)`, not
`(5, true)`. -/
theorem C3_SetNX_misses_NaN_key :
    ((Comparable.SafeMap.NewSafeMap : Comparable.SafeMap Float64 Nat).Get Float64.nan).2
      = false ∧
    ((Comparable.SafeMap.NewSafeMap : Comparable.SafeMap Float64 Nat).SetNX Float64.nan 5).2
      = true ∧
    ((Comparable.SafeMap.NewSafeMap : Comparable.SafeMap Float64 Nat).SetNX Float64.nan 5).1.Len
      = 1 ∧
    ((Comparable.SafeMap.NewSafeMap : Comparable.SafeMap Float64 Nat).SetNX
      Float64.nan 5).1.Get Float64.nan = (0, false) := by
  decide

/-- C3, amended: `SetNX(k, v)` returns true iff `k` was absent before the call; if
`k` was absent and `k == k`, then `Get(k)` returns `(v, true)` afterwards; if `k`
was present the call returns false and the map is the one before the call, so
`Get(k)` and `Len()` are as before. -/
theorem C3_SetNX {K V : Type} [GoEq K] [Inhabited V]
    (sm : Comparable.SafeMap K V) (k : K) (v : V) :
    ((sm.SetNX k v).2 = true ↔ (sm.Get k).2 = false) ∧
    ((sm.Get k).2 = false → GoEq.eq k k = true → (sm.SetNX k v).1.Get k = (v, true)) ∧
    ((sm.Get k).2 = true →
      (sm.SetNX k v).2 = false ∧ (sm.SetNX k v).1 = sm ∧
      (sm.SetNX k v).1.Get k = sm.Get k ∧ (sm.SetNX k v).1.Len = sm.Len) := by
  cases h : sm.m.lookup k with
  | none =>
    have hg : sm.Get k = (default, false) := cmp_Get_of_none h
    have hs : sm.SetNX k v = (⟨sm.m.insert k v⟩, true) := by
      simp [Comparable.SafeMap.SetNX, h]
    rw [hg, hs]
    refine ⟨by simp, fun _ hk => ?_, by simp⟩
    exact cmp_Get_Set_eq sm hk v
  | some w =>
    have hg : sm.Get k = (w, true) := cmp_Get_of_some h
    have hs : sm.SetNX k v = (sm, false) := by simp [Comparable.SafeMap.SetNX, h]
    rw [hs]
    simp [hg]

/-- C3 amended, on a `SafeMap[float64, int]`: `SetNX(1, 5)` on the empty map stores
the value, and a following `SetNX(1, 6)` returns false and leaves `Get(1)` at
`(5, true)`. -/
theorem C3_SetNX_witness :
    ((Comparable.SafeMap.NewSafeMap : Comparable.SafeMap Float64 Nat).Get (Float64.num 1)).2
      = false ∧
    GoEq.eq (Float64.num 1) (Float64.num 1) = true ∧
    ((Comparable.SafeMap.NewSafeMap : Comparable.SafeMap Float64 Nat).SetNX
      (Float64.num 1) 5).1.Get (Float64.num 1) = (5, true) ∧
    ((((Comparable.SafeMap.NewSafeMap : Comparable.SafeMap Float64 Nat).Set
      (Float64.num 1) 5).SetNX (Float64.num 1) 6).2 = false) :=
  ⟨by decide, by decide,
   (C3_SetNX (Comparable.SafeMap.NewSafeMap : Comparable.SafeMap Float64 Nat)
      (Float64.num 1) 5).2.1 (by decide) (by decide),
   ((C3_SetNX ((Comparable.SafeMap.NewSafeMap : Comparable.SafeMap Float64 Nat).Set
      (Float64.num 1) 5) (Float64.num 1) 6).2.2 (by decide)).1⟩

/-! ## Storing a list of pairs, keys compared by `==` -/

section CmpInsertAll

variable {K V : Type} [GoEq K]

theorem cmp_lookupL_append (k : K) (l1 l2 : List (K × V)) :
    Comparable.lookupL k (l1 ++ l2) =
      match Comparable.lookupL k l1 with
      | some v => some v
      | none => Comparable.lookupL k l2 := by
  induction l1 with
  | nil => rfl
  | cons e l1 ih =>
    cases h : GoEq.eq e.1 k with
    | true => simp [Comparable.lookupL, h]
    | false => simp [Comparable.lookupL, h, ih]

theorem cmp_lookup_insertAll (m : Comparable.GoMap K V) (ps : List (K × V)) (k : K) :
    (m.insertAll ps).lookup k =
      match Comparable.lookupL k ps.reverse with
      | some v => some v
      | none => m.lookup k := by
  induction ps generalizing m with
  | nil => rfl
  | cons p ps ih =>
    have h1 : (m.insertAll (p :: ps)) = (m.insert p.1 p.2).insertAll ps := rfl
    rw [h1, ih, List.reverse_cons, cmp_lookupL_append]
    cases h : Comparable.lookupL k ps.reverse with
    | some w => rfl
    | none =>
      cases h2 : GoEq.eq p.1 k with
      | true => simp [Comparable.lookupL, cmp_lookup_insert, h2]
      | false => simp [Comparable.lookupL, cmp_lookup_insert, h2]

theorem cmp_len_insertAll (m : Comparable.GoMap K V) (ps : List (K × V)) :
    (m.insertAll ps).len = Comparable.distinctCount (ps.map Prod.fst) +
      (m.entries.filter (fun e => !(ps.any (fun p => GoEq.eq e.1 p.1)))).length := by
  induction ps generalizing m with
  | nil => simp [Comparable.GoMap.insertAll, Comparable.distinctCount, Comparable.GoMap.len]
  | cons p ps ih =>
    have h1 : (m.insertAll (p :: ps)) = (m.insert p.1 p.2).insertAll ps := rfl
    rw [h1, ih]
    have h2 : (m.insert p.1 p.2).entries = p :: Comparable.eraseL p.1 m.entries := rfl
    have h3 : ((Comparable.eraseL p.1 m.entries).filter
          (fun e => !(ps.any (fun q => GoEq.eq e.1 q.1)))).length
        = (m.entries.filter (fun e => !((p :: ps).any (fun q => GoEq.eq e.1 q.1)))).length := by
      rw [Comparable.eraseL, List.filter_filter]
      congr 1
      apply List.filter_congr
      intro e _
      simp only [List.any_cons, Bool.not_or]
      rw [Bool.and_comm]
    have h4 : (ps.map Prod.fst).any (fun k1 => GoEq.eq p.1 k1)
        = ps.any (fun q => GoEq.eq p.1 q.1) := by
      clear ih h1 h2 h3
      induction ps with
      | nil => rfl
      | cons q ps ih2 => simp only [List.map_cons, List.any_cons, ih2]
    rw [h2, List.map_cons, Comparable.distinctCount, h4, ← h3]
    cases h5 : ps.any (fun q => GoEq.eq p.1 q.1) with
    | true => simp [List.filter_cons, h5]
    | false => simp [List.filter_cons, h5]; omega

theorem cmp_len_insertAll_empty (ps : List (K × V)) :
    ((Comparable.GoMap.empty : Comparable.GoMap K V).insertAll ps).len
      = Comparable.distinctCount (ps.map Prod.fst) := by
  rw [cmp_len_insertAll]
  simp [Comparable.GoMap.empty]

theorem cmp_distinctCount_of_pairwise {ks : List K}
    (hd : ks.Pairwise (fun a b => GoEq.eq a b = false)) :
    Comparable.distinctCount ks = ks.length := by
  induction ks with
  | nil => rfl
  | cons k ks ih =>
    rw [List.pairwise_cons] at hd
    have h1 : ks.any (fun k1 => GoEq.eq k k1) = false := by
      rw [List.any_eq_false]
      intro x hx
      simp [hd.1 x hx]
    simp [Comparable.distinctCount, h1, ih hd.2]
    omega

theorem cmp_lookupL_reverse_of_last {ps : List (K × V)} {j : Nat} {k : K} {v : V}
    (hj : ps[j]? = some (k, v)) (hk : GoEq.eq k k = true)
    (hlast : ∀ (j1 : Nat) k1 v1, j < j1 → ps[j1]? = some (k1, v1) → GoEq.eq k1 k = false) :
    Comparable.lookupL k ps.reverse = some v := by
  induction ps generalizing j with
  | nil => simp at hj
  | cons p ps ih =>
    rw [List.reverse_cons, cmp_lookupL_append]
    cases j with
    | zero =>
      have hp : p = (k, v) := by simpa using hj
      have hnone : Comparable.lookupL k ps.reverse = none := by
        rw [cmp_lookupL_eq_none_iff]
        intro e he
        obtain ⟨i, hi, hie⟩ := List.getElem_of_mem (List.mem_reverse.mp he)
        have h1 : (p :: ps)[i + 1]? = some (e.1, e.2) := by
          simp [List.getElem?_eq_getElem hi, hie]
        exact hlast (i + 1) e.1 e.2 (Nat.succ_pos i) h1
      simp [hnone, hp, Comparable.lookupL, hk]
    | succ j =>
      have h1 : ps[j]? = some (k, v) := by simpa using hj
      have h2 := ih h1 (fun j1 k1 v1 hlt hget =>
        hlast (j1 + 1) k1 v1 (Nat.succ_lt_succ hlt) (by simpa using hget))
      simp [h2]

theorem pairwise_at_indices {α : Type} {R : α → α → Prop} {l : List α} (h : l.Pairwise R)
    {i j : Nat} (hij : i < j) {a b : α} (ha : l[i]? = some a) (hb : l[j]? = some b) :
    R a b := by
  induction l generalizing i j with
  | nil => simp at ha
  | cons x l ih =>
    rw [List.pairwise_cons] at h
    match i, j, hij, ha, hb with
    | 0, j + 1, _, ha, hb =>
      have hx : x = a := by simpa using ha
      have hb1 : l[j]? = some b := by simpa using hb
      exact hx ▸ h.1 b (List.getElem?_mem hb1)
    | i + 1, j + 1, hij, ha, hb =>
      exact ih h.2 (Nat.lt_of_succ_lt_succ hij) (by simpa using ha) (by simpa using hb)

theorem cmp_foldl_insert_m (ps : List (K × V)) (sm : Comparable.SafeMap K V) :
    (ps.foldl (fun (acc : Comparable.SafeMap K V) e =>
        (⟨acc.m.insert e.1 e.2⟩ : Comparable.SafeMap K V)) sm).m
      = sm.m.insertAll ps := by
  induction ps generalizing sm with
  | nil => rfl
  | cons p ps ih => exact ih _

end CmpInsertAll

/-- C7, keys that are not equal to themselves: for the keys `[NaN]` and the values
`[7]`, which have the same length and pairwise distinct keys,
`NewSafeMapFromKeysValues` returns no error and a map with `Len() = 1`, and
`Get(keys[0])` returns `(0, false)`, not `(7, true)`. -/
theorem C7_Get_misses_NaN_key :
    (Comparable.SafeMap.NewSafeMapFromKeysValues [Float64.nan] [(7 : Nat)]).2 = none ∧
    (Comparable.SafeMap.NewSafeMapFromKeysValues [Float64.nan] [(7 : Nat)]).1.Len = 1 ∧
    (Comparable.SafeMap.NewSafeMapFromKeysValues [Float64.nan] [(7 : Nat)]).1.Get Float64.nan
      = (0, false) := by
  decide

/-- C7, amended: `NewSafeMapFromKeysValues(keys, values)` returns an error iff the
two lengths differ; when they are equal and no two keys are equal, the result
has `Len() = len(keys)` and `Get(keys[i]) = (values[i], true)` for every index
`i` with `keys[i] == keys[i]`. -/
theorem C7_NewSafeMapFromKeysValues {K V : Type} [GoEq K] [Inhabited V]
    (keys : List K) (values : List V) :
    ((Comparable.SafeMap.NewSafeMapFromKeysValues keys values).2 ≠ none ↔
      keys.length ≠ values.length) ∧
    (keys.length = values.length → keys.Pairwise (fun a b => GoEq.eq a b = false) →
      (Comparable.SafeMap.NewSafeMapFromKeysValues keys values).1.Len = keys.length ∧
      ∀ (i : Nat) k v, keys[i]? = some k → values[i]? = some v → GoEq.eq k k = true →
        (Comparable.SafeMap.NewSafeMapFromKeysValues keys values).1.Get k = (v, true)) := by
  by_cases hlen : keys.length = values.length
  · have hfst : (keys.zip values).map Prod.fst = keys :=
      List.map_fst_zip keys values (Nat.le_of_eq hlen)
    have hm : (Comparable.SafeMap.NewSafeMapFromKeysValues keys values).1.m
        = (Comparable.GoMap.empty : Comparable.GoMap K V).insertAll (keys.zip values) := by
      simp only [Comparable.SafeMap.NewSafeMapFromKeysValues, hlen, ne_eq, not_true_eq_false,
        if_false]
      exact cmp_foldl_insert_m _ _
    refine ⟨by simp [Comparable.SafeMap.NewSafeMapFromKeysValues, hlen], fun _ hd => ⟨?_, ?_⟩⟩
    · simp only [Comparable.SafeMap.Len, hm]
      rw [cmp_len_insertAll_empty, hfst, cmp_distinctCount_of_pairwise hd]
    · intro i k v hk hv hkk
      apply cmp_Get_of_some
      have hget : (keys.zip values)[i]? = some (k, v) :=
        List.getElem?_zip_eq_some.mpr ⟨hk, hv⟩
      rw [hm, cmp_lookup_insertAll]
      have hlast : ∀ (j1 : Nat) k1 v1, i < j1 → (keys.zip values)[j1]? = some (k1, v1) →
          GoEq.eq k1 k = false := by
        intro j1 k1 v1 hlt hj1
        have hk1 : keys[j1]? = some k1 := (List.getElem?_zip_eq_some.mp hj1).1
        rw [goeq_comm]
        exact pairwise_at_indices hd hlt hk hk1
      rw [cmp_lookupL_reverse_of_last hget hkk hlast]
  · refine ⟨by simp [Comparable.SafeMap.NewSafeMapFromKeysValues, hlen],
      fun h => absurd h hlen⟩

/-- C7 amended, on the keys `[1, NaN, 3]` and the values `[10, 20, 30]`: `Len()` is
3 and `Get(3)` returns `(30, true)`. -/
theorem C7_NewSafeMapFromKeysValues_witness :
    (Comparable.SafeMap.NewSafeMapFromKeysValues
      [Float64.num 1, Float64.nan, Float64.num 3] [(10 : Nat), 20, 30]).1.Len = 3 ∧
    (Comparable.SafeMap.NewSafeMapFromKeysValues
      [Float64.num 1, Float64.nan, Float64.num 3] [(10 : Nat), 20, 30]).1.Get (Float64.num 3)
      = (30, true) :=
  have h := (C7_NewSafeMapFromKeysValues
    [Float64.num 1, Float64.nan, Float64.num 3] [(10 : Nat), 20, 30]).2
    (by decide) (by decide)
  ⟨h.1, h.2 2 (Float64.num 3) 30 (by decide) (by decide) (by decide)⟩

/-! ## The loop over a flat sequence, keys compared by `==` -/

section CmpPairsLoop

variable {A K V : Type} [GoEq K]

theorem cmp_pairsLoop_err_iff (c : AnyRepr A K V) (xs : List A) :
    xs.length % 2 = 0 → ∀ sm : Comparable.SafeMap K V,
      ((Comparable.SafeMap.pairsLoop c xs sm).2 ≠ none ↔
        (∃ i x, i % 2 = 0 ∧ xs[i]? = some x ∧ c.assertK x = none) ∨
        (∃ i x, i % 2 = 1 ∧ xs[i]? = some x ∧ c.assertV x = none)) := by
  induction xs using list_pairs_induction with
  | h0 => intro _ sm; simp [Comparable.SafeMap.pairsLoop]
  | h1 x => intro h; simp at h
  | h2 x y rest ih =>
    intro hlen sm
    have hlen1 : rest.length % 2 = 0 := by
      simp only [List.length_cons] at hlen; omega
    cases hk : c.assertK x with
    | none =>
      simp only [Comparable.SafeMap.pairsLoop, hk]
      constructor
      · intro _; exact Or.inl ⟨0, x, rfl, by simp, hk⟩
      · intro _; simp
    | some key =>
      cases hv : c.assertV y with
      | none =>
        simp only [Comparable.SafeMap.pairsLoop, hk, hv]
        constructor
        · intro _; exact Or.inr ⟨1, y, rfl, by simp, hv⟩
        · intro _; simp
      | some value =>
        simp only [Comparable.SafeMap.pairsLoop, hk, hv]
        rw [ih hlen1 _]
        constructor
        · rintro (⟨i, z, hi, hz, hz2⟩ | ⟨i, z, hi, hz, hz2⟩)
          · exact Or.inl ⟨i + 2, z, by omega, by simpa using hz, hz2⟩
          · exact Or.inr ⟨i + 2, z, by omega, by simpa using hz, hz2⟩
        · rintro (⟨i, z, hi, hz, hz2⟩ | ⟨i, z, hi, hz, hz2⟩)
          · match i, hi, hz with
            | 0, _, hz =>
              have : x = z := by simpa using hz
              subst this; rw [hk] at hz2; cases hz2
            | 1, hi, _ => omega
            | i + 2, hi, hz => exact Or.inl ⟨i, z, by omega, by simpa using hz, hz2⟩
          · match i, hi, hz with
            | 0, hi, _ => omega
            | 1, _, hz =>
              have : y = z := by simpa using hz
              subst this; rw [hv] at hz2; cases hz2
            | i + 2, hi, hz => exact Or.inr ⟨i, z, by omega, by simpa using hz, hz2⟩

theorem cmp_pairsLoop_ok (c : AnyRepr A K V) (xs : List A) :
    xs.length % 2 = 0 → ∀ sm : Comparable.SafeMap K V,
      (Comparable.SafeMap.pairsLoop c xs sm).2 = none →
      ∃ ps, IsTypedPairs c xs ps ∧
        (Comparable.SafeMap.pairsLoop c xs sm).1.m = sm.m.insertAll ps := by
  induction xs using list_pairs_induction with
  | h0 => intro _ sm _; exact ⟨[], ⟨rfl, by simp⟩, rfl⟩
  | h1 x => intro h; simp at h
  | h2 x y rest ih =>
    intro hlen sm
    have hlen1 : rest.length % 2 = 0 := by
      simp only [List.length_cons] at hlen; omega
    cases hk : c.assertK x with
    | none => simp [Comparable.SafeMap.pairsLoop, hk]
    | some key =>
      cases hv : c.assertV y with
      | none => simp [Comparable.SafeMap.pairsLoop, hk, hv]
      | some value =>
        simp only [Comparable.SafeMap.pairsLoop, hk, hv]
        intro hok
        obtain ⟨ps, ⟨hl, hps⟩, hm⟩ := ih hlen1 ⟨sm.m.insert key value⟩ hok
        refine ⟨(key, value) :: ps, ⟨?_, ?_⟩, ?_⟩
        · simp only [List.length_cons]; omega
        · intro j k v hj
          match j, hj with
          | 0, hj =>
            have : (key, value) = (k, v) := by simpa using hj
            cases this
            simp [hk, hv]
          | j + 1, hj =>
            have hj1 : ps[j]? = some (k, v) := by simpa using hj
            have h3 := hps j k v hj1
            have e1 : 2 * (j + 1) = (2 * j + 1) + 1 := by omega
            rw [e1]
            simpa using h3
        · rw [hm]; rfl

end CmpPairsLoop

/-- C6, an element of type `V` that fails the assertion, and a key that is not
equal to itself.  In `[1, nil]` read for a `SafeMap[int, any]` the length is
even, the element at position 0 is the `int` 1 and the element at position 1
is the value nil of type `any`, yet `NewSafeMapFromKeyValuePairs` returns the
value error.  On `[NaN, 7]` read for a `SafeMap[float64, int]` it returns no
error and a map with `Len() = 1`, in which `Get(NaN)` returns `(0, false)`,
not `(7, true)`. -/
theorem C6_fails_on_nil_value_and_on_NaN_key :
    [Dyn.int 1, Dyn.nil].length % 2 = 0 ∧
    intAny.boxK 1 = Dyn.int 1 ∧
    intAny.boxV Dyn.nil = Dyn.nil ∧
    (Comparable.SafeMap.NewSafeMapFromKeyValuePairs intAny [Dyn.int 1, Dyn.nil]).2
      = some MapError.badValue ∧
    (Comparable.SafeMap.NewSafeMapFromKeyValuePairs floatInt
      [Sum.inl Float64.nan, Sum.inr 7]).2 = none ∧
    (Comparable.SafeMap.NewSafeMapFromKeyValuePairs floatInt
      [Sum.inl Float64.nan, Sum.inr 7]).1.Len = 1 ∧
    (Comparable.SafeMap.NewSafeMapFromKeyValuePairs floatInt
      [Sum.inl Float64.nan, Sum.inr 7]).1.Get Float64.nan = (0, false) := by
  decide

/-- C6, amended: `NewSafeMapFromKeyValuePairs(xs)` returns an error iff `len(xs)`
is odd, or the assertion `.(K)` fails on some element at an even position, or
the assertion `.(V)` fails on some element at an odd position.  When it
returns no error, with `ps` the typed pairs of `xs`, `Len()` is the number of
distinct keys of `ps`, and every key `k` with `k == k` is mapped to the value of
the last pair of `ps` whose key is equal to `k`. -/
theorem C6_NewSafeMapFromKeyValuePairs {A K V : Type} [GoEq K] [Inhabited V]
    (c : AnyRepr A K V) (xs : List A) :
    ((Comparable.SafeMap.NewSafeMapFromKeyValuePairs c xs).2 ≠ none ↔
      (xs.length % 2 = 1 ∨
       (∃ i x, i % 2 = 0 ∧ xs[i]? = some x ∧ c.assertK x = none) ∨
       (∃ i x, i % 2 = 1 ∧ xs[i]? = some x ∧ c.assertV x = none))) ∧
    ((Comparable.SafeMap.NewSafeMapFromKeyValuePairs c xs).2 = none →
      ∃ ps, IsTypedPairs c xs ps ∧
        (Comparable.SafeMap.NewSafeMapFromKeyValuePairs c xs).1.Len
          = Comparable.distinctCount (ps.map Prod.fst) ∧
        ∀ (j : Nat) k v, ps[j]? = some (k, v) → GoEq.eq k k = true →
          (∀ (j1 : Nat) k1 v1, j < j1 → ps[j1]? = some (k1, v1) → GoEq.eq k1 k = false) →
          (Comparable.SafeMap.NewSafeMapFromKeyValuePairs c xs).1.Get k = (v, true)) := by
  by_cases hodd : xs.length % 2 = 0
  · have hres : Comparable.SafeMap.NewSafeMapFromKeyValuePairs c xs
        = Comparable.SafeMap.pairsLoop c xs ⟨Comparable.GoMap.empty⟩ := by
      simp [Comparable.SafeMap.NewSafeMapFromKeyValuePairs, hodd]
    rw [hres]
    refine ⟨?_, ?_⟩
    · rw [cmp_pairsLoop_err_iff c xs hodd]
      constructor
      · intro h; exact Or.inr h
      · rintro (h | h)
        · omega
        · exact h
    · intro hok
      obtain ⟨ps, htyped, hm⟩ := cmp_pairsLoop_ok c xs hodd ⟨Comparable.GoMap.empty⟩ hok
      refine ⟨ps, htyped, ?_, ?_⟩
      · simp only [Comparable.SafeMap.Len, hm]
        exact cmp_len_insertAll_empty ps
      · intro j k v hj hk hlast
        apply cmp_Get_of_some
        rw [hm, cmp_lookup_insertAll, cmp_lookupL_reverse_of_last hj hk hlast]
  · have hres : Comparable.SafeMap.NewSafeMapFromKeyValuePairs c xs
        = (⟨Comparable.GoMap.empty⟩, some MapError.oddLength) := by
      simp [Comparable.SafeMap.NewSafeMapFromKeyValuePairs, hodd]
    rw [hres]
    refine ⟨?_, ?_⟩
    · constructor
      · intro _; exact Or.inl (by omega)
      · intro _; simp
    · intro h; simp at h

/-- C6 amended, on `[1, "a", 2, "b", 1, "c"]` read as `int`/`string` pairs: no
error, and the typed pairs it is built from exist. -/
theorem C6_NewSafeMapFromKeyValuePairs_witness :
    (Comparable.SafeMap.NewSafeMapFromKeyValuePairs intString
      [Dyn.int 1, Dyn.str "a", Dyn.int 2, Dyn.str "b", Dyn.int 1, Dyn.str "c"]).2 = none ∧
    ∃ ps, IsTypedPairs intString
        [Dyn.int 1, Dyn.str "a", Dyn.int 2, Dyn.str "b", Dyn.int 1, Dyn.str "c"] ps ∧
      (Comparable.SafeMap.NewSafeMapFromKeyValuePairs intString
        [Dyn.int 1, Dyn.str "a", Dyn.int 2, Dyn.str "b", Dyn.int 1, Dyn.str "c"]).1.Len
        = Comparable.distinctCount (ps.map Prod.fst) ∧
      ∀ (j : Nat) k v, ps[j]? = some (k, v) → GoEq.eq k k = true →
        (∀ (j1 : Nat) k1 v1, j < j1 → ps[j1]? = some (k1, v1) → GoEq.eq k1 k = false) →
        (Comparable.SafeMap.NewSafeMapFromKeyValuePairs intString
          [Dyn.int 1, Dyn.str "a", Dyn.int 2, Dyn.str "b", Dyn.int 1, Dyn.str "c"]).1.Get k
          = (v, true) :=
  ⟨by decide,
   (C6_NewSafeMapFromKeyValuePairs intString
      [Dyn.int 1, Dyn.str "a", Dyn.int 2, Dyn.str "b", Dyn.int 1, Dyn.str "c"]).2 (by decide)⟩

/-! ## GetKeysValues, keys compared by `==` -/

theorem cmp_zip_fst_snd {K V : Type} (l : List (K × V)) :
    (l.map Prod.fst).zip (l.map Prod.snd) = l := by
  induction l with
  | nil => rfl
  | cons e l ih => simp [ih]

theorem cmp_GetKeysValues_eq {K V : Type} [GoEq K] (o : RangeOrder (K × V))
    (sm : Comparable.SafeMap K V) :
    sm.GetKeysValues o = ((sm.m.range o).map Prod.fst, (sm.m.range o).map Prod.snd) := by
  simp [Comparable.SafeMap.GetKeysValues, foldl_keys_values]

/-- C8, a key that is not equal to itself: the `SafeMap[float64, int]` after
`Set(NaN, 7)` has `Len() = 1` and `GetKeysValues()` returns `([NaN], [7])`, and
`Get(keys[0])` returns `(0, false)`, not `(7, true)`. -/
theorem C8_Get_misses_NaN_key :
    ((Comparable.SafeMap.NewSafeMap : Comparable.SafeMap Float64 Nat).Set
      Float64.nan 7).GetKeysValues RangeOrder.stored = ([Float64.nan], [7]) ∧
    ((Comparable.SafeMap.NewSafeMap : Comparable.SafeMap Float64 Nat).Set
      Float64.nan 7).Len = 1 ∧
    ((Comparable.SafeMap.NewSafeMap : Comparable.SafeMap Float64 Nat).Set
      Float64.nan 7).Get Float64.nan = (0, false) := by
  decide

/-- C8, amended: for every `SafeMap` and every order of the loop, `GetKeysValues()`
returns two sequences of length `Len()`; no two of the keys are equal, the
pairs `(keys[i], values[i])` are the entries of the map, each once, a key `k`
is present in the map iff one of the returned keys is equal to it, and
`Get(keys[i]) = (values[i], true)` for every index `i` with
`keys[i] == keys[i]`. -/
theorem C8_GetKeysValues {K V : Type} [GoEq K] [Inhabited V]
    (o : RangeOrder (K × V)) (sm : Comparable.SafeMap K V) :
    (sm.GetKeysValues o).1.length = sm.Len ∧
    (sm.GetKeysValues o).2.length = sm.Len ∧
    (sm.GetKeysValues o).1.Pairwise (fun a b => GoEq.eq a b = false) ∧
    ((sm.GetKeysValues o).1.zip (sm.GetKeysValues o).2).Perm sm.m.entries ∧
    (∀ k, (∃ k1 ∈ (sm.GetKeysValues o).1, GoEq.eq k1 k = true) ↔ (sm.Get k).2 = true) ∧
    (∀ (i : Nat) k v, (sm.GetKeysValues o).1[i]? = some k →
      (sm.GetKeysValues o).2[i]? = some v → GoEq.eq k k = true → sm.Get k = (v, true)) := by
  rw [cmp_GetKeysValues_eq]
  have hlen : (sm.m.range o).length = sm.Len := cmp_length_range o sm.m
  refine ⟨by simpa using hlen, by simpa using hlen, ?_, ?_, ?_, ?_⟩
  · exact List.pairwise_map.mpr (cmp_distinct_range o sm.m)
  · show (((sm.m.range o).map Prod.fst).zip ((sm.m.range o).map Prod.snd)).Perm sm.m.entries
    rw [cmp_zip_fst_snd]
    exact o.perm sm.m.entries
  · intro k
    rw [cmp_Get_snd_true_iff]
    have h1 : (∃ v, sm.m.lookup k = some v) ↔ (Comparable.lookupL k sm.m.entries).isSome = true := by
      simp only [Comparable.GoMap.lookup]
      cases Comparable.lookupL k sm.m.entries <;> simp
    rw [h1, cmp_lookupL_isSome_iff]
    constructor
    · rintro ⟨k1, hk1, hk⟩
      obtain ⟨e, he, hek⟩ := List.mem_map.mp hk1
      exact ⟨e, (cmp_mem_range_iff o sm.m e).mp he, hek ▸ hk⟩
    · rintro ⟨e, he, hk⟩
      exact ⟨e.1, List.mem_map_of_mem Prod.fst ((cmp_mem_range_iff o sm.m e).mpr he), hk⟩
  · intro i k v hk hv hkk
    apply cmp_Get_of_some
    have hkv : (sm.m.range o)[i]? = some (k, v) := by
      simp only [List.getElem?_map] at hk hv
      cases h : (sm.m.range o)[i]? with
      | none => simp [h] at hk
      | some e =>
        rw [h] at hk hv
        simp only [Option.map_some', Option.some.injEq] at hk hv
        rw [← hk, ← hv]
    have hmem : (k, v) ∈ sm.m.entries :=
      (cmp_mem_range_iff o sm.m (k, v)).mp (List.getElem?_mem hkv)
    exact cmp_lookupL_of_mem sm.m.distinct hmem hkk

/-- C8 amended, on the `SafeMap[float64, int]` `{1: 10, NaN: 20}` visited from the
last stored entry to the first: the key and the value at index 0 belong
together. -/
theorem C8_GetKeysValues_witness :
    ((((Comparable.SafeMap.NewSafeMap : Comparable.SafeMap Float64 Nat).Set
      (Float64.num 1) 10).Set Float64.nan 20).GetKeysValues RangeOrder.backwards)
      = ([Float64.num 1, Float64.nan], [10, 20]) ∧
    (((Comparable.SafeMap.NewSafeMap : Comparable.SafeMap Float64 Nat).Set
      (Float64.num 1) 10).Set Float64.nan 20).Get (Float64.num 1) = (10, true) :=
  ⟨by decide,
   (C8_GetKeysValues RangeOrder.backwards
      (((Comparable.SafeMap.NewSafeMap : Comparable.SafeMap Float64 Nat).Set
        (Float64.num 1) 10).Set Float64.nan 20)).2.2.2.2.2 0 (Float64.num 1) 10
      (by decide) (by decide) (by decide)⟩

/-! ## Sets with elements compared by `==` -/

section CmpSetFacts

variable {T : Type} [GoEq T]

theorem cmp_Contains_iff (s : Comparable.SafeSet.Set T) (x : T) :
    s.Contains x = true ↔ ∃ e ∈ s.items.entries, GoEq.eq e.1 x = true :=
  cmp_lookupL_isSome_iff x s.items.entries

theorem cmp_Contains_eq_false_iff (s : Comparable.SafeSet.Set T) (x : T) :
    s.Contains x = false ↔ s.items.lookup x = none := by
  cases h : s.items.lookup x <;> simp [Comparable.SafeSet.Set.Contains, h]

theorem cmp_Contains_eq_true_iff (s : Comparable.SafeSet.Set T) (x : T) :
    s.Contains x = true ↔ s.items.lookup x = some () := by
  cases h : s.items.lookup x <;> simp [Comparable.SafeSet.Set.Contains, h]

theorem cmp_Contains_NewSet (x : T) :
    (Comparable.SafeSet.Set.NewSet : Comparable.SafeSet.Set T).Contains x = false := rfl

theorem cmp_Contains_Add (s : Comparable.SafeSet.Set T) (y x : T) :
    (s.Add y).Contains x = (GoEq.eq y x || s.Contains x) := by
  simp only [Comparable.SafeSet.Set.Contains, Comparable.SafeSet.Set.Add, cmp_lookup_insert]
  cases GoEq.eq y x <;> simp

theorem cmp_Contains_congr {a b : T} (h : GoEq.eq a b = true) (s : Comparable.SafeSet.Set T) :
    s.Contains a = s.Contains b := by
  apply Bool_eq_of_iff
  rw [cmp_Contains_iff, cmp_Contains_iff]
  constructor
  · rintro ⟨e, he, h1⟩
    exact ⟨e, he, (goeq_congr_right h e.1) ▸ h1⟩
  · rintro ⟨e, he, h1⟩
    exact ⟨e, he, (goeq_congr_right h e.1).symm ▸ h1⟩

theorem cmp_Contains_of_mem (s : Comparable.SafeSet.Set T) {e : T × Unit}
    (he : e ∈ s.items.entries) (h : GoEq.eq e.1 e.1 = true) : s.Contains e.1 = true :=
  (cmp_Contains_iff s e.1).mpr ⟨e, he, h⟩

theorem cmp_self_eq_of_Contains {s : Comparable.SafeSet.Set T} {x : T}
    (h : s.Contains x = true) : GoEq.eq x x = true := by
  obtain ⟨e, _, h1⟩ := (cmp_Contains_iff s x).mp h
  exact goeq_self_of_eq_right h1

theorem cmp_Contains_foldl_Add_cond (p : T → Bool) (l : List (T × Unit))
    (u : Comparable.SafeSet.Set T) (x : T) :
    (l.foldl (fun (r : Comparable.SafeSet.Set T) e => if p e.1 then r.Add e.1 else r) u).Contains x
        = true ↔
      (∃ e ∈ l, p e.1 = true ∧ GoEq.eq e.1 x = true) ∨ u.Contains x = true := by
  induction l generalizing u with
  | nil => simp
  | cons e l ih =>
    rw [List.foldl_cons, ih]
    by_cases hc : p e.1 = true
    · simp only [hc, if_true, cmp_Contains_Add, Bool.or_eq_true, List.mem_cons]
      constructor
      · rintro (⟨e1, he1, h1⟩ | h | h)
        · exact Or.inl ⟨e1, Or.inr he1, h1⟩
        · exact Or.inl ⟨e, Or.inl rfl, hc, h⟩
        · exact Or.inr h
      · rintro (⟨e1, he1 | he1, h1⟩ | h)
        · subst he1; exact Or.inr (Or.inl h1.2)
        · exact Or.inl ⟨e1, he1, h1⟩
        · exact Or.inr (Or.inr h)
    · simp only [hc, Bool.false_eq_true, if_false, List.mem_cons]
      constructor
      · rintro (⟨e1, he1, h1⟩ | h)
        · exact Or.inl ⟨e1, Or.inr he1, h1⟩
        · exact Or.inr h
      · rintro (⟨e1, he1 | he1, h1⟩ | h)
        · subst he1; exact absurd h1.1 hc
        · exact Or.inl ⟨e1, he1, h1⟩
        · exact Or.inr h

theorem cmp_mem_entries_Add (s : Comparable.SafeSet.Set T) (y : T) (c : T × Unit)
    (h : c ∈ (s.Add y).items.entries) : c = (y, ()) ∨ c ∈ s.items.entries := by
  simp only [Comparable.SafeSet.Set.Add, Comparable.GoMap.insert, List.mem_cons] at h
  rcases h with h | h
  · exact Or.inl h
  · exact Or.inr (List.mem_filter.mp h).1

theorem cmp_mem_entries_foldl_Add_cond (p : T → Bool) (l : List (T × Unit))
    (u : Comparable.SafeSet.Set T) (c : T × Unit)
    (h : c ∈ (l.foldl (fun (r : Comparable.SafeSet.Set T) e =>
      if p e.1 then r.Add e.1 else r) u).items.entries) :
    (c ∈ l ∧ p c.1 = true) ∨ c ∈ u.items.entries := by
  induction l generalizing u with
  | nil => exact Or.inr h
  | cons e l ih =>
    rw [List.foldl_cons] at h
    rcases ih _ h with h1 | h1
    · exact Or.inl ⟨List.mem_cons_of_mem e h1.1, h1.2⟩
    · by_cases hc : p e.1 = true
      · simp only [hc, if_true] at h1
        rcases cmp_mem_entries_Add u e.1 c h1 with h2 | h2
        · have h3 : c = e := h2
          exact Or.inl ⟨h3 ▸ List.mem_cons_self e l, h3 ▸ hc⟩
        · exact Or.inr h2
      · simp only [hc, Bool.false_eq_true, if_false] at h1
        exact Or.inr h1

theorem cmp_Size_foldl_Add_cond (p : T → Bool) (l : List (T × Unit))
    (u : Comparable.SafeSet.Set T)
    (hd : l.Pairwise (fun a b => GoEq.eq a.1 b.1 = false))
    (hu : ∀ e ∈ l, u.Contains e.1 = false) :
    (l.foldl (fun (r : Comparable.SafeSet.Set T) e => if p e.1 then r.Add e.1 else r) u).Size
      = u.Size + (l.filter (fun e => p e.1)).length := by
  induction l generalizing u with
  | nil => simp
  | cons e l ih =>
    rw [List.pairwise_cons] at hd
    rw [List.foldl_cons]
    by_cases hc : p e.1 = true
    · have hsz : (u.Add e.1).Size = u.Size + 1 :=
        cmp_len_insert_of_none u.items ()
          ((cmp_Contains_eq_false_iff u e.1).mp (hu e (List.mem_cons_self e l)))
      have hu1 : ∀ e1 ∈ l, (u.Add e.1).Contains e1.1 = false := by
        intro e1 he1
        rw [cmp_Contains_Add, hd.1 e1 he1, hu e1 (List.mem_cons_of_mem e he1)]
        rfl
      simp only [hc, if_true]
      rw [ih (u.Add e.1) hd.2 hu1, hsz, List.filter_cons]
      simp only [hc, if_true, List.length_cons]
      omega
    · simp only [hc, Bool.false_eq_true, if_false]
      rw [ih u hd.2 (fun e1 he1 => hu e1 (List.mem_cons_of_mem e he1)), List.filter_cons]
      simp only [hc, Bool.false_eq_true, if_false]

theorem cmp_Contains_foldl_Add (l : List (T × Unit)) (u : Comparable.SafeSet.Set T) (x : T) :
    (l.foldl (fun (r : Comparable.SafeSet.Set T) e => r.Add e.1) u).Contains x = true ↔
      (∃ e ∈ l, GoEq.eq e.1 x = true) ∨ u.Contains x = true := by
  simpa using cmp_Contains_foldl_Add_cond (fun _ => true) l u x

theorem cmp_mem_entries_foldl_Add (l : List (T × Unit)) (u : Comparable.SafeSet.Set T)
    (c : T × Unit)
    (h : c ∈ (l.foldl (fun (r : Comparable.SafeSet.Set T) e => r.Add e.1) u).items.entries) :
    c ∈ l ∨ c ∈ u.items.entries := by
  have h1 := cmp_mem_entries_foldl_Add_cond (fun _ => true) l u c (by simpa using h)
  rcases h1 with h2 | h2
  · exact Or.inl h2.1
  · exact Or.inr h2

theorem cmp_length_filter_split {α : Type} (p : α → Bool) (l : List α) :
    (l.filter p).length + (l.filter (fun a => !p a)).length = l.length := by
  induction l with
  | nil => rfl
  | cons a l ih =>
    cases h : p a <;> simp [List.filter_cons, h] <;> omega

theorem cmp_Contains_range_iff (o : RangeOrder (T × Unit)) (s : Comparable.SafeSet.Set T)
    (x : T) :
    (∃ e ∈ s.items.range o, GoEq.eq e.1 x = true) ↔ s.Contains x = true := by
  rw [cmp_Contains_iff]
  constructor
  · rintro ⟨e, he, h⟩; exact ⟨e, (cmp_mem_range_iff o s.items e).mp he, h⟩
  · rintro ⟨e, he, h⟩; exact ⟨e, (cmp_mem_range_iff o s.items e).mpr he, h⟩

theorem cmp_Contains_Intersection (o : RangeOrder (T × Unit))
    (s other : Comparable.SafeSet.Set T) (x : T) :
    (s.Intersection o other).Contains x = true ↔
      s.Contains x = true ∧ other.Contains x = true := by
  rw [Comparable.SafeSet.Set.Intersection, cmp_Contains_foldl_Add_cond (fun y => other.Contains y),
    cmp_Contains_NewSet, ← cmp_Contains_range_iff o s x]
  constructor
  · rintro (⟨e, he, h1, h2⟩ | h)
    · exact ⟨⟨e, he, h2⟩, (cmp_Contains_congr h2 other) ▸ h1⟩
    · cases h
  · rintro ⟨⟨e, he, h2⟩, h1⟩
    exact Or.inl ⟨e, he, (cmp_Contains_congr h2 other).symm ▸ h1, h2⟩

theorem cmp_Contains_Difference (o : RangeOrder (T × Unit))
    (s other : Comparable.SafeSet.Set T) (x : T) :
    (s.Difference o other).Contains x = true ↔
      s.Contains x = true ∧ other.Contains x = false := by
  rw [Comparable.SafeSet.Set.Difference,
    cmp_Contains_foldl_Add_cond (fun y => !other.Contains y),
    cmp_Contains_NewSet, ← cmp_Contains_range_iff o s x]
  constructor
  · rintro (⟨e, he, h1, h2⟩ | h)
    · refine ⟨⟨e, he, h2⟩, ?_⟩
      rw [← cmp_Contains_congr h2 other]
      simpa using h1
    · cases h
  · rintro ⟨⟨e, he, h2⟩, h1⟩
    refine Or.inl ⟨e, he, ?_, h2⟩
    rw [cmp_Contains_congr h2 other, h1]
    rfl

theorem cmp_Contains_SymmetricDifference (o1 o2 : RangeOrder (T × Unit))
    (s other : Comparable.SafeSet.Set T) (x : T) :
    (s.SymmetricDifference o1 o2 other).Contains x = true ↔
      (s.Contains x = true ∧ other.Contains x = false) ∨
      (s.Contains x = false ∧ other.Contains x = true) := by
  have h1 := cmp_Contains_Difference o1 s other x
  rw [Comparable.SafeSet.Set.Difference] at h1
  simp only [Comparable.SafeSet.Set.SymmetricDifference]
  rw [cmp_Contains_foldl_Add_cond (fun y => !s.Contains y), h1,
    ← cmp_Contains_range_iff o2 other x]
  constructor
  · rintro (⟨e, he, h2, h3⟩ | h)
    · refine Or.inr ⟨?_, ⟨e, he, h3⟩⟩
      rw [← cmp_Contains_congr h3 s]
      simpa using h2
    · exact Or.inl h
  · rintro (h | ⟨h2, ⟨e, he, h3⟩⟩)
    · exact Or.inr h
    · refine Or.inl ⟨e, he, ?_, h3⟩
      rw [cmp_Contains_congr h3 s, h2]
      rfl

theorem cmp_Contains_Union (o1 o2 : RangeOrder (T × Unit))
    (s other : Comparable.SafeSet.Set T) (x : T) :
    (s.Union o1 o2 other).Contains x = true ↔
      s.Contains x = true ∨ other.Contains x = true := by
  simp only [Comparable.SafeSet.Set.Union]
  rw [cmp_Contains_foldl_Add, cmp_Contains_foldl_Add, cmp_Contains_NewSet,
    ← cmp_Contains_range_iff o1 s x, ← cmp_Contains_range_iff o2 other x]
  simp only [Bool.false_eq_true, or_false]
  exact Or.comm

theorem cmp_Contains_Clone (o : RangeOrder (T × Unit)) (s : Comparable.SafeSet.Set T) (x : T) :
    (s.Clone o).Contains x = s.Contains x := by
  apply Bool_eq_of_iff
  rw [Comparable.SafeSet.Set.Clone, cmp_Contains_foldl_Add,
    cmp_Contains_NewSet, ← cmp_Contains_range_iff o s x]
  simp

theorem cmp_mem_entries_Clone (o : RangeOrder (T × Unit)) (s : Comparable.SafeSet.Set T)
    (c : T × Unit) (h : c ∈ (s.Clone o).items.entries) : c ∈ s.items.entries := by
  rw [Comparable.SafeSet.Set.Clone] at h
  rcases cmp_mem_entries_foldl_Add _ _ c h with h1 | h1
  · exact (cmp_mem_range_iff o s.items c).mp h1
  · cases h1

theorem cmp_Size_foldl_range (o : RangeOrder (T × Unit)) (p : T → Bool)
    (s : Comparable.SafeSet.Set T) :
    ((s.items.range o).foldl (fun (r : Comparable.SafeSet.Set T) e =>
        if p e.1 then r.Add e.1 else r) Comparable.SafeSet.Set.NewSet).Size
      = (s.items.entries.filter (fun e => p e.1)).length := by
  rw [cmp_Size_foldl_Add_cond p _ _ (cmp_distinct_range o s.items)
    (fun e _ => cmp_Contains_NewSet e.1)]
  have h1 : (Comparable.SafeSet.Set.NewSet : Comparable.SafeSet.Set T).Size = 0 := rfl
  rw [h1, Nat.zero_add]
  exact ((o.perm s.items.entries).filter _).length_eq

theorem cmp_subsetLoop_iff (other : Comparable.SafeSet.Set T) (l : List (T × Unit)) :
    Comparable.SafeSet.Set.subsetLoop other l = true ↔
      ∀ e ∈ l, other.Contains e.1 = true := by
  induction l with
  | nil => simp [Comparable.SafeSet.Set.subsetLoop]
  | cons e l ih =>
    cases hc : other.Contains e.1 with
    | false => simp [Comparable.SafeSet.Set.subsetLoop, hc]
    | true => simp [Comparable.SafeSet.Set.subsetLoop, hc, ih]

theorem cmp_IsSubsetOf_iff (o : RangeOrder (T × Unit)) (s other : Comparable.SafeSet.Set T) :
    s.IsSubsetOf o other = true ↔ ∀ e ∈ s.items.entries, other.Contains e.1 = true := by
  rw [Comparable.SafeSet.Set.IsSubsetOf, cmp_subsetLoop_iff]
  constructor
  · intro h e he; exact h e ((cmp_mem_range_iff o s.items e).mpr he)
  · intro h e he; exact h e ((cmp_mem_range_iff o s.items e).mp he)

theorem cmp_Equal_iff (o1 o2 : RangeOrder (T × Unit)) (s other : Comparable.SafeSet.Set T) :
    s.Equal o1 o2 other = true ↔
      (∀ e ∈ s.items.entries, other.Contains e.1 = true) ∧
      (∀ e ∈ other.items.entries, s.Contains e.1 = true) := by
  rw [Comparable.SafeSet.Set.Equal, Comparable.SafeSet.Set.IsSupersetOf, Bool.and_eq_true,
    cmp_IsSubsetOf_iff, cmp_IsSubsetOf_iff]

theorem cmp_IsSubsetOf_iff_Contains (o : RangeOrder (T × Unit))
    (s other : Comparable.SafeSet.Set T)
    (hs : ∀ e ∈ s.items.entries, GoEq.eq e.1 e.1 = true) :
    s.IsSubsetOf o other = true ↔ ∀ x, s.Contains x = true → other.Contains x = true := by
  rw [cmp_IsSubsetOf_iff]
  constructor
  · intro h x hx
    obtain ⟨e, he, h1⟩ := (cmp_Contains_iff s x).mp hx
    rw [← cmp_Contains_congr h1 other]
    exact h e he
  · intro h e he
    exact h e.1 (cmp_Contains_of_mem s he (hs e he))

theorem cmp_Add_Add (s : Comparable.SafeSet.Set T) {x : T} (hx : GoEq.eq x x = true) :
    (s.Add x).Add x = s.Add x := by
  have h : Comparable.eraseL x ((x, ()) :: Comparable.eraseL x s.items.entries)
      = Comparable.eraseL x s.items.entries := by
    have h1 : Comparable.eraseL x ((x, ()) :: Comparable.eraseL x s.items.entries)
        = Comparable.eraseL x (Comparable.eraseL x s.items.entries) :=
      cmp_eraseL_cons_eq (e := (x, ())) hx _
    rw [h1, cmp_eraseL_of_lookupL_none (cmp_lookupL_eraseL_self x _)]
  simp only [Comparable.SafeSet.Set.Add, Comparable.SafeSet.Set.mk.injEq]
  apply cmp_GoMap_eq_of_entries_eq
  simp only [Comparable.GoMap.insert, h]

end CmpSetFacts

/-- C11, an element that is not equal to itself: for the `Set[float64]` `A` that
holds a NaN, `A.Difference(A)` has `Size() = 1` and is not empty. -/
theorem C11_Difference_keeps_NaN :
    ((Comparable.SafeSet.Set.NewSet : Comparable.SafeSet.Set Float64).Add Float64.nan).Size
      = 1 ∧
    (((Comparable.SafeSet.Set.NewSet : Comparable.SafeSet.Set Float64).Add
        Float64.nan).Difference RangeOrder.stored
      ((Comparable.SafeSet.Set.NewSet : Comparable.SafeSet.Set Float64).Add Float64.nan)).Size
      = 1 ∧
    (((Comparable.SafeSet.Set.NewSet : Comparable.SafeSet.Set Float64).Add
        Float64.nan).Difference RangeOrder.stored
      ((Comparable.SafeSet.Set.NewSet : Comparable.SafeSet.Set Float64).Add
        Float64.nan)).IsEmpty = false := by
  decide

/-- C11, amended: for all sets `A` and `B` and every `x`, `A.Intersection(B)`
contains `x` iff `A` and `B` both contain it, and `A.Difference(B)` contains `x`
iff `A` contains it and `B` does not; the two results split `A` (an `x` that `A`
contains is in exactly one of them, and their sizes add up to `A.Size()`); an
element of `A.Difference(B)` is never in `B.Difference(A)`; `A.Difference(A)`
contains no `x`, and it is empty when every element of `A` is equal to
itself. -/
theorem C11_Intersection_Difference {T : Type} [GoEq T]
    (o1 o2 o3 : RangeOrder (T × Unit)) (A B : Comparable.SafeSet.Set T) (x : T) :
    ((A.Intersection o1 B).Contains x = true ↔
      A.Contains x = true ∧ B.Contains x = true) ∧
    ((A.Difference o2 B).Contains x = true ↔
      A.Contains x = true ∧ B.Contains x = false) ∧
    (A.Contains x = true ↔
      ((A.Intersection o1 B).Contains x = true ∨ (A.Difference o2 B).Contains x = true)) ∧
    ¬ ((A.Intersection o1 B).Contains x = true ∧ (A.Difference o2 B).Contains x = true) ∧
    (A.Intersection o1 B).Size + (A.Difference o2 B).Size = A.Size ∧
    ¬ ((A.Difference o2 B).Contains x = true ∧ (B.Difference o3 A).Contains x = true) ∧
    (A.Difference o2 A).Contains x = false ∧
    ((∀ e ∈ A.items.entries, GoEq.eq e.1 e.1 = true) →
      (A.Difference o2 A).Size = 0 ∧ (A.Difference o2 A).IsEmpty = true) := by
  have hI := cmp_Contains_Intersection o1 A B x
  have hD := cmp_Contains_Difference o2 A B x
  have hD2 := cmp_Contains_Difference o3 B A x
  have hAA : (A.Difference o2 A).Contains x = false := by
    have := cmp_Contains_Difference o2 A A x
    cases h : (A.Difference o2 A).Contains x
    · rfl
    · have h2 := this.mp h
      rw [h2.1] at h2
      exact absurd h2.2 (by simp)
  refine ⟨hI, hD, ?_, ?_, ?_, ?_, hAA, ?_⟩
  · rw [hI, hD]
    cases A.Contains x <;> cases B.Contains x <;> simp
  · rw [hI, hD]
    cases A.Contains x <;> cases B.Contains x <;> simp
  · rw [Comparable.SafeSet.Set.Intersection, Comparable.SafeSet.Set.Difference,
      cmp_Size_foldl_range o1 (fun y => B.Contains y) A,
      cmp_Size_foldl_range o2 (fun y => !B.Contains y) A]
    exact cmp_length_filter_split (fun e => B.Contains e.1) A.items.entries
  · rw [hD, hD2]
    cases A.Contains x <;> cases B.Contains x <;> simp
  · intro hrefl
    have hsize : (A.Difference o2 A).Size = 0 := by
      rw [Comparable.SafeSet.Set.Difference, cmp_Size_foldl_range o2 (fun y => !A.Contains y) A,
        List.length_eq_zero, List.filter_eq_nil_iff]
      intro e he
      simp [cmp_Contains_of_mem A he (hrefl e he)]
    refine ⟨hsize, ?_⟩
    simp only [Comparable.SafeSet.Set.IsEmpty]
    have : (A.Difference o2 A).items.len = 0 := hsize
    simp [this]

/-- C11 amended, on the `Set[float64]` `{1, 2}`: every element is equal to itself
and `A.Difference(A)` is empty. -/
theorem C11_Intersection_Difference_witness :
    ((((Comparable.SafeSet.Set.NewSet : Comparable.SafeSet.Set Float64).Add
        (Float64.num 1)).Add (Float64.num 2)).Difference RangeOrder.backwards
      (((Comparable.SafeSet.Set.NewSet : Comparable.SafeSet.Set Float64).Add
        (Float64.num 1)).Add (Float64.num 2))).Size = 0 :=
  ((C11_Intersection_Difference RangeOrder.stored RangeOrder.backwards RangeOrder.stored
    (((Comparable.SafeSet.Set.NewSet : Comparable.SafeSet.Set Float64).Add
      (Float64.num 1)).Add (Float64.num 2))
    (((Comparable.SafeSet.Set.NewSet : Comparable.SafeSet.Set Float64).Add
      (Float64.num 1)).Add (Float64.num 2)) (Float64.num 1)).2.2.2.2.2.2.2 (by decide)).1

/-- C12, an element that is not equal to itself: for the `Set[float64]` `A` that
holds a NaN and the empty set `B`, `A.SymmetricDifference(B)` and
`B.SymmetricDifference(A)` both have `Size() = 1`, and `Equal` on them returns
false. -/
theorem C12_Equal_fails_on_NaN :
    (((Comparable.SafeSet.Set.NewSet : Comparable.SafeSet.Set Float64).Add
        Float64.nan).SymmetricDifference RangeOrder.stored RangeOrder.stored
      Comparable.SafeSet.Set.NewSet).Size = 1 ∧
    ((Comparable.SafeSet.Set.NewSet : Comparable.SafeSet.Set Float64).SymmetricDifference
      RangeOrder.stored RangeOrder.stored
      ((Comparable.SafeSet.Set.NewSet : Comparable.SafeSet.Set Float64).Add Float64.nan)).Size
      = 1 ∧
    (((Comparable.SafeSet.Set.NewSet : Comparable.SafeSet.Set Float64).Add
        Float64.nan).SymmetricDifference RangeOrder.stored RangeOrder.stored
      Comparable.SafeSet.Set.NewSet).Equal RangeOrder.stored RangeOrder.stored
      ((Comparable.SafeSet.Set.NewSet : Comparable.SafeSet.Set Float64).SymmetricDifference
        RangeOrder.stored RangeOrder.stored
        ((Comparable.SafeSet.Set.NewSet : Comparable.SafeSet.Set Float64).Add Float64.nan))
      = false := by
  decide

/-- C12, amended: for all sets `A` and `B` and every `x`, `A.SymmetricDifference(B)`
contains `x` iff exactly one of `A` and `B` contains it; `A.Difference(B)` and
`B.Difference(A)` have no common element, `x` is in the symmetric difference
iff it is in one of them, and their `Union` contains the same elements as the
symmetric difference; `A.SymmetricDifference(B)` and `B.SymmetricDifference(A)`
contain the same elements, and they are `Equal` when every element of `A` and
of `B` is equal to itself. -/
theorem C12_SymmetricDifference {T : Type} [GoEq T]
    (o1 o2 o3 o4 o5 o6 o7 o8 o9 o10 : RangeOrder (T × Unit))
    (A B : Comparable.SafeSet.Set T) (x : T) :
    ((A.SymmetricDifference o1 o2 B).Contains x = true ↔
      (A.Contains x = true ∧ B.Contains x = false) ∨
      (A.Contains x = false ∧ B.Contains x = true)) ∧
    ¬ ((A.Difference o3 B).Contains x = true ∧ (B.Difference o4 A).Contains x = true) ∧
    ((A.SymmetricDifference o1 o2 B).Contains x = true ↔
      (A.Difference o3 B).Contains x = true ∨ (B.Difference o4 A).Contains x = true) ∧
    ((A.Difference o3 B).Union o5 o6 (B.Difference o4 A)).Contains x
      = (A.SymmetricDifference o1 o2 B).Contains x ∧
    (A.SymmetricDifference o1 o2 B).Contains x
      = (B.SymmetricDifference o7 o8 A).Contains x ∧
    ((∀ e ∈ A.items.entries, GoEq.eq e.1 e.1 = true) →
      (∀ e ∈ B.items.entries, GoEq.eq e.1 e.1 = true) →
      (A.SymmetricDifference o1 o2 B).Equal o9 o10 (B.SymmetricDifference o7 o8 A)
        = true) := by
  have hS := cmp_Contains_SymmetricDifference o1 o2 A B
  have hS2 := cmp_Contains_SymmetricDifference o7 o8 B A
  have hD := cmp_Contains_Difference o3 A B x
  have hD2 := cmp_Contains_Difference o4 B A x
  have hsym : ∀ y, (A.SymmetricDifference o1 o2 B).Contains y
      = (B.SymmetricDifference o7 o8 A).Contains y := by
    intro y
    apply Bool_eq_of_iff
    rw [hS y, hS2 y]
    cases A.Contains y <;> cases B.Contains y <;> simp
  have hent : ∀ (p q : RangeOrder (T × Unit)) (X Y : Comparable.SafeSet.Set T),
      (∀ e ∈ X.items.entries, GoEq.eq e.1 e.1 = true) →
      (∀ e ∈ Y.items.entries, GoEq.eq e.1 e.1 = true) →
      ∀ e ∈ (X.SymmetricDifference p q Y).items.entries,
        (X.SymmetricDifference p q Y).Contains e.1 = true := by
    intro p q X Y hX hY e he
    apply cmp_Contains_of_mem _ he
    simp only [Comparable.SafeSet.Set.SymmetricDifference] at he
    rcases cmp_mem_entries_foldl_Add_cond (fun y => !X.Contains y) _ _ e he with h1 | h1
    · exact hY e ((cmp_mem_range_iff q Y.items e).mp h1.1)
    · rcases cmp_mem_entries_foldl_Add_cond (fun y => !Y.Contains y) _ _ e h1 with h2 | h2
      · exact hX e ((cmp_mem_range_iff p X.items e).mp h2.1)
      · cases h2
  refine ⟨hS x, ?_, ?_, ?_, hsym x, ?_⟩
  · rw [hD, hD2]
    cases A.Contains x <;> cases B.Contains x <;> simp
  · rw [hS x, hD, hD2]
    cases A.Contains x <;> cases B.Contains x <;> simp
  · apply Bool_eq_of_iff
    rw [cmp_Contains_Union, hS x, hD, hD2]
    cases A.Contains x <;> cases B.Contains x <;> simp
  · intro hA hB
    rw [cmp_Equal_iff]
    refine ⟨fun e he => ?_, fun e he => ?_⟩
    · rw [← hsym e.1]; exact hent o1 o2 A B hA hB e he
    · rw [hsym e.1]; exact hent o7 o8 B A hB hA e he

/-- C12 amended, on the `Set[float64]` values `{1, 2}` and `{2, 3}`: the two
symmetric differences are `Equal`. -/
theorem C12_SymmetricDifference_witness :
    ((((Comparable.SafeSet.Set.NewSet : Comparable.SafeSet.Set Float64).Add
        (Float64.num 1)).Add (Float64.num 2)).SymmetricDifference
        RangeOrder.stored RangeOrder.backwards
      (((Comparable.SafeSet.Set.NewSet : Comparable.SafeSet.Set Float64).Add
        (Float64.num 2)).Add (Float64.num 3))).Equal RangeOrder.stored RangeOrder.stored
      ((((Comparable.SafeSet.Set.NewSet : Comparable.SafeSet.Set Float64).Add
        (Float64.num 2)).Add (Float64.num 3)).SymmetricDifference
        RangeOrder.backwards RangeOrder.stored
      (((Comparable.SafeSet.Set.NewSet : Comparable.SafeSet.Set Float64).Add
        (Float64.num 1)).Add (Float64.num 2))) = true :=
  (C12_SymmetricDifference RangeOrder.stored RangeOrder.backwards RangeOrder.stored
    RangeOrder.stored RangeOrder.stored RangeOrder.stored RangeOrder.backwards
    RangeOrder.stored RangeOrder.stored RangeOrder.stored
    (((Comparable.SafeSet.Set.NewSet : Comparable.SafeSet.Set Float64).Add
      (Float64.num 1)).Add (Float64.num 2))
    (((Comparable.SafeSet.Set.NewSet : Comparable.SafeSet.Set Float64).Add
      (Float64.num 2)).Add (Float64.num 3)) (Float64.num 1)).2.2.2.2.2
    (by decide) (by decide)

/-- C13, an element that is not equal to itself: for the `Set[float64]` `A` that
holds a NaN, `A.IsSubsetOf(A)` returns false. -/
theorem C13_IsSubsetOf_self_fails_on_NaN :
    ((Comparable.SafeSet.Set.NewSet : Comparable.SafeSet.Set Float64).Add Float64.nan).Size
      = 1 ∧
    ((Comparable.SafeSet.Set.NewSet : Comparable.SafeSet.Set Float64).Add
      Float64.nan).IsSubsetOf RangeOrder.stored
      ((Comparable.SafeSet.Set.NewSet : Comparable.SafeSet.Set Float64).Add Float64.nan)
      = false := by
  decide

/-- C13, amended: for all sets `A` and `B`, `A.IsSubsetOf(B)` is true iff `B`
contains every element stored in `A`; it is true when `A` is empty; and when
every element of `A` is equal to itself, `A.IsSubsetOf(B)` is true iff `B`
contains every `x` that `A` contains, and `A.IsSubsetOf(A)` is true. -/
theorem C13_IsSubsetOf {T : Type} [GoEq T] (o : RangeOrder (T × Unit))
    (A B : Comparable.SafeSet.Set T) :
    (A.IsSubsetOf o B = true ↔ ∀ e ∈ A.items.entries, B.Contains e.1 = true) ∧
    (A.IsEmpty = true → A.IsSubsetOf o B = true) ∧
    (Comparable.SafeSet.Set.NewSet : Comparable.SafeSet.Set T).IsSubsetOf o B = true ∧
    ((∀ e ∈ A.items.entries, GoEq.eq e.1 e.1 = true) →
      (A.IsSubsetOf o B = true ↔ ∀ x, A.Contains x = true → B.Contains x = true) ∧
      A.IsSubsetOf o A = true) := by
  refine ⟨cmp_IsSubsetOf_iff o A B, ?_, ?_, ?_⟩
  · intro hE
    rw [cmp_IsSubsetOf_iff]
    intro e he
    have hlen : A.items.entries.length = 0 := by
      simpa [Comparable.SafeSet.Set.IsEmpty, Comparable.GoMap.len] using hE
    rw [List.length_eq_zero.mp hlen] at he
    cases he
  · rw [cmp_IsSubsetOf_iff]
    intro e he
    cases he
  · intro hA
    refine ⟨cmp_IsSubsetOf_iff_Contains o A B hA, ?_⟩
    rw [cmp_IsSubsetOf_iff]
    exact fun e he => cmp_Contains_of_mem A he (hA e he)

/-- C13 amended, on the `Set[float64]` `{1, 2}`: it is a subset of itself. -/
theorem C13_IsSubsetOf_witness :
    (((Comparable.SafeSet.Set.NewSet : Comparable.SafeSet.Set Float64).Add
        (Float64.num 1)).Add (Float64.num 2)).IsSubsetOf RangeOrder.backwards
      (((Comparable.SafeSet.Set.NewSet : Comparable.SafeSet.Set Float64).Add
        (Float64.num 1)).Add (Float64.num 2)) = true :=
  ((C13_IsSubsetOf RangeOrder.backwards
    (((Comparable.SafeSet.Set.NewSet : Comparable.SafeSet.Set Float64).Add
      (Float64.num 1)).Add (Float64.num 2))
    (((Comparable.SafeSet.Set.NewSet : Comparable.SafeSet.Set Float64).Add
      (Float64.num 1)).Add (Float64.num 2))).2.2.2 (by decide)).2

/-- C14, an element that is not equal to itself: for the `Set[float64]` `A` that
holds a NaN, `A.Clone()` has `Size() = 1` as `A` has, and `A.Equal(A.Clone())`
and `A.Clone().Equal(A)` return false. -/
theorem C14_Equal_Clone_fails_on_NaN :
    (((Comparable.SafeSet.Set.NewSet : Comparable.SafeSet.Set Float64).Add
      Float64.nan).Clone RangeOrder.stored).Size = 1 ∧
    ((Comparable.SafeSet.Set.NewSet : Comparable.SafeSet.Set Float64).Add
      Float64.nan).Equal RangeOrder.stored RangeOrder.stored
      (((Comparable.SafeSet.Set.NewSet : Comparable.SafeSet.Set Float64).Add
        Float64.nan).Clone RangeOrder.stored) = false ∧
    (((Comparable.SafeSet.Set.NewSet : Comparable.SafeSet.Set Float64).Add
      Float64.nan).Clone RangeOrder.stored).Equal RangeOrder.stored RangeOrder.stored
      ((Comparable.SafeSet.Set.NewSet : Comparable.SafeSet.Set Float64).Add Float64.nan)
      = false := by
  decide

/-- C14, amended: for all sets `A` and `B`, `A.IsSupersetOf(B)` is
`B.IsSubsetOf(A)`; `A.Equal(B)` is true iff each of the two contains every
element stored in the other; `Equal` is symmetric; and when every element of
`A` is equal to itself, `A.Equal(A.Clone())` and `A.Clone().Equal(A)` are true,
and, if that holds of `B` as well, `A.Equal(B)` is true iff `A` and `B` contain
the same elements. -/
theorem C14_IsSupersetOf_Equal_Clone {T : Type} [GoEq T]
    (o o1 o2 o3 o4 o5 : RangeOrder (T × Unit)) (A B : Comparable.SafeSet.Set T) :
    A.IsSupersetOf o B = B.IsSubsetOf o A ∧
    (A.Equal o1 o2 B = true ↔
      (∀ e ∈ A.items.entries, B.Contains e.1 = true) ∧
      (∀ e ∈ B.items.entries, A.Contains e.1 = true)) ∧
    A.Equal o1 o2 B = B.Equal o3 o4 A ∧
    ((∀ e ∈ A.items.entries, GoEq.eq e.1 e.1 = true) →
      A.Equal o1 o2 (A.Clone o5) = true ∧ (A.Clone o5).Equal o1 o2 A = true ∧
      ((∀ e ∈ B.items.entries, GoEq.eq e.1 e.1 = true) →
        (A.Equal o1 o2 B = true ↔ ∀ x, A.Contains x = B.Contains x))) := by
  refine ⟨rfl, cmp_Equal_iff o1 o2 A B, ?_, ?_⟩
  · apply Bool_eq_of_iff
    rw [cmp_Equal_iff, cmp_Equal_iff]
    exact ⟨fun h => ⟨h.2, h.1⟩, fun h => ⟨h.2, h.1⟩⟩
  · intro hA
    have h1 : ∀ e ∈ A.items.entries, (A.Clone o5).Contains e.1 = true := by
      intro e he
      rw [cmp_Contains_Clone]
      exact cmp_Contains_of_mem A he (hA e he)
    have h2 : ∀ e ∈ (A.Clone o5).items.entries, A.Contains e.1 = true := by
      intro e he
      have he1 := cmp_mem_entries_Clone o5 A e he
      exact cmp_Contains_of_mem A he1 (hA e he1)
    refine ⟨(cmp_Equal_iff _ _ _ _).mpr ⟨h1, h2⟩, (cmp_Equal_iff _ _ _ _).mpr ⟨h2, h1⟩, ?_⟩
    intro hB
    rw [Comparable.SafeSet.Set.Equal, Comparable.SafeSet.Set.IsSupersetOf, Bool.and_eq_true,
      cmp_IsSubsetOf_iff_Contains o1 A B hA, cmp_IsSubsetOf_iff_Contains o2 B A hB]
    constructor
    · rintro ⟨h3, h4⟩ x
      cases hs : A.Contains x with
      | true => exact (h3 x hs).symm
      | false =>
        cases ho : B.Contains x with
        | false => rfl
        | true => rw [h4 x ho] at hs; cases hs
    · intro h
      exact ⟨fun x hx => (h x) ▸ hx, fun x hx => (h x).symm ▸ hx⟩

/-- C14 amended, on the `Set[float64]` `{1, 2}`: it is `Equal` to its clone. -/
theorem C14_IsSupersetOf_Equal_Clone_witness :
    (((Comparable.SafeSet.Set.NewSet : Comparable.SafeSet.Set Float64).Add
        (Float64.num 1)).Add (Float64.num 2)).Equal RangeOrder.stored RangeOrder.backwards
      ((((Comparable.SafeSet.Set.NewSet : Comparable.SafeSet.Set Float64).Add
        (Float64.num 1)).Add (Float64.num 2)).Clone RangeOrder.backwards) = true :=
  ((C14_IsSupersetOf_Equal_Clone RangeOrder.stored RangeOrder.stored RangeOrder.backwards
    RangeOrder.stored RangeOrder.stored RangeOrder.backwards
    (((Comparable.SafeSet.Set.NewSet : Comparable.SafeSet.Set Float64).Add
      (Float64.num 1)).Add (Float64.num 2))
    (Comparable.SafeSet.Set.NewSet : Comparable.SafeSet.Set Float64)).2.2.2 (by decide)).1

/-- C15, an item that is not equal to itself: on an empty `Set[float64]`, after
`Add(NaN)` the set has `Size() = 1` and `Contains(NaN)` is false, and a second
`Add(NaN)` makes `Size()` 2. -/
theorem C15_Add_of_NaN :
    ((Comparable.SafeSet.Set.NewSet : Comparable.SafeSet.Set Float64).Add Float64.nan).Size
      = 1 ∧
    ((Comparable.SafeSet.Set.NewSet : Comparable.SafeSet.Set Float64).Add
      Float64.nan).Contains Float64.nan = false ∧
    (((Comparable.SafeSet.Set.NewSet : Comparable.SafeSet.Set Float64).Add
      Float64.nan).Add Float64.nan).Size = 2 := by
  decide

/-- C15, amended: for every set and item `x`, `AddWithCheck(x)` returns whether
`x` was already in the set and leaves the set exactly as `Add(x)` does; after
`Add(x)` the set contains `x` if `x == x`, membership of every element not
equal to `x` is unchanged, and `Size()` has grown by one if `x` was absent and
is unchanged if it was present; a second `Add(x)` changes nothing if
`x == x`. -/
theorem C15_Add_AddWithCheck {T : Type} [GoEq T] (s : Comparable.SafeSet.Set T) (x : T) :
    (s.AddWithCheck x).2 = s.Contains x ∧
    (s.AddWithCheck x).1 = s.Add x ∧
    (GoEq.eq x x = true → (s.Add x).Contains x = true) ∧
    (∀ y, GoEq.eq x y = false → (s.Add x).Contains y = s.Contains y) ∧
    (s.Contains x = false → (s.Add x).Size = s.Size + 1) ∧
    (s.Contains x = true → (s.Add x).Size = s.Size) ∧
    (GoEq.eq x x = true → (s.Add x).Add x = s.Add x) := by
  refine ⟨rfl, rfl, ?_, ?_, ?_, ?_, fun hx => cmp_Add_Add s hx⟩
  · intro hx
    simp [cmp_Contains_Add, hx]
  · intro y hy
    simp [cmp_Contains_Add, hy]
  · intro h
    exact cmp_len_insert_of_none s.items () ((cmp_Contains_eq_false_iff s x).mp h)
  · intro h
    exact cmp_len_insert_of_some s.items () ((cmp_Contains_eq_true_iff s x).mp h)

/-- C15 amended, on the `Set[float64]` `{1, NaN}`: `AddWithCheck(3)` returns false,
the size goes from 2 to 3, and the set contains 3 afterwards. -/
theorem C15_Add_AddWithCheck_witness :
    ((((Comparable.SafeSet.Set.NewSet : Comparable.SafeSet.Set Float64).Add
        (Float64.num 1)).Add Float64.nan).AddWithCheck (Float64.num 3)).2 = false ∧
    ((((Comparable.SafeSet.Set.NewSet : Comparable.SafeSet.Set Float64).Add
        (Float64.num 1)).Add Float64.nan).Add (Float64.num 3)).Size = 2 + 1 ∧
    ((((Comparable.SafeSet.Set.NewSet : Comparable.SafeSet.Set Float64).Add
        (Float64.num 1)).Add Float64.nan).Add (Float64.num 3)).Contains (Float64.num 3)
      = true :=
  have h := C15_Add_AddWithCheck
    (((Comparable.SafeSet.Set.NewSet : Comparable.SafeSet.Set Float64).Add
      (Float64.num 1)).Add Float64.nan) (Float64.num 3)
  ⟨h.1.trans (by decide), h.2.2.2.2.1 (by decide), h.2.2.1 (by decide)⟩

/-! ## Facts about slices with their backing arrays -/

section ArraysFacts

variable {T : Type}

theorem arr_write_absent (m : Arrays.Mem T) {a : Nat} (h : m.arrays.length ≤ a) (pos : Nat)
    (vals : List T) : (m.write a pos vals).arrays = m.arrays := by
  simp only [Arrays.Mem.write]
  exact List.set_eq_of_length_le h

end ArraysFacts

section ArraysAppend

variable {T : Type} [Inhabited T]

end ArraysAppend

section ArraysMethods

variable {T : Type} [Inhabited T]

end ArraysMethods

section ArraysCopy

variable {T : Type} [Inhabited T]

end ArraysCopy

end GoThreadSafe
